import Mathlib

/-!
Verification of the maze core of the Unmasked repository
(Source/TheLastMask/MazeSystem): the discovery/ability state machine,
the BFS pathfinder with its coordinate conversions, and the maze
generator with its three carving algorithms.

Modelling conventions:
- int32 values are modelled as unbounded integers (the grids involved are
  far below overflow range); uint8 direction/state bytes as naturals.
- float world coordinates are modelled as rationals.
- TArray indexing is modelled by list indexing guarded exactly as the
  source guards it.
- FRandomStream (engine code, outside this repository) is modelled as an
  arbitrary deterministic stream of naturals together with a cursor;
  RandRange min max consumes one stream value and maps it into
  the interval. Theorems about generation quantify over every stream,
  hence cover every seed of the engine stream.
-/

namespace Unmasked

/-- Pathfinding target selector (EMazePathTarget in MazeTypes.h). -/
inductive EMazePathTarget where
  | Exit
  | Key
  | NoTarget
deriving DecidableEq, Repr

/-- Runtime state of the maze brain (FMazeGameState in MazeTypes.h),
with all fields at their C++ default initializers. -/
structure FMazeGameState where
  bExitDiscovered : Bool := false
  bHasKey : Bool := false
  CurrentTarget : EMazePathTarget := EMazePathTarget.Exit
  bPathVisible : Bool := false
  bHollowMaskUnlocked : Bool := false
  bHollowMaskPermanentlyLocked : Bool := false
deriving DecidableEq, Repr

/-- Delegate broadcasts fired by AMazeManager during state transitions. -/
inductive MazeNotification where
  | OnExitDiscovered
  | OnKeyCollected
  | OnTargetChanged (NewTarget : EMazePathTarget)
  | OnHollowMaskUnlocked
deriving DecidableEq, Repr

/-- Hollow-mask state update (AMazeManager::UpdateHollowMaskState,
MazeManager.cpp lines 535-585): permanent lock takes precedence, key
before exit permanently locks, exit before key unlocks once. -/
def UpdateHollowMaskState (s : FMazeGameState) :
    FMazeGameState × List MazeNotification :=
  if s.bHollowMaskPermanentlyLocked then
    (s, [])
  else if s.bHasKey && !s.bExitDiscovered then
    ({ s with bHollowMaskPermanentlyLocked := true }, [])
  else if s.bExitDiscovered && !s.bHasKey && !s.bHollowMaskUnlocked then
    ({ s with bHollowMaskUnlocked := true }, [MazeNotification.OnHollowMaskUnlocked])
  else
    (s, [])

/-- Target recomputation (AMazeManager::UpdatePathfindingTarget,
MazeManager.cpp lines 494-533): key owned targets Exit, else discovered
exit targets Key, else Exit; fires OnTargetChanged only on change. -/
def UpdatePathfindingTarget (s : FMazeGameState) :
    FMazeGameState × List MazeNotification :=
  let OldTarget := s.CurrentTarget
  let NewTarget :=
    if s.bHasKey then EMazePathTarget.Exit
    else if s.bExitDiscovered then EMazePathTarget.Key
    else EMazePathTarget.Exit
  let s2 := { s with CurrentTarget := NewTarget }
  if NewTarget ≠ OldTarget then
    (s2, [MazeNotification.OnTargetChanged NewTarget])
  else
    (s2, [])

/-- Exit-discovered event (AMazeManager::NotifyExitDiscovered,
MazeManager.cpp lines 444-462). Returns the new state and the
notifications fired, in firing order. -/
def NotifyExitDiscovered (s : FMazeGameState) :
    FMazeGameState × List MazeNotification :=
  if s.bExitDiscovered then
    (s, [])
  else
    let s1 := { s with bExitDiscovered := true }
    let r2 := UpdateHollowMaskState s1
    let r3 := UpdatePathfindingTarget r2.1
    (r3.1, MazeNotification.OnExitDiscovered :: (r2.2 ++ r3.2))

/-- Key-collected event (AMazeManager::NotifyKeyCollected,
MazeManager.cpp lines 464-482). -/
def NotifyKeyCollected (s : FMazeGameState) :
    FMazeGameState × List MazeNotification :=
  if s.bHasKey then
    (s, [])
  else
    let s1 := { s with bHasKey := true }
    let r2 := UpdateHollowMaskState s1
    let r3 := UpdatePathfindingTarget r2.1
    (r3.1, MazeNotification.OnKeyCollected :: (r2.2 ++ r3.2))

/-- Hollow-mask availability query (AMazeManager::IsHollowMaskAvailable,
MazeManager.cpp lines 489-492). -/
def IsHollowMaskAvailable (s : FMazeGameState) : Bool :=
  s.bHollowMaskUnlocked && !s.bHollowMaskPermanentlyLocked

/-- Exit-permission query (AMazeManager::CanExitMaze,
MazeManager.cpp lines 484-487). -/
def CanExitMaze (s : FMazeGameState) : Bool :=
  s.bExitDiscovered && s.bHasKey

/-- Discovery events that drive the state machine. -/
inductive MazeEvent where
  | exitDiscovered
  | keyCollected
deriving DecidableEq, Repr

/-- Applies one discovery event, dropping the fired notifications. -/
def ApplyEvent (s : FMazeGameState) (e : MazeEvent) : FMazeGameState :=
  match e with
  | MazeEvent.exitDiscovered => (NotifyExitDiscovered s).1
  | MazeEvent.keyCollected => (NotifyKeyCollected s).1

/-- Applies a sequence of discovery events in order. -/
def ApplyEvents (s : FMazeGameState) (es : List MazeEvent) : FMazeGameState :=
  es.foldl ApplyEvent s

/-- Initial discovery state: all flags false, target Exit. -/
def InitialGameState : FMazeGameState := {}

lemma UpdateHollowMaskState_exit (s : FMazeGameState) :
    (UpdateHollowMaskState s).1.bExitDiscovered = s.bExitDiscovered := by
  simp only [UpdateHollowMaskState]
  split_ifs <;> rfl

lemma UpdateHollowMaskState_key (s : FMazeGameState) :
    (UpdateHollowMaskState s).1.bHasKey = s.bHasKey := by
  simp only [UpdateHollowMaskState]
  split_ifs <;> rfl

lemma UpdateHollowMaskState_perm_mono (s : FMazeGameState)
    (h : s.bHollowMaskPermanentlyLocked = true) :
    (UpdateHollowMaskState s).1.bHollowMaskPermanentlyLocked = true := by
  simp [UpdateHollowMaskState, h]

lemma UpdatePathfindingTarget_state (s : FMazeGameState) :
    (UpdatePathfindingTarget s).1 =
      { s with CurrentTarget := (UpdatePathfindingTarget s).1.CurrentTarget } := by
  simp only [UpdatePathfindingTarget]
  split_ifs <;> rfl

lemma UpdatePathfindingTarget_exit (s : FMazeGameState) :
    (UpdatePathfindingTarget s).1.bExitDiscovered = s.bExitDiscovered := by
  simp only [UpdatePathfindingTarget]
  split_ifs <;> rfl

lemma UpdatePathfindingTarget_key (s : FMazeGameState) :
    (UpdatePathfindingTarget s).1.bHasKey = s.bHasKey := by
  simp only [UpdatePathfindingTarget]
  split_ifs <;> rfl

lemma UpdatePathfindingTarget_unlocked (s : FMazeGameState) :
    (UpdatePathfindingTarget s).1.bHollowMaskUnlocked = s.bHollowMaskUnlocked := by
  simp only [UpdatePathfindingTarget]
  split_ifs <;> rfl

lemma UpdatePathfindingTarget_perm (s : FMazeGameState) :
    (UpdatePathfindingTarget s).1.bHollowMaskPermanentlyLocked =
      s.bHollowMaskPermanentlyLocked := by
  simp only [UpdatePathfindingTarget]
  split_ifs <;> rfl

lemma NotifyExitDiscovered_exit (s : FMazeGameState) :
    (NotifyExitDiscovered s).1.bExitDiscovered = true := by
  simp only [NotifyExitDiscovered]
  split_ifs with h
  · exact h
  · simp [UpdatePathfindingTarget_exit, UpdateHollowMaskState_exit]

lemma NotifyKeyCollected_key (s : FMazeGameState) :
    (NotifyKeyCollected s).1.bHasKey = true := by
  simp only [NotifyKeyCollected]
  split_ifs with h
  · exact h
  · simp [UpdatePathfindingTarget_key, UpdateHollowMaskState_key]

lemma ApplyEvent_perm_mono (s : FMazeGameState) (e : MazeEvent)
    (h : s.bHollowMaskPermanentlyLocked = true) :
    (ApplyEvent s e).bHollowMaskPermanentlyLocked = true := by
  cases e <;>
    simp only [ApplyEvent, NotifyExitDiscovered, NotifyKeyCollected] <;>
    split_ifs with h1
  · exact h
  · rw [UpdatePathfindingTarget_perm]
    exact UpdateHollowMaskState_perm_mono _ h
  · exact h
  · rw [UpdatePathfindingTarget_perm]
    exact UpdateHollowMaskState_perm_mono _ h

lemma ApplyEvents_perm_mono (es : List MazeEvent) (s : FMazeGameState)
    (h : s.bHollowMaskPermanentlyLocked = true) :
    (ApplyEvents s es).bHollowMaskPermanentlyLocked = true := by
  induction es generalizing s with
  | nil => exact h
  | cons e es ih => exact ih _ (ApplyEvent_perm_mono s e h)

/-- C3. Once bHollowMaskPermanentlyLocked is true, every further sequence
of NotifyExitDiscovered / NotifyKeyCollected events leaves it true, and
IsHollowMaskAvailable never returns true. -/
theorem hollow_mask_one_way_latch (s : FMazeGameState) (es : List MazeEvent)
    (h : s.bHollowMaskPermanentlyLocked = true) :
    (ApplyEvents s es).bHollowMaskPermanentlyLocked = true ∧
      IsHollowMaskAvailable (ApplyEvents s es) = false := by
  refine ⟨ApplyEvents_perm_mono es s h, ?_⟩
  simp [IsHollowMaskAvailable, ApplyEvents_perm_mono es s h]

/-- Witness for C3 at a concrete locked state and event sequence. -/
theorem hollow_mask_one_way_latch_witness :
    (ApplyEvents
        { bHollowMaskPermanentlyLocked := true }
        [MazeEvent.exitDiscovered, MazeEvent.keyCollected]).bHollowMaskPermanentlyLocked
        = true ∧
      IsHollowMaskAvailable (ApplyEvents
        { bHollowMaskPermanentlyLocked := true }
        [MazeEvent.exitDiscovered, MazeEvent.keyCollected]) = false :=
  hollow_mask_one_way_latch { bHollowMaskPermanentlyLocked := true }
    [MazeEvent.exitDiscovered, MazeEvent.keyCollected] rfl

/-- C9. Both discovery events are idempotent: with the corresponding flag
already set the call is a no-op firing nothing, and in particular an
immediate second call returns the state unchanged and fires no
notification of any kind. -/
theorem notify_events_idempotent (s : FMazeGameState) :
    (s.bExitDiscovered = true → NotifyExitDiscovered s = (s, [])) ∧
      (s.bHasKey = true → NotifyKeyCollected s = (s, [])) ∧
      NotifyExitDiscovered (NotifyExitDiscovered s).1 =
        ((NotifyExitDiscovered s).1, []) ∧
      NotifyKeyCollected (NotifyKeyCollected s).1 =
        ((NotifyKeyCollected s).1, []) := by
  have hexit : ∀ t : FMazeGameState, t.bExitDiscovered = true →
      NotifyExitDiscovered t = (t, []) := by
    intro t ht
    simp [NotifyExitDiscovered, ht]
  have hkey : ∀ t : FMazeGameState, t.bHasKey = true →
      NotifyKeyCollected t = (t, []) := by
    intro t ht
    simp [NotifyKeyCollected, ht]
  exact ⟨hexit s, hkey s,
    hexit _ (NotifyExitDiscovered_exit s),
    hkey _ (NotifyKeyCollected_key s)⟩

/-- Witness for C9 at a concrete state with both flags already set. -/
theorem notify_events_idempotent_witness :
    NotifyExitDiscovered { bExitDiscovered := true, bHasKey := true } =
        ({ bExitDiscovered := true, bHasKey := true }, []) ∧
      NotifyKeyCollected { bExitDiscovered := true, bHasKey := true } =
        ({ bExitDiscovered := true, bHasKey := true }, []) :=
  ⟨(notify_events_idempotent { bExitDiscovered := true, bHasKey := true }).1 rfl,
    (notify_events_idempotent { bExitDiscovered := true, bHasKey := true }).2.1 rfl⟩

/-- Inductive invariant of reachable discovery states: the hollow mask can
only be unlocked after the exit was discovered, and never both unlocked
and permanently locked. -/
def HollowInv (s : FMazeGameState) : Prop :=
  (s.bHollowMaskUnlocked = true → s.bExitDiscovered = true) ∧
    ¬(s.bHollowMaskUnlocked = true ∧ s.bHollowMaskPermanentlyLocked = true)

lemma HollowInv_step (s : FMazeGameState) (e : MazeEvent) (h : HollowInv s) :
    HollowInv (ApplyEvent s e) := by
  obtain ⟨h1, h2⟩ := h
  cases e <;>
    simp only [ApplyEvent, NotifyExitDiscovered, NotifyKeyCollected] <;>
    split_ifs with hflag
  · exact ⟨h1, h2⟩
  · constructor
    · intro _
      rw [UpdatePathfindingTarget_exit, UpdateHollowMaskState_exit]
    · rw [UpdatePathfindingTarget_unlocked, UpdatePathfindingTarget_perm]
      simp only [UpdateHollowMaskState]
      split_ifs with hp hk hu
      · intro hc
        exact h2 ⟨hc.1, hp⟩
      · simp at hk
      · simpa using hp
      · intro hc
        exact h2 ⟨hc.1, hc.2⟩
  · exact ⟨h1, h2⟩
  · constructor
    · intro hu
      rw [UpdatePathfindingTarget_exit, UpdateHollowMaskState_exit]
      rw [UpdatePathfindingTarget_unlocked] at hu
      simp only [UpdateHollowMaskState] at hu ⊢
      split_ifs at hu ⊢ with hp hk huu
      · exact h1 hu
      · exact h1 hu
      · simp at huu
      · exact h1 hu
    · rw [UpdatePathfindingTarget_unlocked, UpdatePathfindingTarget_perm]
      simp only [UpdateHollowMaskState]
      split_ifs with hp hk hu
      · intro hc
        exact h2 ⟨hc.1, hp⟩
      · intro hc
        simp only at hc
        have := h1 hc.1
        simp [this] at hk
      · simp at hu
      · intro hc
        exact h2 ⟨hc.1, hc.2⟩

lemma HollowInv_reachable (es : List MazeEvent) (s : FMazeGameState)
    (h : HollowInv s) : HollowInv (ApplyEvents s es) := by
  induction es generalizing s with
  | nil => exact h
  | cons e es ih => exact ih _ (HollowInv_step s e h)

/-- C10. In every discovery state reachable from the initial state,
bHollowMaskUnlocked and bHollowMaskPermanentlyLocked are never both true,
so IsHollowMaskAvailable coincides with bHollowMaskUnlocked. -/
theorem hollow_mask_available_eq_unlocked (es : List MazeEvent) :
    ¬((ApplyEvents InitialGameState es).bHollowMaskUnlocked = true ∧
        (ApplyEvents InitialGameState es).bHollowMaskPermanentlyLocked = true) ∧
      IsHollowMaskAvailable (ApplyEvents InitialGameState es) =
        (ApplyEvents InitialGameState es).bHollowMaskUnlocked := by
  have hinv : HollowInv (ApplyEvents InitialGameState es) := by
    refine HollowInv_reachable es InitialGameState ?_
    exact ⟨by simp [InitialGameState], by simp [InitialGameState]⟩
  refine ⟨hinv.2, ?_⟩
  cases hu : (ApplyEvents InitialGameState es).bHollowMaskUnlocked with
  | false => simp [IsHollowMaskAvailable, hu]
  | true =>
    have hp : (ApplyEvents InitialGameState es).bHollowMaskPermanentlyLocked = false := by
      cases hp : (ApplyEvents InitialGameState es).bHollowMaskPermanentlyLocked with
      | false => rfl
      | true => exact absurd ⟨hu, hp⟩ hinv.2
    simp [IsHollowMaskAvailable, hu, hp]

/-- Integer grid coordinates (FIntPoint). -/
abbrev FIntPoint := ℤ × ℤ

/-- World-space point (FVector), components x, y, z as rationals. -/
abbrev FVector := ℚ × ℚ × ℚ

/-- One cell of the maze grid (FMazeCell in MazeTypes.h). -/
structure FMazeCell where
  GridPosition : FIntPoint := (0, 0)
  WorldPosition : FVector := (0, 0, 0)
  bIsFloor : Bool := false
  bIsOnPath : Bool := false
deriving DecidableEq, Repr

/-- Result of a pathfinding query (FMazePathResult in MazePathfinder.h),
with the C++ default-constructed values. -/
structure FMazePathResult where
  bSuccess : Bool := false
  PathGridCoordinates : List FIntPoint := []
  PathWorldPositions : List FVector := []
  PathLength : ℤ := 0
deriving DecidableEq, Repr

/-- State of the BFS pathfinder (UMazePathfinder). -/
structure UMazePathfinder where
  CachedCells : List FMazeCell := []
  MazeSize : FIntPoint := (0, 0)
  CellSize : ℚ := 200
  bIsInitialized : Bool := false
deriving DecidableEq, Repr

namespace UMazePathfinder

/-- Pathfinder setup (UMazePathfinder::Initialize, MazeManager.cpp lines
768-780): caches the cells and records readiness exactly when the cell
count matches the grid area. -/
def InitCells (InCells : List FMazeCell) (InMazeSize : FIntPoint)
    (InCellSize : ℚ) : UMazePathfinder :=
  { CachedCells := InCells
    MazeSize := InMazeSize
    CellSize := InCellSize
    bIsInitialized := decide ((InCells.length : ℤ) = InMazeSize.1 * InMazeSize.2) }

/-- Row-major index of a grid position (UMazePathfinder::GridToIndex). -/
def GridToIndex (P : UMazePathfinder) (GridPos : FIntPoint) : ℤ :=
  GridPos.2 * P.MazeSize.1 + GridPos.1

/-- Bounds-and-walkability check (UMazePathfinder::IsValidCell,
MazeManager.cpp lines 955-972). -/
def IsValidCell (P : UMazePathfinder) (GridPosition : FIntPoint) : Bool :=
  if GridPosition.1 < 0 ∨ GridPosition.1 ≥ P.MazeSize.1 ∨
      GridPosition.2 < 0 ∨ GridPosition.2 ≥ P.MazeSize.2 then
    false
  else
    let Index := P.GridToIndex GridPosition
    if h : 0 ≤ Index ∧ Index.toNat < P.CachedCells.length then
      (P.CachedCells.get ⟨Index.toNat, h.2⟩).bIsFloor
    else
      false

/-- World-to-grid conversion (UMazePathfinder::WorldToGrid,
MazeManager.cpp lines 934-944): componentwise floor of position divided
by the cell size. -/
def WorldToGrid (P : UMazePathfinder) (WorldPosition : FVector) : FIntPoint :=
  (⌊WorldPosition.1 / P.CellSize⌋, ⌊WorldPosition.2.1 / P.CellSize⌋)

/-- Grid-to-world conversion (UMazePathfinder::GridToWorld,
MazeManager.cpp lines 946-953): cell-center convention with z at 0. -/
def GridToWorld (P : UMazePathfinder) (GridPosition : FIntPoint) : FVector :=
  ((GridPosition.1 : ℚ) * P.CellSize + P.CellSize * (1 / 2),
    (GridPosition.2 : ℚ) * P.CellSize + P.CellSize * (1 / 2),
    0)

/-- Walkable 4-neighborhood in source order East, West, South, North
(UMazePathfinder::GetWalkableNeighbors, MazeManager.cpp lines 1013-1036). -/
def GetWalkableNeighbors (P : UMazePathfinder) (GridPos : FIntPoint) :
    List FIntPoint :=
  ([(1, 0), (-1, 0), (0, 1), (0, -1)] : List FIntPoint).filterMap
    (fun Offset =>
      let NeighborPos := (GridPos.1 + Offset.1, GridPos.2 + Offset.2)
      if P.IsValidCell NeighborPos then some NeighborPos else none)

/-- Inclusive integer interval as a list, used to model for-loops over
int32 counters. -/
def intRange (lo hi : ℤ) : List ℤ :=
  List.map (fun i : ℕ => lo + (i : ℤ)) (List.range (hi + 1 - lo).toNat)

/-- Perimeter scan of one ring of the expanding-square search: the two
inner loops of UMazePathfinder::FindNearestWalkableCell (MazeManager.cpp
lines 984-1000), with the non-perimeter skip and first-hit return. -/
def RingScan (P : UMazePathfinder) (GridPosition : FIntPoint) (Radius : ℤ) :
    Option FIntPoint :=
  (intRange (-Radius) Radius).findSome? (fun DX =>
    (intRange (-Radius) Radius).findSome? (fun DY =>
      if |DX| ≠ Radius ∧ |DY| ≠ Radius then
        none
      else
        let TestPos := (GridPosition.1 + DX, GridPosition.2 + DY)
        if P.IsValidCell TestPos then some TestPos else none))

/-- Expanding-square nearest-walkable search
(UMazePathfinder::FindNearestWalkableCell, MazeManager.cpp lines
974-1005): radii 0 to max of the two sizes, sentinel on failure. -/
def FindNearestWalkableCell (P : UMazePathfinder) (GridPosition : FIntPoint) :
    FIntPoint :=
  let MaxRadius := max P.MazeSize.1 P.MazeSize.2
  match (intRange 0 MaxRadius).findSome? (fun Radius =>
      RingScan P GridPosition Radius) with
  | some Found => Found
  | none => (-1, -1)

/-- Finite set of all walkable in-bounds cells of a pathfinder, the
universe that bounds the BFS visited set. -/
def validCells (P : UMazePathfinder) : Finset FIntPoint :=
  (Finset.Icc (0 : ℤ) (P.MazeSize.1 - 1) ×ˢ
      Finset.Icc (0 : ℤ) (P.MazeSize.2 - 1)).filter
    (fun c => P.IsValidCell c = true)

lemma mem_validCells (P : UMazePathfinder) (c : FIntPoint)
    (h : P.IsValidCell c = true) : c ∈ validCells P := by
  have hb : ¬(c.1 < 0 ∨ c.1 ≥ P.MazeSize.1 ∨ c.2 < 0 ∨ c.2 ≥ P.MazeSize.2) := by
    intro hc
    simp only [IsValidCell, if_pos hc] at h
    exact Bool.false_ne_true h
  push_neg at hb
  simp only [validCells, Finset.mem_filter, Finset.mem_product, Finset.mem_Icc]
  exact ⟨⟨⟨hb.1, by omega⟩, ⟨hb.2.2.1, by omega⟩⟩, h⟩

lemma GetWalkableNeighbors_valid (P : UMazePathfinder) (GridPos n : FIntPoint)
    (h : n ∈ P.GetWalkableNeighbors GridPos) : P.IsValidCell n = true := by
  simp only [GetWalkableNeighbors, List.mem_filterMap] at h
  obtain ⟨o, _, ho⟩ := h
  by_cases hv : P.IsValidCell (GridPos.1 + o.1, GridPos.2 + o.2) = true
  · rw [if_pos hv] at ho
    cases ho
    exact hv
  · rw [if_neg hv] at ho
    cases ho

/-- Sequential treatment of the walkable neighbors of a dequeued cell:
the body of the BFS neighbor loop (MazeManager.cpp lines 854-863),
checking the visited set and recording parents in order. -/
def ProcessNeighbors (Current : FIntPoint) (Nbrs : List FIntPoint)
    (Visited : Finset FIntPoint) (Parents : List (FIntPoint × FIntPoint))
    (Queue : List FIntPoint) :
    Finset FIntPoint × List (FIntPoint × FIntPoint) × List FIntPoint :=
  match Nbrs with
  | [] => (Visited, Parents, Queue)
  | Neighbor :: Rest =>
    if Neighbor ∈ Visited then
      ProcessNeighbors Current Rest Visited Parents Queue
    else
      ProcessNeighbors Current Rest (insert Neighbor Visited)
        ((Neighbor, Current) :: Parents) (Queue ++ [Neighbor])

lemma ProcessNeighbors_measure (P : UMazePathfinder) (Current : FIntPoint)
    (Nbrs : List FIntPoint) (Visited : Finset FIntPoint)
    (Parents : List (FIntPoint × FIntPoint)) (Queue : List FIntPoint)
    (hvalid : ∀ n ∈ Nbrs, P.IsValidCell n = true) :
    2 * ((validCells P) \
          (ProcessNeighbors Current Nbrs Visited Parents Queue).1).card +
        (ProcessNeighbors Current Nbrs Visited Parents Queue).2.2.length ≤
      2 * ((validCells P) \ Visited).card + Queue.length := by
  induction Nbrs generalizing Visited Parents Queue with
  | nil => simp [ProcessNeighbors]
  | cons n Rest ih =>
    by_cases hn : n ∈ Visited
    · simp only [ProcessNeighbors, if_pos hn]
      exact ih Visited Parents Queue (fun m hm => hvalid m (List.mem_cons_of_mem n hm))
    · simp only [ProcessNeighbors, if_neg hn]
      refine le_trans (ih _ _ _ (fun m hm => hvalid m (List.mem_cons_of_mem n hm))) ?_
      have hmem : n ∈ (validCells P) \ Visited := by
        refine Finset.mem_sdiff.mpr ⟨?_, hn⟩
        exact mem_validCells P n (hvalid n (List.mem_cons_self n Rest))
      have hcard : ((validCells P) \ insert n Visited).card + 1 =
          ((validCells P) \ Visited).card := by
        have : (validCells P) \ insert n Visited = ((validCells P) \ Visited).erase n := by
          ext x
          simp only [Finset.mem_sdiff, Finset.mem_insert, Finset.mem_erase]
          tauto
        rw [this, Finset.card_erase_add_one hmem]
      simp only [List.length_append, List.length_singleton]
      omega

/-- BFS main loop (MazeManager.cpp lines 841-864): dequeue, stop when the
target is dequeued, otherwise enqueue unvisited walkable neighbors.
Returns the bFoundPath flag and the final parent map. -/
def BFSLoop (P : UMazePathfinder) (EndPos : FIntPoint) :
    List FIntPoint → Finset FIntPoint → List (FIntPoint × FIntPoint) →
      Bool × List (FIntPoint × FIntPoint)
  | [], _, Parents => (false, Parents)
  | Current :: Rest, Visited, Parents =>
    if Current = EndPos then
      (true, Parents)
    else
      let R := ProcessNeighbors Current (P.GetWalkableNeighbors Current)
        Visited Parents Rest
      BFSLoop P EndPos R.2.2 R.1 R.2.1
termination_by Queue Visited _ => 2 * ((validCells P) \ Visited).card + Queue.length
decreasing_by
  simp only [List.length_cons]
  have := ProcessNeighbors_measure P Current (P.GetWalkableNeighbors Current)
    Visited Parents Rest (fun n hn => GetWalkableNeighbors_valid P Current n hn)
  omega

/-- Path reconstruction by parent chasing (MazeManager.cpp lines 879-894),
with fuel standing in for the unbounded while loop; the fuel supplied by
FindPath is proved sufficient in the BFS correctness development. -/
def Reconstruct (Parents : List (FIntPoint × FIntPoint)) :
    ℕ → FIntPoint → List FIntPoint
  | 0, _ => []
  | Fuel + 1, Current =>
    if Current = ((-1 : ℤ), (-1 : ℤ)) then
      []
    else
      Current ::
        (match Parents.lookup Current with
         | some ParentPos => Reconstruct Parents Fuel ParentPos
         | none => [])

/-- Shortest-path query (UMazePathfinder::FindPath, MazeManager.cpp lines
782-912): validation, trivial same-cell path, BFS, reconstruction. -/
def FindPath (P : UMazePathfinder) (StartPos EndPos : FIntPoint) :
    FMazePathResult :=
  if !P.bIsInitialized then
    {}
  else if !P.IsValidCell StartPos then
    {}
  else if !P.IsValidCell EndPos then
    {}
  else if StartPos = EndPos then
    { bSuccess := true
      PathGridCoordinates := [StartPos]
      PathWorldPositions := [P.GridToWorld StartPos]
      PathLength := 1 }
  else
    let R := BFSLoop P EndPos [StartPos] {StartPos} [(StartPos, (-1, -1))]
    if R.1 then
      let ReversedPath := Reconstruct R.2 (R.2.length + 1) EndPos
      let Path := ReversedPath.reverse
      { bSuccess := true
        PathGridCoordinates := Path
        PathWorldPositions := Path.map P.GridToWorld
        PathLength := Path.length }
    else
      {}

/-- World-anchored query (UMazePathfinder::FindPathFromWorld,
MazeManager.cpp lines 914-932): quantize, recover to the nearest walkable
cell if on a wall, fail on sentinel. -/
def FindPathFromWorld (P : UMazePathfinder) (WorldStart : FVector)
    (GridEnd : FIntPoint) : FMazePathResult :=
  let GridStart := P.WorldToGrid WorldStart
  if !P.IsValidCell GridStart then
    let GridStart2 := P.FindNearestWalkableCell GridStart
    if GridStart2 = ((-1 : ℤ), (-1 : ℤ)) then {}
    else P.FindPath GridStart2 GridEnd
  else
    P.FindPath GridStart GridEnd

lemma FindPath_failure_eq_default (P : UMazePathfinder)
    (StartPos EndPos : FIntPoint)
    (h : (P.FindPath StartPos EndPos).bSuccess = false) :
    P.FindPath StartPos EndPos = {} := by
  simp only [FindPath] at h ⊢
  split_ifs at h ⊢ <;> first | rfl | simp_all

/-- C7. A pathfinder initialized with a cell array whose length differs
from width times height is not ready and every FindPath query returns
the default failure result; moreover every failed path result has
bSuccess false with empty coordinate and world-position sequences. -/
theorem pathfinder_not_ready_and_failure_empty
    (InCells : List FMazeCell) (InMazeSize : FIntPoint) (InCellSize : ℚ)
    (Q : UMazePathfinder) (QS QE : FIntPoint)
    (hlen : (InCells.length : ℤ) ≠ InMazeSize.1 * InMazeSize.2) :
    (InitCells InCells InMazeSize InCellSize).bIsInitialized = false ∧
      (∀ StartPos EndPos : FIntPoint,
        (InitCells InCells InMazeSize InCellSize).FindPath StartPos EndPos =
          ({} : FMazePathResult)) ∧
      ((Q.FindPath QS QE).bSuccess = false →
        (Q.FindPath QS QE).PathGridCoordinates = [] ∧
          (Q.FindPath QS QE).PathWorldPositions = []) := by
  have hinit : (InitCells InCells InMazeSize InCellSize).bIsInitialized = false := by
    simp [InitCells, hlen]
  refine ⟨hinit, ?_, ?_⟩
  · intro StartPos EndPos
    simp [FindPath, hinit]
  · intro hfail
    rw [FindPath_failure_eq_default Q QS QE hfail]
    exact ⟨rfl, rfl⟩

/-- Witness for C7 at a pathfinder with one cell against a claimed 2 x 2
size, and a failing query on an empty pathfinder. -/
theorem pathfinder_not_ready_and_failure_empty_witness :
    (InitCells [{ bIsFloor := true }] (2, 2) 200).bIsInitialized = false ∧
      (∀ StartPos EndPos : FIntPoint,
        (InitCells [{ bIsFloor := true }] (2, 2) 200).FindPath StartPos EndPos =
          ({} : FMazePathResult)) ∧
      ((({} : UMazePathfinder).FindPath (0, 0) (1, 0)).bSuccess = false →
        (({} : UMazePathfinder).FindPath (0, 0) (1, 0)).PathGridCoordinates = [] ∧
          (({} : UMazePathfinder).FindPath (0, 0) (1, 0)).PathWorldPositions = []) :=
  pathfinder_not_ready_and_failure_empty [{ bIsFloor := true }] (2, 2) 200
    {} (0, 0) (1, 0) (by decide)

/-- C8. For every in-bounds cell and positive cell size, converting the
cell center back to grid coordinates returns the same cell. -/
theorem world_grid_round_trip (P : UMazePathfinder) (c : FIntPoint)
    (hs : 0 < P.CellSize) (hx0 : 0 ≤ c.1) (hx1 : c.1 < P.MazeSize.1)
    (hy0 : 0 ≤ c.2) (hy1 : c.2 < P.MazeSize.2) :
    P.WorldToGrid (P.GridToWorld c) = c := by
  have hne : P.CellSize ≠ 0 := ne_of_gt hs
  have key : ∀ z : ℤ,
      ⌊((z : ℚ) * P.CellSize + P.CellSize * (1 / 2)) / P.CellSize⌋ = z := by
    intro z
    have h1 : ((z : ℚ) * P.CellSize + P.CellSize * (1 / 2)) / P.CellSize =
        (z : ℚ) + 1 / 2 := by
      field_simp
      ring
    rw [h1, Int.floor_int_add]
    norm_num
  simp only [WorldToGrid, GridToWorld]
  exact Prod.ext (key c.1) (key c.2)

/-- Witness for C8 at cell (0, 0) of a 1 x 1 pathfinder with the default
cell size of 200. -/
theorem world_grid_round_trip_witness :
    ({ MazeSize := (1, 1) } : UMazePathfinder).WorldToGrid
        (({ MazeSize := (1, 1) } : UMazePathfinder).GridToWorld (0, 0)) = (0, 0) :=
  world_grid_round_trip { MazeSize := (1, 1) } (0, 0)
    (by norm_num) (by decide) (by decide) (by decide) (by decide)

lemma mem_intRange (lo hi x : ℤ) : x ∈ intRange lo hi ↔ lo ≤ x ∧ x ≤ hi := by
  simp only [intRange, List.mem_map, List.mem_range]
  constructor
  · rintro ⟨i, hilt, rfl⟩
    omega
  · intro hx
    refine ⟨(x - lo).toNat, by omega, by omega⟩

lemma intRange_pairwise (lo hi : ℤ) : (intRange lo hi).Pairwise (· < ·) := by
  simp only [intRange]
  refine List.Pairwise.map _ ?_ (List.pairwise_lt_range _)
  intro a b h
  omega

lemma findSome?_some_split {α β : Type} (f : α → Option β) (b : β) :
    ∀ l : List α, l.findSome? f = some b →
      ∃ l1 a l2, l = l1 ++ a :: l2 ∧ (∀ x ∈ l1, f x = none) ∧ f a = some b := by
  intro l
  induction l with
  | nil => intro h; simp at h
  | cons hd tl ih =>
    intro h
    rcases hf : f hd with _ | v
    · rw [List.findSome?_cons, hf] at h
      obtain ⟨l1, a, l2, rfl, h1, h2⟩ := ih h
      refine ⟨hd :: l1, a, l2, rfl, ?_, h2⟩
      intro x hx
      rcases List.mem_cons.mp hx with rfl | hx
      · exact hf
      · exact h1 x hx
    · rw [List.findSome?_cons, hf] at h
      cases h
      exact ⟨[], hd, tl, rfl, by simp, hf⟩

/-- Chebyshev distance between grid points, the radius notion of the
expanding-square search. -/
def Cheb (a b : FIntPoint) : ℤ := max |b.1 - a.1| |b.2 - a.2|

lemma RingScan_some (P : UMazePathfinder) (o : FIntPoint) (R : ℤ)
    (c : FIntPoint) (h : RingScan P o R = some c) :
    P.IsValidCell c = true ∧ Cheb o c = R := by
  simp only [RingScan] at h
  obtain ⟨dx, hdx, hdx2⟩ := List.exists_of_findSome?_eq_some h
  obtain ⟨dy, hdy, hdy2⟩ := List.exists_of_findSome?_eq_some hdx2
  rw [mem_intRange] at hdx hdy
  by_cases hper : |dx| ≠ R ∧ |dy| ≠ R
  · rw [if_pos hper] at hdy2
    cases hdy2
  · rw [if_neg hper] at hdy2
    by_cases hv : P.IsValidCell (o.1 + dx, o.2 + dy) = true
    · rw [if_pos hv] at hdy2
      cases hdy2
      refine ⟨hv, ?_⟩
      have e1 : o.1 + dx - o.1 = dx := by ring
      have e2 : o.2 + dy - o.2 = dy := by ring
      simp only [Cheb, e1, e2]
      have h1 : |dx| ≤ R := abs_le.mpr ⟨hdx.1, hdx.2⟩
      have h2 : |dy| ≤ R := abs_le.mpr ⟨hdy.1, hdy.2⟩
      push_neg at hper
      by_cases hdxR : |dx| = R
      · rw [hdxR]
        exact max_eq_left h2
      · rw [hper hdxR]
        exact max_eq_right h1
    · rw [if_neg hv] at hdy2
      cases hdy2

lemma RingScan_none (P : UMazePathfinder) (o : FIntPoint) (R : ℤ)
    (h : RingScan P o R = none) :
    ∀ c : FIntPoint, P.IsValidCell c = true → Cheb o c ≠ R := by
  intro c hc hmax
  simp only [Cheb] at hmax
  have h1 : |c.1 - o.1| ≤ R := le_of_max_le_left (le_of_eq hmax)
  have h2 : |c.2 - o.2| ≤ R := le_of_max_le_right (le_of_eq hmax)
  have hper : ¬(|c.1 - o.1| ≠ R ∧ |c.2 - o.2| ≠ R) := by
    rintro ⟨ha, hb⟩
    have hlt : max |c.1 - o.1| |c.2 - o.2| < R :=
      max_lt (lt_of_le_of_ne h1 ha) (lt_of_le_of_ne h2 hb)
    exact ne_of_lt hlt hmax
  simp only [RingScan, List.findSome?_eq_none_iff] at h
  have hy := h (c.1 - o.1)
    (by rw [mem_intRange]; exact ⟨neg_le_of_abs_le h1, le_of_abs_le h1⟩)
    (c.2 - o.2)
    (by rw [mem_intRange]; exact ⟨neg_le_of_abs_le h2, le_of_abs_le h2⟩)
  rw [if_neg hper] at hy
  have hcc : (o.1 + (c.1 - o.1), o.2 + (c.2 - o.2)) = c := by
    have e1 : o.1 + (c.1 - o.1) = c.1 := by ring
    have e2 : o.2 + (c.2 - o.2) = c.2 := by ring
    rw [e1, e2]
  rw [hcc, if_pos hc] at hy
  cases hy

lemma FindNearest_found (P : UMazePathfinder) (origin c : FIntPoint)
    (h : P.FindNearestWalkableCell origin = c) (hc : c ≠ ((-1 : ℤ), (-1 : ℤ))) :
    ∃ R : ℤ, 0 ≤ R ∧ R ≤ max P.MazeSize.1 P.MazeSize.2 ∧
      RingScan P origin R = some c ∧
      ∀ k : ℤ, 0 ≤ k → k < R → RingScan P origin k = none := by
  simp only [FindNearestWalkableCell] at h
  rcases hF : (intRange 0 (max P.MazeSize.1 P.MazeSize.2)).findSome?
      (fun Radius => RingScan P origin Radius) with _ | Found
  · rw [hF] at h
    have hsent : ((-1 : ℤ), (-1 : ℤ)) = c := h
    exact absurd hsent.symm hc
  · rw [hF] at h
    have hfc : Found = c := h
    subst hfc
    obtain ⟨l1, a, l2, hsplit, hpre, ha⟩ := findSome?_some_split _ _ _ hF
    have hmem : a ∈ intRange 0 (max P.MazeSize.1 P.MazeSize.2) := by
      rw [hsplit]
      exact List.mem_append_right l1 (List.mem_cons_self a l2)
    rw [mem_intRange] at hmem
    refine ⟨a, hmem.1, hmem.2, ha, ?_⟩
    intro k hk0 hka
    have hkmem : k ∈ intRange 0 (max P.MazeSize.1 P.MazeSize.2) := by
      rw [mem_intRange]
      omega
    have hpw := intRange_pairwise 0 (max P.MazeSize.1 P.MazeSize.2)
    rw [hsplit, List.pairwise_append] at hpw
    have hkl1 : k ∈ l1 := by
      rw [hsplit] at hkmem
      rcases List.mem_append.mp hkmem with hk | hk
      · exact hk
      · rcases List.mem_cons.mp hk with rfl | hk
        · omega
        · have := (List.pairwise_cons.mp hpw.2.1).1 k hk
          omega
    exact hpre k hkl1

/-- Counterexample to C6 as stated: a 1 x 1 all-floor pathfinder has a
walkable cell, yet the search from the far out-of-bounds origin (5, 5)
returns the sentinel, because the rings stop at radius max(1, 1) = 1. -/
theorem find_nearest_sentinel_counterexample :
    (InitCells [{ bIsFloor := true }] (1, 1) 200).FindNearestWalkableCell (5, 5) =
        ((-1 : ℤ), (-1 : ℤ)) ∧
      (InitCells [{ bIsFloor := true }] (1, 1) 200).IsValidCell (0, 0) = true := by
  constructor <;> rfl

/-- C6 amended. FindNearestWalkableCell returns a walkable cell of
minimal Chebyshev distance from the origin when one exists within
Chebyshev radius max(width, height) of the origin, and the sentinel
(-1, -1) exactly when none exists within that radius; for an in-bounds
origin the sentinel is therefore returned exactly when the grid has no
walkable cell at all. -/
theorem find_nearest_walkable_spec (P : UMazePathfinder) (origin : FIntPoint) :
    (P.FindNearestWalkableCell origin = ((-1 : ℤ), (-1 : ℤ)) ↔
      ¬∃ c : FIntPoint, P.IsValidCell c = true ∧
        Cheb origin c ≤ max P.MazeSize.1 P.MazeSize.2) ∧
      (P.FindNearestWalkableCell origin ≠ ((-1 : ℤ), (-1 : ℤ)) →
        P.IsValidCell (P.FindNearestWalkableCell origin) = true ∧
          ∀ d : FIntPoint, P.IsValidCell d = true →
            Cheb origin (P.FindNearestWalkableCell origin) ≤ Cheb origin d) ∧
      (0 ≤ origin.1 → origin.1 < P.MazeSize.1 → 0 ≤ origin.2 →
        origin.2 < P.MazeSize.2 →
        (P.FindNearestWalkableCell origin = ((-1 : ℤ), (-1 : ℤ)) ↔
          ¬∃ c : FIntPoint, P.IsValidCell c = true)) := by
  have habs : ∀ c : FIntPoint, 0 ≤ Cheb origin c := by
    intro c
    exact le_max_of_le_left (abs_nonneg _)
  have hfound : P.FindNearestWalkableCell origin ≠ ((-1 : ℤ), (-1 : ℤ)) →
      P.IsValidCell (P.FindNearestWalkableCell origin) = true ∧
        Cheb origin (P.FindNearestWalkableCell origin) ≤ max P.MazeSize.1 P.MazeSize.2 ∧
        ∀ d : FIntPoint, P.IsValidCell d = true →
          Cheb origin (P.FindNearestWalkableCell origin) ≤ Cheb origin d := by
    intro hne
    obtain ⟨R, hR0, hRmax, hsome, hnone⟩ :=
      FindNearest_found P origin (P.FindNearestWalkableCell origin) rfl hne
    obtain ⟨hvalid, hcheb⟩ := RingScan_some P origin R _ hsome
    refine ⟨hvalid, by omega, ?_⟩
    intro d hd
    by_contra hlt
    push_neg at hlt
    have hd0 := habs d
    have hdR : Cheb origin d < R := by omega
    have := RingScan_none P origin (Cheb origin d)
      (hnone (Cheb origin d) hd0 hdR) d hd
    exact this rfl
  have hsent : P.FindNearestWalkableCell origin = ((-1 : ℤ), (-1 : ℤ)) →
      ¬∃ c : FIntPoint, P.IsValidCell c = true ∧
        Cheb origin c ≤ max P.MazeSize.1 P.MazeSize.2 := by
    intro hs
    rintro ⟨c, hc, hcheb⟩
    simp only [FindNearestWalkableCell] at hs
    rcases hF : (intRange 0 (max P.MazeSize.1 P.MazeSize.2)).findSome?
        (fun Radius => RingScan P origin Radius) with _ | Found
    · rw [List.findSome?_eq_none_iff] at hF
      have hk : Cheb origin c ∈ intRange 0 (max P.MazeSize.1 P.MazeSize.2) := by
        rw [mem_intRange]
        exact ⟨habs c, hcheb⟩
      exact RingScan_none P origin (Cheb origin c) (hF _ hk) c hc rfl
    · rw [hF] at hs
      have hFound : Found = ((-1 : ℤ), (-1 : ℤ)) := hs
      obtain ⟨a, _, ha⟩ := List.exists_of_findSome?_eq_some hF
      have hvalid := (RingScan_some P origin a Found ha).1
      rw [hFound] at hvalid
      simp [IsValidCell] at hvalid
  constructor
  · constructor
    · exact hsent
    · intro hno
      by_contra hne
      obtain ⟨hvalid, hle, _⟩ := hfound hne
      exact hno ⟨P.FindNearestWalkableCell origin, hvalid, hle⟩
  · constructor
    · intro hne
      obtain ⟨hvalid, _, hmin⟩ := hfound hne
      exact ⟨hvalid, hmin⟩
    · intro ho1 ho2 ho3 ho4
      constructor
      · intro hs
        rintro ⟨c, hc⟩
        have hb : ¬(c.1 < 0 ∨ c.1 ≥ P.MazeSize.1 ∨ c.2 < 0 ∨ c.2 ≥ P.MazeSize.2) := by
          intro hcb
          simp only [IsValidCell, if_pos hcb] at hc
          exact Bool.false_ne_true hc
        push_neg at hb
        refine hsent hs ⟨c, hc, ?_⟩
        obtain ⟨hb1, hb2, hb3, hb4⟩ := hb
        simp only [Cheb]
        have hax : |c.1 - origin.1| ≤ max P.MazeSize.1 P.MazeSize.2 := by
          rw [abs_le]
          omega
        have hay : |c.2 - origin.2| ≤ max P.MazeSize.1 P.MazeSize.2 := by
          rw [abs_le]
          omega
        exact max_le hax hay
      · intro hno
        by_contra hne
        obtain ⟨hvalid, _⟩ := hfound hne
        exact hno ⟨P.FindNearestWalkableCell origin, hvalid⟩

/-- Witness for the amended C6 on the 1 x 1 all-floor grid with in-bounds
origin (0, 0). -/
theorem find_nearest_walkable_spec_witness :
    (InitCells [{ bIsFloor := true }] (1, 1) 200).IsValidCell
        ((InitCells [{ bIsFloor := true }] (1, 1) 200).FindNearestWalkableCell
          (0, 0)) = true ∧
      ((InitCells [{ bIsFloor := true }] (1, 1) 200).FindNearestWalkableCell
            (0, 0) = ((-1 : ℤ), (-1 : ℤ)) ↔
        ¬∃ c : FIntPoint,
          (InitCells [{ bIsFloor := true }] (1, 1) 200).IsValidCell c = true) :=
  ⟨((find_nearest_walkable_spec (InitCells [{ bIsFloor := true }] (1, 1) 200)
      (0, 0)).2.1 (by decide)).1,
    (find_nearest_walkable_spec (InitCells [{ bIsFloor := true }] (1, 1) 200)
      (0, 0)).2.2 (by decide) (by decide) (by decide) (by decide)⟩

/-- Cardinal adjacency between walkable cells of a pathfinder grid: both
endpoints valid and their difference a unit offset. This is the graph
over which FindPath searches. -/
def Adj (P : UMazePathfinder) (a b : FIntPoint) : Prop :=
  P.IsValidCell a = true ∧ P.IsValidCell b = true ∧
    (b.1 - a.1, b.2 - a.2) ∈ ([(1, 0), (-1, 0), (0, 1), (0, -1)] : List FIntPoint)

/-- Existence of a walk of exactly n cardinal floor-to-floor moves. -/
def ReachN (P : UMazePathfinder) : ℕ → FIntPoint → FIntPoint → Prop
  | 0, a, b => a = b
  | n + 1, a, b => ∃ c, Adj P a c ∧ ReachN P n c b

/-- Graph distance as a relation: a shortest-walk length witness. -/
def DistMin (P : UMazePathfinder) (a b : FIntPoint) (d : ℕ) : Prop :=
  ReachN P d a b ∧ ∀ m, ReachN P m a b → d ≤ m

lemma Adj_symm (P : UMazePathfinder) (a b : FIntPoint) (h : Adj P a b) :
    Adj P b a := by
  obtain ⟨ha, hb, hm⟩ := h
  refine ⟨hb, ha, ?_⟩
  simp only [List.mem_cons, List.not_mem_nil, or_false, Prod.mk.injEq,
    List.mem_singleton] at hm ⊢
  omega

lemma ReachN_snoc (P : UMazePathfinder) :
    ∀ n a b c, ReachN P n a b → Adj P b c → ReachN P (n + 1) a c := by
  intro n
  induction n with
  | zero =>
    intro a b c hab hbc
    cases hab
    exact ⟨c, hbc, rfl⟩
  | succ m ih =>
    intro a b c hab hbc
    obtain ⟨x, hax, hxb⟩ := hab
    exact ⟨x, hax, ih x b c hxb hbc⟩

lemma ReachN_snoc_inv (P : UMazePathfinder) :
    ∀ n a c, ReachN P (n + 1) a c → ∃ b, ReachN P n a b ∧ Adj P b c := by
  intro n
  induction n with
  | zero =>
    intro a c h
    obtain ⟨b, hab, hbc⟩ := h
    cases hbc
    exact ⟨a, rfl, hab⟩
  | succ m ih =>
    intro a c h
    obtain ⟨x, hax, hxc⟩ := h
    obtain ⟨b, hxb, hbc⟩ := ih x c hxc
    exact ⟨b, ⟨x, hax, hxb⟩, hbc⟩

lemma DistMin_exists (P : UMazePathfinder) (a b : FIntPoint)
    (h : ∃ n, ReachN P n a b) : ∃ d, DistMin P a b d := by
  classical
  refine ⟨sInf {n | ReachN P n a b}, Nat.sInf_mem h, ?_⟩
  intro m hm
  exact Nat.sInf_le hm

lemma DistMin_unique (P : UMazePathfinder) (a b : FIntPoint) (d e : ℕ)
    (hd : DistMin P a b d) (he : DistMin P a b e) : d = e :=
  le_antisymm (hd.2 e he.1) (he.2 d hd.1)

lemma DistMin_self (P : UMazePathfinder) (a : FIntPoint) : DistMin P a a 0 :=
  ⟨rfl, fun m _ => Nat.zero_le m⟩

lemma DistMin_start_zero (P : UMazePathfinder) (a : FIntPoint) (d : ℕ)
    (h : DistMin P a a d) : d = 0 :=
  DistMin_unique P a a d 0 h (DistMin_self P a)

lemma GetWalkableNeighbors_adj (P : UMazePathfinder) (c n : FIntPoint)
    (hc : P.IsValidCell c = true) (h : n ∈ P.GetWalkableNeighbors c) :
    Adj P c n := by
  simp only [GetWalkableNeighbors, List.mem_filterMap] at h
  obtain ⟨o, ho, hsome⟩ := h
  by_cases hv : P.IsValidCell (c.1 + o.1, c.2 + o.2) = true
  · rw [if_pos hv] at hsome
    cases hsome
    refine ⟨hc, hv, ?_⟩
    have e1 : c.1 + o.1 - c.1 = o.1 := by ring
    have e2 : c.2 + o.2 - c.2 = o.2 := by ring
    simpa [e1, e2] using ho
  · rw [if_neg hv] at hsome
    cases hsome

lemma adj_mem_GetWalkableNeighbors (P : UMazePathfinder) (c x : FIntPoint)
    (h : Adj P c x) : x ∈ P.GetWalkableNeighbors c := by
  obtain ⟨hc, hx, hm⟩ := h
  simp only [GetWalkableNeighbors, List.mem_filterMap]
  refine ⟨(x.1 - c.1, x.2 - c.2), hm, ?_⟩
  have e : (c.1 + (x.1 - c.1), c.2 + (x.2 - c.2)) = x := by
    have e1 : c.1 + (x.1 - c.1) = x.1 := by ring
    have e2 : c.2 + (x.2 - c.2) = x.2 := by ring
    rw [e1, e2]
  simp only [e, if_pos hx]

lemma lookup_cons_self {β : Type} (a : FIntPoint) (b : β)
    (l : List (FIntPoint × β)) : ((a, b) :: l).lookup a = some b := by
  simp [List.lookup]

lemma lookup_cons_ne {β : Type} (a k : FIntPoint) (b : β)
    (l : List (FIntPoint × β)) (h : a ≠ k) :
    ((k, b) :: l).lookup a = l.lookup a := by
  have hbeq : (a == k) = false := beq_eq_false_iff_ne.mpr h
  simp [List.lookup, hbeq]

lemma forall₂_mem_left {α β : Type} {R : α → β → Prop} :
    ∀ {l1 : List α} {l2 : List β}, List.Forall₂ R l1 l2 →
      ∀ a ∈ l1, ∃ b ∈ l2, R a b := by
  intro l1 l2 h
  induction h with
  | nil =>
    intro a ha
    cases ha
  | cons hR hrest ih =>
    intro a ha
    rcases List.mem_cons.mp ha with rfl | ha
    · exact ⟨_, List.mem_cons_self _ _, hR⟩
    · obtain ⟨b, hb, hRb⟩ := ih a ha
      exact ⟨b, List.mem_cons_of_mem _ hb, hRb⟩

lemma forall₂_replicate {α β : Type} {R : α → β → Prop} (d : β) :
    ∀ l : List α, (∀ x ∈ l, R x d) →
      List.Forall₂ R l (List.replicate l.length d) := by
  intro l
  induction l with
  | nil =>
    intro _
    exact List.Forall₂.nil
  | cons a t ih =>
    intro h
    simp only [List.length_cons, List.replicate_succ]
    exact List.Forall₂.cons (h a (List.mem_cons_self a t))
      (ih fun x hx => h x (List.mem_cons_of_mem a hx))

lemma ProcessNeighbors_spec (Current : FIntPoint) :
    ∀ (Nbrs : List FIntPoint) (Visited : Finset FIntPoint)
      (Parents : List (FIntPoint × FIntPoint)) (Queue : List FIntPoint),
      ∃ news : List FIntPoint,
        (ProcessNeighbors Current Nbrs Visited Parents Queue).2.2 =
            Queue ++ news ∧
          (∀ x ∈ news, x ∈ Nbrs ∧ x ∉ Visited) ∧
          news.Nodup ∧
          (ProcessNeighbors Current Nbrs Visited Parents Queue).1 =
            Visited ∪ news.toFinset ∧
          (∀ x ∈ Nbrs, x ∈ (ProcessNeighbors Current Nbrs Visited Parents Queue).1) ∧
          (∀ v : FIntPoint, v ∉ news →
            (ProcessNeighbors Current Nbrs Visited Parents Queue).2.1.lookup v =
              Parents.lookup v) ∧
          (∀ v ∈ news,
            (ProcessNeighbors Current Nbrs Visited Parents Queue).2.1.lookup v =
              some Current) ∧
          (ProcessNeighbors Current Nbrs Visited Parents Queue).2.1.length =
            Parents.length + news.length := by
  intro Nbrs
  induction Nbrs with
  | nil =>
    intro Visited Parents Queue
    refine ⟨[], by simp [ProcessNeighbors], by simp, List.nodup_nil,
      by simp [ProcessNeighbors], by simp, fun v _ => by simp [ProcessNeighbors],
      fun v hv => absurd hv (List.not_mem_nil v), by simp [ProcessNeighbors]⟩
  | cons n Rest ih =>
    intro Visited Parents Queue
    by_cases hn : n ∈ Visited
    · obtain ⟨news, h1, h2, h3, h4, h5, h6, h7, h8⟩ := ih Visited Parents Queue
      simp only [ProcessNeighbors, if_pos hn]
      refine ⟨news, h1, ?_, h3, h4, ?_, h6, h7, h8⟩
      · intro x hx
        exact ⟨List.mem_cons_of_mem n (h2 x hx).1, (h2 x hx).2⟩
      · intro x hx
        rcases List.mem_cons.mp hx with rfl | hx
        · rw [h4]
          exact Finset.mem_union_left _ hn
        · exact h5 x hx
    · obtain ⟨news, h1, h2, h3, h4, h5, h6, h7, h8⟩ :=
        ih (insert n Visited) ((n, Current) :: Parents) (Queue ++ [n])
      simp only [ProcessNeighbors, if_neg hn]
      have hnnews : n ∉ news := by
        intro hmem
        exact (h2 n hmem).2 (Finset.mem_insert_self n Visited)
      refine ⟨n :: news, ?_, ?_, ?_, ?_, ?_, ?_, ?_, ?_⟩
      · rw [h1, List.append_assoc]
        rfl
      · intro x hx
        rcases List.mem_cons.mp hx with rfl | hx
        · exact ⟨List.mem_cons_self x Rest, hn⟩
        · obtain ⟨hx1, hx2⟩ := h2 x hx
          refine ⟨List.mem_cons_of_mem n hx1, ?_⟩
          intro hxv
          exact hx2 (Finset.mem_insert_of_mem hxv)
      · exact List.nodup_cons.mpr ⟨hnnews, h3⟩
      · rw [h4]
        ext x
        simp only [Finset.mem_union, Finset.mem_insert, List.toFinset_cons,
          List.mem_toFinset]
        tauto
      · intro x hx
        rcases List.mem_cons.mp hx with rfl | hx
        · rw [h4]
          exact Finset.mem_union_left _ (Finset.mem_insert_self x Visited)
        · exact h5 x hx
      · intro v hv
        have hv2 : v ∉ news := fun hm => hv (List.mem_cons_of_mem n hm)
        have hvn : v ≠ n := fun he => hv (he ▸ List.mem_cons_self n news)
        rw [h6 v hv2, lookup_cons_ne v n Current Parents hvn]
      · intro v hv
        rcases List.mem_cons.mp hv with rfl | hv
        · rw [h6 v hnnews, lookup_cons_self]
        · exact h7 v hv
      · rw [h8]
        simp only [List.length_cons]
        omega

lemma IsValidCell_bounds (P : UMazePathfinder) (c : FIntPoint)
    (h : P.IsValidCell c = true) :
    0 ≤ c.1 ∧ c.1 < P.MazeSize.1 ∧ 0 ≤ c.2 ∧ c.2 < P.MazeSize.2 := by
  by_cases hb : c.1 < 0 ∨ c.1 ≥ P.MazeSize.1 ∨ c.2 < 0 ∨ c.2 ≥ P.MazeSize.2
  · simp only [IsValidCell, if_pos hb] at h
    exact absurd h (Bool.false_ne_true)
  · push_neg at hb
    exact ⟨hb.1, hb.2.1, hb.2.2.1, hb.2.2.2⟩

/-- Loop invariant of the BFS in FindPath, relating the queue, a parallel
list of the true graph distances of the queued cells, the visited set and
the parent map. -/
structure BfsInv (P : UMazePathfinder) (StartPos EndPos : FIntPoint)
    (Queue : List FIntPoint) (dq : List ℕ) (Visited : Finset FIntPoint)
    (Parents : List (FIntPoint × FIntPoint)) : Prop where
  start_mem : StartPos ∈ Visited
  vis_valid : ∀ v ∈ Visited, P.IsValidCell v = true
  queue_sub : ∀ v ∈ Queue, v ∈ Visited
  queue_nodup : Queue.Nodup
  paired : List.Forall₂ (fun v d => DistMin P StartPos v d) Queue dq
  dq_sorted : dq.Pairwise (· ≤ ·)
  dq_span : ∀ d ∈ dq, ∀ e ∈ dq, d ≤ e + 1
  closure : ∀ u ∈ Visited, u ∉ Queue → ∀ x, Adj P u x → x ∈ Visited
  endq : EndPos ∈ Visited → EndPos ∈ Queue
  pstart : Parents.lookup StartPos = some ((-1 : ℤ), (-1 : ℤ))
  pchain : ∀ v ∈ Visited, v ≠ StartPos → ∃ u du,
    Parents.lookup v = some u ∧ u ∈ Visited ∧ Adj P u v ∧
      DistMin P StartPos u du ∧ DistMin P StartPos v (du + 1)
  plen : Parents.length = Visited.card

lemma crossing (P : UMazePathfinder) (S : FIntPoint) (Vis : Finset FIntPoint)
    (hS : S ∈ Vis) :
    ∀ n v, ReachN P n S v → v ∉ Vis →
      ∃ u x j, u ∈ Vis ∧ x ∉ Vis ∧ Adj P u x ∧ ReachN P j S u ∧ j + 1 ≤ n := by
  intro n
  induction n with
  | zero =>
    intro v h hv
    cases h
    exact absurd hS hv
  | succ m ih =>
    intro v h hv
    obtain ⟨u, hmu, hadj⟩ := ReachN_snoc_inv P m S v h
    by_cases hu : u ∈ Vis
    · exact ⟨u, v, m, hu, hv, hadj, hmu, le_refl _⟩
    · obtain ⟨u2, x2, j2, h1, h2, h3, h4, h5⟩ := ih u hmu hu
      exact ⟨u2, x2, j2, h1, h2, h3, h4, by omega⟩

lemma discovered_dist (P : UMazePathfinder) (S E Current : FIntPoint)
    (Rest : List FIntPoint) (dCur : ℕ) (drest : List ℕ)
    (Vis : Finset FIntPoint) (Par : List (FIntPoint × FIntPoint))
    (inv : BfsInv P S E (Current :: Rest) (dCur :: drest) Vis Par)
    (w : FIntPoint) (hadj : Adj P Current w) (hw : w ∉ Vis) :
    DistMin P S w (dCur + 1) := by
  have hcur : DistMin P S Current dCur := (List.forall₂_cons.mp inv.paired).1
  have hreach : ReachN P (dCur + 1) S w := ReachN_snoc P dCur S Current w hcur.1 hadj
  obtain ⟨dw, hdw⟩ := DistMin_exists P S w ⟨dCur + 1, hreach⟩
  have hub : dw ≤ dCur + 1 := hdw.2 _ hreach
  have hlb : dCur + 1 ≤ dw := by
    by_contra hlt
    push_neg at hlt
    obtain ⟨u, x, j, hu, hx, huxadj, hju, hj⟩ :=
      crossing P S Vis inv.start_mem dw w hdw.1 hw
    have huq : u ∈ Current :: Rest := by
      by_contra huq
      exact hx (inv.closure u hu huq x huxadj)
    obtain ⟨du, hdumem, hdu⟩ := forall₂_mem_left inv.paired u huq
    have hdcur_le : dCur ≤ du := by
      rcases List.mem_cons.mp hdumem with rfl | hmem
      · exact le_refl _
      · exact (List.pairwise_cons.mp inv.dq_sorted).1 du hmem
    have hdu_le_j : du ≤ j := hdu.2 j hju
    omega
  have heq : dw = dCur + 1 := le_antisymm hub hlb
  rw [← heq]
  exact hdw

lemma pairwise_le_replicate (n : ℕ) (d : ℕ) :
    (List.replicate n d).Pairwise (fun a b : ℕ => a ≤ b) := by
  induction n with
  | zero => exact List.Pairwise.nil
  | succ m ih =>
    rw [List.replicate_succ]
    refine List.pairwise_cons.mpr ⟨?_, ih⟩
    intro b hb
    rw [List.eq_of_mem_replicate hb]

lemma BfsInv_step (P : UMazePathfinder) (S E Current : FIntPoint)
    (Rest : List FIntPoint) (dCur : ℕ) (drest : List ℕ)
    (Vis : Finset FIntPoint) (Par : List (FIntPoint × FIntPoint))
    (inv : BfsInv P S E (Current :: Rest) (dCur :: drest) Vis Par)
    (hne : Current ≠ E) :
    ∃ dq2,
      BfsInv P S E
        (ProcessNeighbors Current (P.GetWalkableNeighbors Current) Vis Par Rest).2.2
        dq2
        (ProcessNeighbors Current (P.GetWalkableNeighbors Current) Vis Par Rest).1
        (ProcessNeighbors Current (P.GetWalkableNeighbors Current) Vis Par Rest).2.1 := by
  obtain ⟨news, hq, hnews, hnodup, hvis, hall, hlook_old, hlook_new, hlen⟩ :=
    ProcessNeighbors_spec Current (P.GetWalkableNeighbors Current) Vis Par Rest
  have hcur_vis : Current ∈ Vis := inv.queue_sub Current (List.mem_cons_self Current Rest)
  have hcur_valid : P.IsValidCell Current = true := inv.vis_valid Current hcur_vis
  have hnews_adj : ∀ x ∈ news, Adj P Current x := fun x hx =>
    GetWalkableNeighbors_adj P Current x hcur_valid (hnews x hx).1
  have hnews_dist : ∀ x ∈ news, DistMin P S x (dCur + 1) := fun x hx =>
    discovered_dist P S E Current Rest dCur drest Vis Par inv x
      (hnews_adj x hx) (hnews x hx).2
  have hnews_nvis : ∀ x ∈ news, x ∉ Vis := fun x hx => (hnews x hx).2
  have hcur_dist : DistMin P S Current dCur := (List.forall₂_cons.mp inv.paired).1
  have hrest_paired := (List.forall₂_cons.mp inv.paired).2
  have hrest_nodup : Rest.Nodup := (List.nodup_cons.mp inv.queue_nodup).2
  have hdrest_sorted : drest.Pairwise (· ≤ ·) :=
    (List.pairwise_cons.mp inv.dq_sorted).2
  have hdcur_head : ∀ e ∈ drest, dCur ≤ e :=
    (List.pairwise_cons.mp inv.dq_sorted).1
  refine ⟨drest ++ List.replicate news.length (dCur + 1), ?_⟩
  refine
    { start_mem := ?_
      vis_valid := ?_
      queue_sub := ?_
      queue_nodup := ?_
      paired := ?_
      dq_sorted := ?_
      dq_span := ?_
      closure := ?_
      endq := ?_
      pstart := ?_
      pchain := ?_
      plen := ?_ }
  · rw [hvis]
    exact Finset.mem_union_left _ inv.start_mem
  · intro v hv
    rw [hvis] at hv
    rcases Finset.mem_union.mp hv with hv | hv
    · exact inv.vis_valid v hv
    · exact (hnews_adj v (List.mem_toFinset.mp hv)).2.1
  · intro v hv
    rw [hq] at hv
    rw [hvis]
    rcases List.mem_append.mp hv with hv | hv
    · exact Finset.mem_union_left _
        (inv.queue_sub v (List.mem_cons_of_mem Current hv))
    · exact Finset.mem_union_right _ (List.mem_toFinset.mpr hv)
  · rw [hq]
    refine List.Nodup.append hrest_nodup hnodup ?_
    intro a ha hanews
    exact hnews_nvis a hanews (inv.queue_sub a (List.mem_cons_of_mem Current ha))
  · rw [hq]
    exact List.rel_append hrest_paired (forall₂_replicate _ news hnews_dist)
  · rw [List.pairwise_append]
    refine ⟨hdrest_sorted, pairwise_le_replicate _ _, ?_⟩
    intro d hd e he
    rw [List.eq_of_mem_replicate he]
    exact inv.dq_span d (List.mem_cons_of_mem dCur hd) dCur
      (List.mem_cons_self dCur drest)
  · intro d hd e he
    rcases List.mem_append.mp hd with hd | hd <;>
      rcases List.mem_append.mp he with he | he
    · exact inv.dq_span d (List.mem_cons_of_mem dCur hd) e
        (List.mem_cons_of_mem dCur he)
    · rw [List.eq_of_mem_replicate he]
      have := inv.dq_span d (List.mem_cons_of_mem dCur hd) dCur
        (List.mem_cons_self dCur drest)
      omega
    · rw [List.eq_of_mem_replicate hd]
      have := hdcur_head e he
      omega
    · rw [List.eq_of_mem_replicate hd, List.eq_of_mem_replicate he]
      omega
  · intro u hu huq x hadj
    rw [hvis] at hu
    rcases Finset.mem_union.mp hu with hu | hu
    · by_cases hucur : u = Current
      · subst hucur
        have hx : x ∈ P.GetWalkableNeighbors u := adj_mem_GetWalkableNeighbors P u x hadj
        exact hall x hx
      · have hnot_old : u ∉ Current :: Rest := by
          intro hmem
          rcases List.mem_cons.mp hmem with rfl | hmem
          · exact hucur rfl
          · exact huq (by rw [hq]; exact List.mem_append_left _ hmem)
        have := inv.closure u hu hnot_old x hadj
        rw [hvis]
        exact Finset.mem_union_left _ this
    · exfalso
      apply huq
      rw [hq]
      exact List.mem_append_right _ (List.mem_toFinset.mp hu)
  · intro hE
    rw [hvis] at hE
    rw [hq]
    rcases Finset.mem_union.mp hE with hE | hE
    · have := inv.endq hE
      rcases List.mem_cons.mp this with rfl | hmem
      · exact absurd rfl hne
      · exact List.mem_append_left _ hmem
    · exact List.mem_append_right _ (List.mem_toFinset.mp hE)
  · have hSnews : S ∉ news := fun hmem => hnews_nvis S hmem inv.start_mem
    rw [hlook_old S hSnews]
    exact inv.pstart
  · intro v hv hvS
    rw [hvis] at hv
    rcases Finset.mem_union.mp hv with hv | hv
    · have hvnews : v ∉ news := fun hmem => hnews_nvis v hmem hv
      obtain ⟨u, du, hl, hu, hadj, hdu, hdv⟩ := inv.pchain v hv hvS
      refine ⟨u, du, ?_, ?_, hadj, hdu, hdv⟩
      · rw [hlook_old v hvnews]
        exact hl
      · rw [hvis]
        exact Finset.mem_union_left _ hu
    · have hvnews : v ∈ news := List.mem_toFinset.mp hv
      refine ⟨Current, dCur, hlook_new v hvnews, ?_, hnews_adj v hvnews,
        hcur_dist, hnews_dist v hvnews⟩
      rw [hvis]
      exact Finset.mem_union_left _ hcur_vis
  · rw [hlen, hvis, inv.plen]
    have hdisj : Disjoint Vis news.toFinset := by
      rw [Finset.disjoint_right]
      intro a ha
      exact hnews_nvis a (List.mem_toFinset.mp ha)
    rw [Finset.card_union_of_disjoint hdisj, List.toFinset_card_of_nodup hnodup]

/-- Facts about the final parent map that the reconstruction phase needs,
extracted from the loop invariant at the moment the target is dequeued. -/
def ParentsSpec (P : UMazePathfinder) (S : FIntPoint)
    (Par : List (FIntPoint × FIntPoint)) (Vis : Finset FIntPoint) : Prop :=
  S ∈ Vis ∧
    (∀ v ∈ Vis, P.IsValidCell v = true) ∧
    Par.lookup S = some ((-1 : ℤ), (-1 : ℤ)) ∧
    Par.length = Vis.card ∧
    ∀ v ∈ Vis, v ≠ S → ∃ u du,
      Par.lookup v = some u ∧ u ∈ Vis ∧ Adj P u v ∧
        DistMin P S u du ∧ DistMin P S v (du + 1)

lemma reach_closed (P : UMazePathfinder) (S : FIntPoint)
    (Vis : Finset FIntPoint) (hS : S ∈ Vis)
    (hcl : ∀ u ∈ Vis, ∀ x, Adj P u x → x ∈ Vis) :
    ∀ n v, ReachN P n S v → v ∈ Vis := by
  intro n
  induction n with
  | zero =>
    intro v h
    cases h
    exact hS
  | succ m ih =>
    intro v h
    obtain ⟨u, hmu, hadj⟩ := ReachN_snoc_inv P m S v h
    exact hcl u (ih u hmu) v hadj

lemma BFSLoop_empty (P : UMazePathfinder) (S E : FIntPoint) (dq : List ℕ)
    (Vis : Finset FIntPoint) (Par : List (FIntPoint × FIntPoint))
    (inv : BfsInv P S E [] dq Vis Par) :
    BFSLoop P E [] Vis Par = (false, Par) ∧ ∀ n, ¬ ReachN P n S E := by
  refine ⟨by simp only [BFSLoop], ?_⟩
  intro n hn
  have hcl : ∀ u ∈ Vis, ∀ x, Adj P u x → x ∈ Vis := by
    intro u hu x hadj
    exact inv.closure u hu (List.not_mem_nil u) x hadj
  have hE : E ∈ Vis := reach_closed P S Vis inv.start_mem hcl n E hn
  exact List.not_mem_nil E (inv.endq hE)

lemma BFSLoop_sound (P : UMazePathfinder) (S E : FIntPoint) :
    ∀ (N : ℕ) (Queue : List FIntPoint) (dq : List ℕ)
      (Vis : Finset FIntPoint) (Par : List (FIntPoint × FIntPoint)),
      2 * ((validCells P) \ Vis).card + Queue.length ≤ N →
      BfsInv P S E Queue dq Vis Par →
      ((BFSLoop P E Queue Vis Par).1 = true →
        ∃ Vis2 dE, ParentsSpec P S (BFSLoop P E Queue Vis Par).2 Vis2 ∧
          E ∈ Vis2 ∧ DistMin P S E dE) ∧
      ((BFSLoop P E Queue Vis Par).1 = false → ∀ n, ¬ ReachN P n S E) := by
  intro N
  induction N with
  | zero =>
    intro Queue dq Vis Par hm inv
    have hq : Queue = [] := by
      cases Queue with
      | nil => rfl
      | cons c r => simp only [List.length_cons] at hm; omega
    subst hq
    obtain ⟨heq, hnone⟩ := BFSLoop_empty P S E dq Vis Par inv
    rw [heq]
    exact ⟨fun h => absurd h (by simp), fun _ => hnone⟩
  | succ N ih =>
    intro Queue dq Vis Par hm inv
    cases Queue with
    | nil =>
      obtain ⟨heq, hnone⟩ := BFSLoop_empty P S E dq Vis Par inv
      rw [heq]
      exact ⟨fun h => absurd h (by simp), fun _ => hnone⟩
    | cons Current Rest =>
      cases dq with
      | nil => cases inv.paired
      | cons dCur drest =>
        by_cases hCE : Current = E
        · rw [BFSLoop, if_pos hCE]
          refine ⟨fun _ => ?_, fun h => absurd h (by simp)⟩
          refine ⟨Vis, dCur, ?_, ?_, ?_⟩
          · exact ⟨inv.start_mem, inv.vis_valid, inv.pstart, inv.plen, inv.pchain⟩
          · rw [← hCE]
            exact inv.queue_sub Current (List.mem_cons_self Current Rest)
          · have := (List.forall₂_cons.mp inv.paired).1
            rw [← hCE]
            exact this
        · rw [BFSLoop, if_neg hCE]
          obtain ⟨dq2, inv2⟩ :=
            BfsInv_step P S E Current Rest dCur drest Vis Par inv hCE
          have hmeas := ProcessNeighbors_measure P Current
            (P.GetWalkableNeighbors Current) Vis Par Rest
            (fun n hn => GetWalkableNeighbors_valid P Current n hn)
          refine ih _ dq2 _ _ ?_ inv2
          simp only [List.length_cons] at hm
          omega

lemma Reconstruct_sentinel (Par : List (FIntPoint × FIntPoint)) :
    ∀ f : ℕ, Reconstruct Par f ((-1 : ℤ), (-1 : ℤ)) = [] := by
  intro f
  cases f with
  | zero => rfl
  | succ g => simp [Reconstruct]

lemma Reconstruct_cons (Par : List (FIntPoint × FIntPoint)) (f : ℕ)
    (Current p : FIntPoint) (hne : Current ≠ ((-1 : ℤ), (-1 : ℤ)))
    (hl : Par.lookup Current = some p) :
    Reconstruct Par (f + 1) Current = Current :: Reconstruct Par f p := by
  rw [Reconstruct, if_neg hne, hl]

lemma getLast?_cons_ne_nil {α : Type} (a : α) (l : List α) (h : l ≠ []) :
    (a :: l).getLast? = l.getLast? := by
  cases l with
  | nil => exact absurd rfl h
  | cons b t => rfl

lemma valid_ne_sentinel (P : UMazePathfinder) (v : FIntPoint)
    (h : P.IsValidCell v = true) : v ≠ ((-1 : ℤ), (-1 : ℤ)) := by
  intro heq
  have hb := (IsValidCell_bounds P v h).1
  rw [heq] at hb
  omega

lemma Reconstruct_spec (P : UMazePathfinder) (S : FIntPoint)
    (Par : List (FIntPoint × FIntPoint)) (Vis : Finset FIntPoint)
    (hps : ParentsSpec P S Par Vis) :
    ∀ d, ∀ v ∈ Vis, DistMin P S v d → ∀ fuel, d + 1 ≤ fuel →
      (Reconstruct Par fuel v).length = d + 1 ∧
        (Reconstruct Par fuel v).head? = some v ∧
        (Reconstruct Par fuel v).getLast? = some S := by
  intro d
  induction d using Nat.strong_induction_on with
  | _ d ih =>
    intro v hv hdv fuel hfuel
    by_cases hvS : v = S
    · subst hvS
      have hd0 : d = 0 := DistMin_start_zero P v d hdv
      subst hd0
      cases fuel with
      | zero => omega
      | succ g =>
        have hvne : v ≠ ((-1 : ℤ), (-1 : ℤ)) :=
          valid_ne_sentinel P v (hps.2.1 v hv)
        rw [Reconstruct_cons Par g v _ hvne hps.2.2.1, Reconstruct_sentinel]
        exact ⟨rfl, rfl, rfl⟩
    · obtain ⟨u, du, hl, hu, hadj, hdu, hdv1⟩ := hps.2.2.2.2 v hv hvS
      have hdeq : d = du + 1 := DistMin_unique P S v d (du + 1) hdv hdv1
      subst hdeq
      cases fuel with
      | zero => omega
      | succ g =>
        have hvne : v ≠ ((-1 : ℤ), (-1 : ℤ)) :=
          valid_ne_sentinel P v (hps.2.1 v hv)
        rw [Reconstruct_cons Par g v u hvne hl]
        obtain ⟨hlen, hhead, hlast⟩ := ih du (by omega) u hu hdu g (by omega)
        have hne_nil : Reconstruct Par g u ≠ [] := by
          intro hnil
          rw [hnil] at hlen
          simp at hlen
        refine ⟨?_, rfl, ?_⟩
        · simp only [List.length_cons, hlen]
        · rw [getLast?_cons_ne_nil _ _ hne_nil]
          exact hlast

lemma ParentsSpec_dist_le_card (P : UMazePathfinder) (S : FIntPoint)
    (Par : List (FIntPoint × FIntPoint)) (Vis : Finset FIntPoint)
    (hps : ParentsSpec P S Par Vis) :
    ∀ d, ∀ v ∈ Vis, DistMin P S v d → d + 1 ≤ Vis.card := by
  have hchain : ∀ d, ∀ v ∈ Vis, DistMin P S v d →
      ∃ L : List FIntPoint, L.length = d + 1 ∧ L.Nodup ∧
        (∀ x ∈ L, x ∈ Vis) ∧ (∀ x ∈ L, ∃ dx, DistMin P S x dx ∧ dx ≤ d) := by
    intro d
    induction d using Nat.strong_induction_on with
    | _ d ih =>
      intro v hv hdv
      by_cases hvS : v = S
      · subst hvS
        have hd0 : d = 0 := DistMin_start_zero P v d hdv
        subst hd0
        exact ⟨[v], rfl, List.nodup_singleton v,
          fun x hx => by rw [List.eq_of_mem_singleton hx]; exact hv,
          fun x hx => by
            rw [List.eq_of_mem_singleton hx]
            exact ⟨0, DistMin_self P v, le_refl 0⟩⟩
      · obtain ⟨u, du, hl, hu, hadj, hdu, hdv1⟩ := hps.2.2.2.2 v hv hvS
        have hdeq : d = du + 1 := DistMin_unique P S v d (du + 1) hdv hdv1
        subst hdeq
        obtain ⟨L, hlen, hnd, hsub, hdists⟩ := ih du (by omega) u hu hdu
        refine ⟨v :: L, by simp [hlen], ?_, ?_, ?_⟩
        · refine List.nodup_cons.mpr ⟨?_, hnd⟩
          intro hvL
          obtain ⟨dx, hdx, hdxle⟩ := hdists v hvL
          have : du + 1 = dx := DistMin_unique P S v (du + 1) dx hdv hdx
          omega
        · intro x hx
          rcases List.mem_cons.mp hx with rfl | hx
          · exact hv
          · exact hsub x hx
        · intro x hx
          rcases List.mem_cons.mp hx with rfl | hx
          · exact ⟨du + 1, hdv1, le_refl _⟩
          · obtain ⟨dx, hdx, hdxle⟩ := hdists x hx
            exact ⟨dx, hdx, by omega⟩
  intro d v hv hdv
  obtain ⟨L, hlen, hnd, hsub, _⟩ := hchain d v hv hdv
  calc d + 1 = L.length := hlen.symm
  _ = L.toFinset.card := (List.toFinset_card_of_nodup hnd).symm
  _ ≤ Vis.card :=
      Finset.card_le_card (fun x hx => hsub x (List.mem_toFinset.mp hx))

lemma FindPath_spec (P : UMazePathfinder) (a b : FIntPoint)
    (hinit : P.bIsInitialized = true)
    (ha : P.IsValidCell a = true) (hb : P.IsValidCell b = true) :
    ((P.FindPath a b).bSuccess = true ↔ ∃ n, ReachN P n a b) ∧
      ((P.FindPath a b).bSuccess = true →
        (P.FindPath a b).PathLength =
            ((P.FindPath a b).PathGridCoordinates.length : ℤ) ∧
          (P.FindPath a b).PathGridCoordinates.head? = some a ∧
          (P.FindPath a b).PathGridCoordinates.getLast? = some b ∧
          DistMin P a b ((P.FindPath a b).PathGridCoordinates.length - 1)) := by
  have h1 : (!P.bIsInitialized) = false := by rw [hinit]; rfl
  have h2 : (!P.IsValidCell a) = false := by rw [ha]; rfl
  have h3 : (!P.IsValidCell b) = false := by rw [hb]; rfl
  by_cases hab : a = b
  · subst hab
    simp only [FindPath, h1, h2, h3, Bool.false_eq_true, if_false, if_pos rfl]
    refine ⟨⟨fun _ => ⟨0, rfl⟩, fun _ => rfl⟩, fun _ => ⟨rfl, rfl, rfl, ?_⟩⟩
    simpa using DistMin_self P a
  · simp only [FindPath, h1, h2, h3, Bool.false_eq_true, if_false, if_neg hab]
    have inv0 : BfsInv P a b [a] [0] {a} [(a, ((-1 : ℤ), (-1 : ℤ)))] :=
      { start_mem := Finset.mem_singleton_self a
        vis_valid := fun v hv => by
          rw [Finset.mem_singleton.mp hv]
          exact ha
        queue_sub := fun v hv => by
          rcases List.mem_singleton.mp hv with rfl
          exact Finset.mem_singleton_self v
        queue_nodup := List.nodup_singleton a
        paired := List.Forall₂.cons (DistMin_self P a) List.Forall₂.nil
        dq_sorted := List.pairwise_singleton _ 0
        dq_span := fun d hd e he => by
          rw [List.eq_of_mem_singleton hd, List.eq_of_mem_singleton he]
          omega
        closure := fun u hu huq x _ => by
          rw [Finset.mem_singleton.mp hu] at huq
          exact absurd (List.mem_singleton_self a) huq
        endq := fun hbv => by
          rw [Finset.mem_singleton.mp hbv] at hab
          exact absurd rfl hab
        pstart := lookup_cons_self a _ []
        pchain := fun v hv hvS => by
          rw [Finset.mem_singleton.mp hv] at hvS
          exact absurd rfl hvS
        plen := by simp }
    obtain ⟨himp_t, himp_f⟩ := BFSLoop_sound P a b
      (2 * ((validCells P) \ {a}).card + 1) [a] [0] {a}
      [(a, ((-1 : ℤ), (-1 : ℤ)))] (by simp) inv0
    rcases hRes : (BFSLoop P b [a] {a} [(a, ((-1 : ℤ), (-1 : ℤ)))]).1 with _ | _
    · rw [hRes] at himp_f
      have hnone := himp_f rfl
      simp only [hRes, Bool.false_eq_true, if_false]
      refine ⟨⟨fun h => absurd h (by simp), fun hn => ?_⟩,
        fun h => absurd h (by simp)⟩
      obtain ⟨n, hn⟩ := hn
      exact absurd hn (hnone n)
    · rw [hRes] at himp_t
      obtain ⟨Vis2, dE, hps, hE, hdE⟩ := himp_t rfl
      simp only [hRes, if_true]
      have hcard : dE + 1 ≤ Vis2.card :=
        ParentsSpec_dist_le_card P a _ Vis2 hps dE b hE hdE
      have hfuel : dE + 1 ≤ (BFSLoop P b [a] {a} [(a, ((-1 : ℤ), (-1 : ℤ)))]).2.length + 1 := by
        rw [hps.2.2.2.1]
        omega
      obtain ⟨hlenL, hheadL, hlastL⟩ := Reconstruct_spec P a _ Vis2 hps dE b hE hdE
        ((BFSLoop P b [a] {a} [(a, ((-1 : ℤ), (-1 : ℤ)))]).2.length + 1) hfuel
      refine ⟨⟨fun _ => ⟨dE, hdE.1⟩, fun _ => by simp⟩, fun _ => ⟨?_, ?_, ?_, ?_⟩⟩
      · simp
      · simpa only [List.head?_reverse] using hlastL
      · simpa only [List.getLast?_reverse] using hheadL
      · simp only [List.length_reverse, hlenL]
        simpa using hdE

/-- C1. For a pathfinder initialized with a cell array matching its
dimensions and in-bounds walkable cells a and b, FindPath succeeds
exactly when b is reachable from a through 4-connected walkable cells,
and on success the path runs from a to b with PathLength equal to the
coordinate count and PathLength minus one the minimal number of
cardinal floor-to-floor moves. -/
theorem findpath_bfs_optimal (InCells : List FMazeCell) (W H : ℤ)
    (InCellSize : ℚ) (a b : FIntPoint)
    (hlen : (InCells.length : ℤ) = W * H)
    (ha : (InitCells InCells (W, H) InCellSize).IsValidCell a = true)
    (hb : (InitCells InCells (W, H) InCellSize).IsValidCell b = true) :
    (((InitCells InCells (W, H) InCellSize).FindPath a b).bSuccess = true ↔
      ∃ n, ReachN (InitCells InCells (W, H) InCellSize) n a b) ∧
      (((InitCells InCells (W, H) InCellSize).FindPath a b).bSuccess = true →
        ((InitCells InCells (W, H) InCellSize).FindPath a b).PathLength =
            (((InitCells InCells (W, H) InCellSize).FindPath a
                b).PathGridCoordinates.length : ℤ) ∧
          ((InitCells InCells (W, H) InCellSize).FindPath a
              b).PathGridCoordinates.head? = some a ∧
          ((InitCells InCells (W, H) InCellSize).FindPath a
              b).PathGridCoordinates.getLast? = some b ∧
          DistMin (InitCells InCells (W, H) InCellSize) a b
            (((InitCells InCells (W, H) InCellSize).FindPath a
                b).PathGridCoordinates.length - 1)) := by
  refine FindPath_spec (InitCells InCells (W, H) InCellSize) a b ?_ ha hb
  simp [InitCells, hlen]

/-- Witness for C1 on a 2 x 1 all-floor grid from (0, 0) to (1, 0). -/
theorem findpath_bfs_optimal_witness :
    (((InitCells [{ bIsFloor := true }, { bIsFloor := true }] (2, 1)
            200).FindPath (0, 0) (1, 0)).bSuccess = true ↔
      ∃ n, ReachN (InitCells [{ bIsFloor := true }, { bIsFloor := true }]
        (2, 1) 200) n (0, 0) (1, 0)) ∧
      (((InitCells [{ bIsFloor := true }, { bIsFloor := true }] (2, 1)
            200).FindPath (0, 0) (1, 0)).bSuccess = true →
        ((InitCells [{ bIsFloor := true }, { bIsFloor := true }] (2, 1)
              200).FindPath (0, 0) (1, 0)).PathLength =
            ((((InitCells [{ bIsFloor := true }, { bIsFloor := true }] (2, 1)
                200).FindPath (0, 0) (1, 0)).PathGridCoordinates.length : ℤ)) ∧
          ((InitCells [{ bIsFloor := true }, { bIsFloor := true }] (2, 1)
              200).FindPath (0, 0) (1, 0)).PathGridCoordinates.head? =
            some (0, 0) ∧
          ((InitCells [{ bIsFloor := true }, { bIsFloor := true }] (2, 1)
              200).FindPath (0, 0) (1, 0)).PathGridCoordinates.getLast? =
            some (1, 0) ∧
          DistMin (InitCells [{ bIsFloor := true }, { bIsFloor := true }]
              (2, 1) 200) (0, 0) (1, 0)
            (((InitCells [{ bIsFloor := true }, { bIsFloor := true }] (2, 1)
                200).FindPath (0, 0) (1, 0)).PathGridCoordinates.length - 1)) :=
  findpath_bfs_optimal [{ bIsFloor := true }, { bIsFloor := true }] 2 1 200
    (0, 0) (1, 0) (by decide) (by decide) (by decide)

end UMazePathfinder

/-- Shorthand kept for the generator section: the inclusive integer
interval list defined with the pathfinder. -/
def intRange (lo hi : ℤ) : List ℤ := UMazePathfinder.intRange lo hi

lemma intRange_eq (lo hi : ℤ) :
    intRange lo hi = UMazePathfinder.intRange lo hi := rfl

/-- Cardinal directions with bit-flag encoding (EMazeDirection in
MazeTypes.h): East 1, North 2, South 4, West 8, NoDir 0. -/
inductive EMazeDirection where
  | NoDir
  | East
  | North
  | South
  | West
deriving DecidableEq, Repr

/-- Numeric value of a direction flag, as in the uint8 enum. -/
def dirByte : EMazeDirection → ℕ
  | EMazeDirection.NoDir => 0
  | EMazeDirection.East => 1
  | EMazeDirection.North => 2
  | EMazeDirection.South => 4
  | EMazeDirection.West => 8

/-- Opposite direction (GetOppositeDirection in MazeTypes.h). -/
def GetOppositeDirection : EMazeDirection → EMazeDirection
  | EMazeDirection.East => EMazeDirection.West
  | EMazeDirection.West => EMazeDirection.East
  | EMazeDirection.North => EMazeDirection.South
  | EMazeDirection.South => EMazeDirection.North
  | EMazeDirection.NoDir => EMazeDirection.NoDir

/-- X offset of a direction (GetDirectionDeltaX in MazeTypes.h). -/
def GetDirectionDeltaX : EMazeDirection → ℤ
  | EMazeDirection.East => 1
  | EMazeDirection.West => -1
  | _ => 0

/-- Y offset of a direction (GetDirectionDeltaY in MazeTypes.h); North is
negative Y, South positive. -/
def GetDirectionDeltaY : EMazeDirection → ℤ
  | EMazeDirection.North => -1
  | EMazeDirection.South => 1
  | _ => 0

/-- Modelled from the engine (not part of this repository): FRandomStream
as an arbitrary deterministic stream of naturals with a cursor. A seed
value determines one concrete stream; theorems quantify over every
stream and therefore cover every seed. -/
structure FRandomStream where
  f : ℕ → ℕ
  idx : ℕ

/-- Modelled from the engine: RandRange consumes one stream value and
maps it into the inclusive range. For MinV less than or equal to MaxV
the result lies in that range. -/
def RandRange (s : FRandomStream) (MinV MaxV : ℤ) : ℤ × FRandomStream :=
  (MinV + ((s.f s.idx % (MaxV - MinV + 1).toNat : ℕ) : ℤ),
    { f := s.f, idx := s.idx + 1 })

lemma RandRange_bounds (s : FRandomStream) (MinV MaxV : ℤ) (h : MinV ≤ MaxV) :
    MinV ≤ (RandRange s MinV MaxV).1 ∧ (RandRange s MinV MaxV).1 ≤ MaxV := by
  simp only [RandRange]
  have hpos : 0 < (MaxV - MinV + 1).toNat := by omega
  have hmod : s.f s.idx % (MaxV - MinV + 1).toNat < (MaxV - MinV + 1).toNat :=
    Nat.mod_lt _ hpos
  omega

/-- Swap of two list positions, modelling TArray::Swap. -/
def listSwap {α : Type} (l : List α) (i j : ℕ) : List α :=
  match l[i]?, l[j]? with
  | some a, some b => (l.set i b).set j a
  | _, _ => l

lemma listSwap_length {α : Type} (l : List α) (i j : ℕ) :
    (listSwap l i j).length = l.length := by
  unfold listSwap
  rcases h1 : l[i]? with _ | a <;> rcases h2 : l[j]? with _ | b <;>
    simp [h1, h2]

lemma listSwap_cond_length {α : Type} (l : List α) (i j : ℕ) :
    (if i ≠ j then listSwap l i j else l).length = l.length := by
  split_ifs
  · exact listSwap_length l i j
  · rfl

/-- One pass of the Fisher-Yates shuffle
(UMazeGenerator::ShuffleArray, MazeGenerator.cpp lines 424-436):
position i is swapped with a random position in the closed interval
from i to the last index. -/
def ShuffleAux {α : Type} (arr : List α) (rng : FRandomStream) (i : ℕ) :
    List α × FRandomStream :=
  if h : i < arr.length then
    let r := RandRange rng (i : ℤ) ((arr.length : ℤ) - 1)
    let SwapIndex := r.1.toNat
    let arr2 := if i ≠ SwapIndex then listSwap arr i SwapIndex else arr
    ShuffleAux arr2 r.2 (i + 1)
  else
    (arr, rng)
termination_by arr.length - i
decreasing_by
  split_ifs
  · rw [listSwap_length]
    omega
  · omega

/-- Seeded in-place shuffle (UMazeGenerator::ShuffleArray). -/
def ShuffleArray {α : Type} (arr : List α) (rng : FRandomStream) :
    List α × FRandomStream :=
  ShuffleAux arr rng 0

/-- Byte grid of the generator, modelling TArray of TArray of uint8 as a
total map from coordinates; sizes are threaded separately, mirroring the
Num() calls of the source. Coordinates are (X, Y) and the source access
Grid[Y][X] is the value at (X, Y). -/
abbrev ByteGrid := FIntPoint → ℕ

/-- Zero-filled grid (UMazeGenerator::CreateZeroedGrid). -/
def CreateZeroedGrid : ByteGrid := fun _ => 0

/-- Pointwise array write Grid[Y][X] = v. -/
def setCell (g : ByteGrid) (X Y : ℤ) (v : ℕ) : ByteGrid :=
  fun p => if p = (X, Y) then v else g p

lemma setCell_same (g : ByteGrid) (X Y : ℤ) (v : ℕ) :
    setCell g X Y v (X, Y) = v := by
  simp [setCell]

lemma setCell_other (g : ByteGrid) (X Y : ℤ) (v : ℕ) (p : FIntPoint)
    (h : p ≠ (X, Y)) : setCell g X Y v p = g p := by
  simp [setCell, h]

/-- Finset of room coordinates of a directions grid. -/
def roomsFinset (Size : FIntPoint) : Finset FIntPoint :=
  Finset.Icc (0 : ℤ) (Size.1 - 1) ×ˢ Finset.Icc (0 : ℤ) (Size.2 - 1)

/-- Number of rooms whose byte is still zero, the termination measure of
the carving loops. -/
def zeroCount (Size : FIntPoint) (g : ByteGrid) : ℕ :=
  ((roomsFinset Size).filter (fun p => g p = 0)).card

lemma lor_eq_zero {a b : ℕ} (h : a ||| b = 0) : a = 0 ∧ b = 0 := by
  have ht : ∀ i, a.testBit i = false ∧ b.testBit i = false := by
    intro i
    have h2 := congrArg (fun n => n.testBit i) h
    simp only [Nat.testBit_or, Nat.zero_testBit] at h2
    exact ⟨(Bool.or_eq_false_iff.mp h2).1, (Bool.or_eq_false_iff.mp h2).2⟩
  constructor
  · apply Nat.eq_of_testBit_eq
    intro i
    rw [(ht i).1, Nat.zero_testBit]
  · apply Nat.eq_of_testBit_eq
    intro i
    rw [(ht i).2, Nat.zero_testBit]

lemma zeroCount_setCell_lor_le (Size : FIntPoint) (g : ByteGrid)
    (X Y : ℤ) (b : ℕ) :
    zeroCount Size (setCell g X Y (g (X, Y) ||| b)) ≤ zeroCount Size g := by
  apply Finset.card_le_card
  intro p hp
  rw [Finset.mem_filter] at hp ⊢
  refine ⟨hp.1, ?_⟩
  by_cases hpxy : p = (X, Y)
  · subst hpxy
    have h2 := hp.2
    rw [setCell_same] at h2
    exact (lor_eq_zero h2).1
  · rw [setCell_other g X Y _ p hpxy] at hp
    exact hp.2

lemma zeroCount_setCell_dec (Size : FIntPoint) (g : ByteGrid)
    (X Y : ℤ) (v : ℕ) (hv : v ≠ 0)
    (hin : (X, Y) ∈ roomsFinset Size) (hzero : g (X, Y) = 0) :
    zeroCount Size (setCell g X Y v) + 1 ≤ zeroCount Size g := by
  have hsub : (roomsFinset Size).filter (fun p => setCell g X Y v p = 0) ⊆
      ((roomsFinset Size).filter (fun p => g p = 0)).erase (X, Y) := by
    intro p hp
    rw [Finset.mem_filter] at hp
    rw [Finset.mem_erase, Finset.mem_filter]
    by_cases hpxy : p = (X, Y)
    · subst hpxy
      rw [setCell_same] at hp
      exact absurd hp.2 hv
    · rw [setCell_other g X Y v p hpxy] at hp
      exact ⟨hpxy, hp.1, hp.2⟩
  have hmem : (X, Y) ∈ (roomsFinset Size).filter (fun p => g p = 0) :=
    Finset.mem_filter.mpr ⟨hin, hzero⟩
  have := Finset.card_le_card hsub
  rw [Finset.card_erase_of_mem hmem] at this
  have hpos : 0 < ((roomsFinset Size).filter (fun p => g p = 0)).card :=
    Finset.card_pos.mpr ⟨(X, Y), hmem⟩
  unfold zeroCount
  omega

mutual

/-- Recursive backtracker carving (UMazeGenerator::CarvePassagesFrom,
MazeGenerator.cpp lines 128-160): shuffle the four directions, then for
each direction whose neighbor is in bounds and unvisited, set both
direction bits and recurse. Fuel bounds the recursion depth; the fuel
supplied by GenerateBacktracker exceeds the room count and is proved
sufficient in the correctness development. -/
def CarvePassagesFrom (fuel : ℕ) (Size : FIntPoint) (X Y : ℤ)
    (g : ByteGrid) (rng : FRandomStream) : ByteGrid × FRandomStream :=
  match fuel with
  | 0 => (g, rng)
  | f + 1 =>
    let r := ShuffleArray
      [EMazeDirection.East, EMazeDirection.West,
        EMazeDirection.North, EMazeDirection.South] rng
    CarveLoop f Size X Y r.1 g r.2
termination_by (fuel, 0)

/-- Direction loop body of CarvePassagesFrom. -/
def CarveLoop (fuel : ℕ) (Size : FIntPoint) (X Y : ℤ) :
    List EMazeDirection → ByteGrid → FRandomStream → ByteGrid × FRandomStream
  | [], g, rng => (g, rng)
  | Dir :: rest, g, rng =>
    let NextX := X + GetDirectionDeltaX Dir
    let NextY := Y + GetDirectionDeltaY Dir
    if NextX ≥ 0 ∧ NextX < Size.1 ∧ NextY ≥ 0 ∧ NextY < Size.2 ∧
        g (NextX, NextY) = 0 then
      let g1 := setCell g X Y (g (X, Y) ||| dirByte Dir)
      let g2 := setCell g1 NextX NextY
        (g1 (NextX, NextY) ||| dirByte (GetOppositeDirection Dir))
      let r := CarvePassagesFrom fuel Size NextX NextY g2 rng
      CarveLoop fuel Size X Y rest r.1 r.2
    else
      CarveLoop fuel Size X Y rest g rng
termination_by dirs _ _ => (fuel, dirs.length + 1)

end

/-- Backtracker entry point (UMazeGenerator::GenerateBacktracker,
MazeGenerator.cpp lines 118-126): carve from room (0, 0). -/
def GenerateBacktracker (Size : FIntPoint) (rng : FRandomStream) :
    ByteGrid × FRandomStream :=
  let Grid := CreateZeroedGrid
  CarvePassagesFrom (Size.1 * Size.2 + 1).toNat Size 0 0 Grid rng

/-- Frontier insertion (UMazeGenerator::PrimAddToFrontier,
MazeGenerator.cpp lines 229-238): only unvisited in-bounds cells are
flagged 64 and appended. -/
def PrimAddToFrontier (Size : FIntPoint) (X Y : ℤ) (g : ByteGrid)
    (fr : List FIntPoint) : ByteGrid × List FIntPoint :=
  if X ≥ 0 ∧ X < Size.1 ∧ Y ≥ 0 ∧ Y < Size.2 ∧ g (X, Y) = 0 then
    (setCell g X Y (g (X, Y) ||| 64), fr ++ [(X, Y)])
  else
    (g, fr)

/-- Frontier expansion (UMazeGenerator::PrimExpandFrontierFrom,
MazeGenerator.cpp lines 217-227): mark the cell In (128) and offer its
four neighbors to the frontier. -/
def PrimExpandFrontierFrom (Size : FIntPoint) (X Y : ℤ) (g : ByteGrid)
    (fr : List FIntPoint) : ByteGrid × List FIntPoint :=
  let g0 := setCell g X Y (g (X, Y) ||| 128)
  let r1 := PrimAddToFrontier Size (X - 1) Y g0 fr
  let r2 := PrimAddToFrontier Size (X + 1) Y r1.1 r1.2
  let r3 := PrimAddToFrontier Size X (Y - 1) r2.1 r2.2
  PrimAddToFrontier Size X (Y + 1) r3.1 r3.2

/-- In-neighbor query (UMazeGenerator::PrimGetInNeighbors,
MazeGenerator.cpp lines 240-256), in source order West, East, North,
South. -/
def PrimGetInNeighbors (Size : FIntPoint) (X Y : ℤ) (g : ByteGrid) :
    List FIntPoint :=
  let N0 : List FIntPoint := []
  let N1 := if X > 0 ∧ (g (X - 1, Y) &&& 128) ≠ 0 then N0 ++ [(X - 1, Y)] else N0
  let N2 := if X < Size.1 - 1 ∧ (g (X + 1, Y) &&& 128) ≠ 0 then N1 ++ [(X + 1, Y)] else N1
  let N3 := if Y > 0 ∧ (g (X, Y - 1) &&& 128) ≠ 0 then N2 ++ [(X, Y - 1)] else N2
  if Y < Size.2 - 1 ∧ (g (X, Y + 1) &&& 128) ≠ 0 then N3 ++ [(X, Y + 1)] else N3

/-- Direction from one cell toward an adjacent cell
(UMazeGenerator::GetDirectionBetween, MazeGenerator.cpp lines 258-265). -/
def GetDirectionBetween (a b : FIntPoint) : EMazeDirection :=
  if b.1 > a.1 then EMazeDirection.East
  else if b.1 < a.1 then EMazeDirection.West
  else if b.2 > a.2 then EMazeDirection.South
  else if b.2 < a.2 then EMazeDirection.North
  else EMazeDirection.NoDir

lemma PrimAddToFrontier_measure (Size : FIntPoint) (X Y : ℤ) (g : ByteGrid)
    (fr : List FIntPoint) :
    2 * zeroCount Size (PrimAddToFrontier Size X Y g fr).1 +
        (PrimAddToFrontier Size X Y g fr).2.length ≤
      2 * zeroCount Size g + fr.length := by
  unfold PrimAddToFrontier
  split_ifs with h
  · obtain ⟨h1, h2, h3, h4, h5⟩ := h
    have hin : (X, Y) ∈ roomsFinset Size := by
      simp only [roomsFinset, Finset.mem_product, Finset.mem_Icc]
      omega
    have hdec := zeroCount_setCell_dec Size g X Y (g (X, Y) ||| 64)
      (by rw [h5]; simp) hin h5
    show 2 * zeroCount Size (setCell g X Y (g (X, Y) ||| 64)) +
      (fr ++ [(X, Y)]).length ≤ 2 * zeroCount Size g + fr.length
    simp only [List.length_append, List.length_singleton]
    omega
  · exact le_refl _

lemma PrimExpandFrontierFrom_measure (Size : FIntPoint) (X Y : ℤ)
    (g : ByteGrid) (fr : List FIntPoint) :
    2 * zeroCount Size (PrimExpandFrontierFrom Size X Y g fr).1 +
        (PrimExpandFrontierFrom Size X Y g fr).2.length ≤
      2 * zeroCount Size g + fr.length := by
  unfold PrimExpandFrontierFrom
  refine le_trans (PrimAddToFrontier_measure Size _ _ _ _) ?_
  refine le_trans (PrimAddToFrontier_measure Size _ _ _ _) ?_
  refine le_trans (PrimAddToFrontier_measure Size _ _ _ _) ?_
  refine le_trans (PrimAddToFrontier_measure Size _ _ _ _) ?_
  have h0 := zeroCount_setCell_lor_le Size g X Y 128
  omega

/-- Main growth loop of Prim (while-loop of UMazeGenerator::GeneratePrims,
MazeGenerator.cpp lines 190-212): pop a random frontier cell, connect it
to a random already-In neighbor if one exists, mark it In and expand.
Fuel bounds the iteration count; the fuel supplied by GeneratePrims
exceeds twice the room count and is proved sufficient in the
correctness development, since each iteration strictly decreases
2 * zeroCount + frontier length. -/
def PrimLoop (Size : FIntPoint) : ℕ → ByteGrid → List FIntPoint →
    FRandomStream → ByteGrid × FRandomStream
  | 0, g, _, rng => (g, rng)
  | fuel + 1, g, fr, rng =>
    if fr.length > 0 then
      let r := RandRange rng 0 ((fr.length : ℤ) - 1)
      let Current := fr.getD r.1.toNat (0, 0)
      let fr1 := fr.eraseIdx r.1.toNat
      let InNeighbors := PrimGetInNeighbors Size Current.1 Current.2 g
      let step :=
        if InNeighbors.length > 0 then
          let r2 := RandRange r.2 0 ((InNeighbors.length : ℤ) - 1)
          let Neighbor := InNeighbors.getD r2.1.toNat (0, 0)
          let Dir := GetDirectionBetween Current Neighbor
          let ga := setCell g Current.1 Current.2
            (g (Current.1, Current.2) ||| dirByte Dir)
          (setCell ga Neighbor.1 Neighbor.2
            (ga (Neighbor.1, Neighbor.2) ||| dirByte (GetOppositeDirection Dir)),
            r2.2)
        else
          (g, r.2)
      let e := PrimExpandFrontierFrom Size Current.1 Current.2 step.1 fr1
      PrimLoop Size fuel e.1 e.2 step.2
    else
      (g, rng)

/-- Prim entry point (UMazeGenerator::GeneratePrims, MazeGenerator.cpp
lines 178-215): random start cell, then frontier growth. -/
def GeneratePrims (Size : FIntPoint) (rng : FRandomStream) :
    ByteGrid × FRandomStream :=
  let Grid := CreateZeroedGrid
  let r1 := RandRange rng 0 (Size.1 - 1)
  let r2 := RandRange r1.2 0 (Size.2 - 1)
  let e := PrimExpandFrontierFrom Size r1.1 r2.1 Grid []
  PrimLoop Size (2 * (Size.1 * Size.2).toNat + 5) e.1 e.2 r2.2

/-- One disjoint-set edge candidate (UMazeGenerator::FKruskalEdge). -/
structure FKruskalEdge where
  X : ℤ
  Y : ℤ
  Direction : EMazeDirection
deriving DecidableEq, Repr

/-- Root of a set by parent chasing (FKruskalSet::GetRoot), with fuel for
the unbounded chase; the room count is proved sufficient under the
forest invariant. The set objects of the source are identified with the
rooms owning them, so the parent pointers form a map on rooms. -/
def KruskalGetRoot (Sets : FIntPoint → Option FIntPoint) :
    ℕ → FIntPoint → FIntPoint
  | 0, x => x
  | f + 1, x =>
    match Sets x with
    | none => x
    | some p => KruskalGetRoot Sets f p

/-- Candidate edge enumeration of GenerateKruskals (MazeGenerator.cpp
lines 298-311): row-major, West edge then North edge per cell. -/
def KruskalEdges (Size : FIntPoint) : List FKruskalEdge :=
  (intRange 0 (Size.2 - 1)).bind (fun Y =>
    (intRange 0 (Size.1 - 1)).bind (fun X =>
      (if X > 0 then [FKruskalEdge.mk X Y EMazeDirection.West] else []) ++
        (if Y > 0 then [FKruskalEdge.mk X Y EMazeDirection.North] else [])))

/-- Edge processing loop of GenerateKruskals (MazeGenerator.cpp lines
317-334): for each edge whose endpoints have different roots, attach the
root of the far endpoint under the near cell and carve both direction
bits. -/
def KruskalProcess (fuelRoots : ℕ) :
    List FKruskalEdge → ByteGrid → (FIntPoint → Option FIntPoint) →
      ByteGrid × (FIntPoint → Option FIntPoint)
  | [], g, Sets => (g, Sets)
  | Edge :: rest, g, Sets =>
    let NextX := Edge.X + GetDirectionDeltaX Edge.Direction
    let NextY := Edge.Y + GetDirectionDeltaY Edge.Direction
    if KruskalGetRoot Sets fuelRoots (Edge.X, Edge.Y) ≠
        KruskalGetRoot Sets fuelRoots (NextX, NextY) then
      let Sets2 := fun p =>
        if p = KruskalGetRoot Sets fuelRoots (NextX, NextY) then
          some (Edge.X, Edge.Y)
        else Sets p
      let g1 := setCell g Edge.X Edge.Y
        (g (Edge.X, Edge.Y) ||| dirByte Edge.Direction)
      let g2 := setCell g1 NextX NextY
        (g1 (NextX, NextY) ||| dirByte (GetOppositeDirection Edge.Direction))
      KruskalProcess fuelRoots rest g2 Sets2
    else
      KruskalProcess fuelRoots rest g Sets

/-- Kruskal entry point (UMazeGenerator::GenerateKruskals,
MazeGenerator.cpp lines 282-337). -/
def GenerateKruskals (Size : FIntPoint) (rng : FRandomStream) :
    ByteGrid × FRandomStream :=
  let Grid := CreateZeroedGrid
  let Sets : FIntPoint → Option FIntPoint := fun _ => none
  let r := ShuffleArray (KruskalEdges Size) rng
  ((KruskalProcess (Size.1 * Size.2).toNat r.1 Grid Sets).1, r.2)

/-- Room coordinates of a directions grid in row-major order, the
iteration order of the conversion loops. -/
def rowMajor (Size : FIntPoint) : List FIntPoint :=
  (intRange 0 (Size.2 - 1)).bind (fun Y =>
    (intRange 0 (Size.1 - 1)).map (fun X => (X, Y)))

/-- Per-room writes of DirectionsToFloorWallGrid (MazeGenerator.cpp lines
378-419): the room cell becomes floor, and each open direction bit
carves the single in-bounds connecting cell. -/
def ApplyRoom (DirectionsGrid : ByteGrid) (FinalSize : FIntPoint)
    (g : ByteGrid) (p : FIntPoint) : ByteGrid :=
  let FinalX := p.1 * 2
  let FinalY := p.2 * 2
  if FinalX ≥ FinalSize.1 ∨ FinalY ≥ FinalSize.2 then g
  else
    let g1 := setCell g FinalX FinalY 1
    let Directions := DirectionsGrid p
    let g2 := if (Directions &&& 1) ≠ 0 ∧ FinalX + 1 < FinalSize.1 then
        setCell g1 (FinalX + 1) FinalY 1
      else g1
    let g3 := if (Directions &&& 2) ≠ 0 ∧ FinalY - 1 ≥ 0 then
        setCell g2 FinalX (FinalY - 1) 1
      else g2
    let g4 := if (Directions &&& 4) ≠ 0 ∧ FinalY + 1 < FinalSize.2 then
        setCell g3 FinalX (FinalY + 1) 1
      else g3
    if (Directions &&& 8) ≠ 0 ∧ FinalX - 1 ≥ 0 then
      setCell g4 (FinalX - 1) FinalY 1
    else g4

/-- Conversion of a directions grid to the final floor and wall grid
(UMazeGenerator::DirectionsToFloorWallGrid, MazeGenerator.cpp lines
356-422): start fully walled, then apply every room in row-major order. -/
def DirectionsToFloorWallGrid (DirectionsGrid : ByteGrid)
    (DirSize FinalSize : FIntPoint) : ByteGrid :=
  (rowMajor DirSize).foldl (ApplyRoom DirectionsGrid FinalSize) CreateZeroedGrid

/-- Algorithm selector (EMazeGenerationAlgorithm in MazeTypes.h). -/
inductive EMazeGenerationAlgorithm where
  | RecursiveBacktracker
  | Prims
  | Kruskals
deriving DecidableEq, Repr

/-- Generation parameters (FMazeGenerationConfig in MazeTypes.h) with the
C++ defaults. -/
structure FMazeGenerationConfig where
  Seed : ℤ := 12345
  SizeX : ℤ := 21
  SizeY : ℤ := 21
  Algorithm : EMazeGenerationAlgorithm :=
    EMazeGenerationAlgorithm.RecursiveBacktracker
  CellSize : ℚ := 200
  WallHeight : ℚ := 300
deriving DecidableEq, Repr

/-- Maze generation (UMazeGenerator::GenerateMaze, MazeGenerator.cpp
lines 32-100): directions grid at half resolution per algorithm, then
conversion and the cell array with world positions. The random stream
argument stands for FRandomStream seeded with Config.Seed. -/
def GenerateMaze (Config : FMazeGenerationConfig)
    (Random : FRandomStream) : List FMazeCell :=
  let DirectionsSize : FIntPoint :=
    (Int.div (Config.SizeX + 1) 2, Int.div (Config.SizeY + 1) 2)
  let r :=
    match Config.Algorithm with
    | EMazeGenerationAlgorithm.RecursiveBacktracker =>
      GenerateBacktracker DirectionsSize Random
    | EMazeGenerationAlgorithm.Prims =>
      GeneratePrims DirectionsSize Random
    | EMazeGenerationAlgorithm.Kruskals =>
      GenerateKruskals DirectionsSize Random
  let FinalSize : FIntPoint := (Config.SizeX, Config.SizeY)
  let CachedGrid := DirectionsToFloorWallGrid r.1 DirectionsSize FinalSize
  (intRange 0 (FinalSize.2 - 1)).bind (fun Y =>
    (intRange 0 (FinalSize.1 - 1)).map (fun X =>
      { GridPosition := (X, Y)
        WorldPosition := ((X : ℚ) * Config.CellSize + Config.CellSize * (1 / 2),
          (Y : ℚ) * Config.CellSize + Config.CellSize * (1 / 2), 0)
        bIsFloor := decide (CachedGrid (X, Y) = 1) }))

lemma mem_listSwap {α : Type} (l : List α) (i j : ℕ) (hi : i < l.length)
    (hj : j < l.length) (x : α) : x ∈ listSwap l i j ↔ x ∈ l := by
  unfold listSwap
  rw [List.getElem?_eq_getElem hi, List.getElem?_eq_getElem hj]
  show x ∈ (l.set i l[j]).set j l[i] ↔ x ∈ l
  have hlen : ((l.set i l[j]).set j l[i]).length = l.length := by simp
  constructor
  · intro hx
    obtain ⟨k, hk, hkx⟩ := List.mem_iff_getElem.mp hx
    rw [hlen] at hk
    rw [List.getElem_set, List.getElem_set] at hkx
    split_ifs at hkx <;> exact hkx ▸ List.getElem_mem _
  · intro hx
    obtain ⟨k, hk, hkx⟩ := List.mem_iff_getElem.mp hx
    by_cases hkj : k = j
    · refine List.mem_iff_getElem.mpr ⟨i, by omega, ?_⟩
      rw [List.getElem_set, List.getElem_set]
      subst hkj
      split_ifs with h1 h2 <;> simp_all
    · by_cases hki : k = i
      · refine List.mem_iff_getElem.mpr ⟨j, by omega, ?_⟩
        rw [List.getElem_set]
        subst hki
        simp_all
      · refine List.mem_iff_getElem.mpr ⟨k, by omega, ?_⟩
        rw [List.getElem_set, List.getElem_set]
        rw [if_neg (fun h => hkj h.symm), if_neg (fun h => hki h.symm)]
        exact hkx

lemma ShuffleAux_mem {α : Type} :
    ∀ (N : ℕ) (arr : List α) (rng : FRandomStream) (i : ℕ) (x : α),
      arr.length - i ≤ N → (x ∈ (ShuffleAux arr rng i).1 ↔ x ∈ arr) := by
  intro N
  induction N with
  | zero =>
    intro arr rng i x hN
    rw [ShuffleAux, dif_neg (by omega)]
  | succ N ih =>
    intro arr rng i x hN
    rw [ShuffleAux]
    by_cases hlt : i < arr.length
    · rw [dif_pos hlt]
      show x ∈ (ShuffleAux
        (if i ≠ (RandRange rng (i : ℤ) ((arr.length : ℤ) - 1)).1.toNat then
          listSwap arr i (RandRange rng (i : ℤ) ((arr.length : ℤ) - 1)).1.toNat
        else arr)
        (RandRange rng (i : ℤ) ((arr.length : ℤ) - 1)).2 (i + 1)).1 ↔ x ∈ arr
      have hb := RandRange_bounds rng (i : ℤ) ((arr.length : ℤ) - 1) (by omega)
      have hswap : (RandRange rng (i : ℤ) ((arr.length : ℤ) - 1)).1.toNat <
          arr.length := by omega
      by_cases hne : i ≠ (RandRange rng (i : ℤ) ((arr.length : ℤ) - 1)).1.toNat
      · rw [if_pos hne]
        rw [ih _ _ _ x (by rw [listSwap_length]; omega)]
        exact mem_listSwap arr i _ hlt hswap x
      · rw [if_neg hne]
        exact ih _ _ _ x (by omega)
    · rw [dif_neg hlt]

lemma ShuffleArray_mem {α : Type} (arr : List α) (rng : FRandomStream)
    (x : α) : x ∈ (ShuffleArray arr rng).1 ↔ x ∈ arr :=
  ShuffleAux_mem arr.length arr rng 0 x (by omega)

lemma and_lor_ne_zero (v b c : ℕ) :
    ((v ||| b) &&& c ≠ 0) ↔ (v &&& c ≠ 0 ∨ b &&& c ≠ 0) := by
  rw [Nat.and_distrib_right]
  constructor
  · intro h
    by_contra hc
    push_neg at hc
    rw [hc.1, hc.2] at h
    exact h rfl
  · intro h hz
    obtain ⟨h1, h2⟩ := lor_eq_zero hz
    rcases h with h | h
    exacts [h h1, h h2]

/-- Offset of a direction as a coordinate pair. -/
def dirDelta (d : EMazeDirection) : FIntPoint :=
  (GetDirectionDeltaX d, GetDirectionDeltaY d)

/-- Open direction bit at a room (truthiness of Grid value and flag). -/
def hasDir (g : ByteGrid) (p : FIntPoint) (d : EMazeDirection) : Prop :=
  (g p &&& dirByte d) ≠ 0

instance (g : ByteGrid) (p : FIntPoint) (d : EMazeDirection) :
    Decidable (hasDir g p d) := by
  unfold hasDir
  infer_instance

/-- Room coordinate in range of a directions grid. -/
def inRoom (Size : FIntPoint) (p : FIntPoint) : Prop :=
  0 ≤ p.1 ∧ p.1 < Size.1 ∧ 0 ≤ p.2 ∧ p.2 < Size.2

instance (Size : FIntPoint) (p : FIntPoint) : Decidable (inRoom Size p) := by
  unfold inRoom
  infer_instance

/-- Adjacency of rooms through an open direction bit. -/
def RoomAdj (g : ByteGrid) (p q : FIntPoint) : Prop :=
  ∃ d : EMazeDirection, hasDir g p d ∧ q = (p.1 + (dirDelta d).1, p.2 + (dirDelta d).2)

/-- Connectivity of rooms through open passages. -/
def RoomConn (g : ByteGrid) : FIntPoint → FIntPoint → Prop :=
  Relation.ReflTransGen (RoomAdj g)

/-- Well-formedness of a directions grid: every set direction bit joins
two in-range rooms and is mirrored on the far side. -/
def DirGridOK (Size : FIntPoint) (g : ByteGrid) : Prop :=
  ∀ p d, hasDir g p d →
    inRoom Size p ∧ inRoom Size (p.1 + (dirDelta d).1, p.2 + (dirDelta d).2) ∧
      hasDir g (p.1 + (dirDelta d).1, p.2 + (dirDelta d).2) (GetOppositeDirection d)

/-- Number of open passages of a directions grid, counting each unordered
adjacent pair once through its East or South side. -/
def passageCount (Size : FIntPoint) (g : ByteGrid) : ℕ :=
  ((roomsFinset Size ×ˢ
      ({EMazeDirection.East, EMazeDirection.South} : Finset EMazeDirection)).filter
    (fun pd => hasDir g pd.1 pd.2 ∧
      hasDir g (pd.1.1 + (dirDelta pd.2).1, pd.1.2 + (dirDelta pd.2).2)
        (GetOppositeDirection pd.2))).card

lemma GetOppositeDirection_involutive (d : EMazeDirection) :
    GetOppositeDirection (GetOppositeDirection d) = d := by
  cases d <;> rfl

lemma GetOppositeDirection_ne_noDir (d : EMazeDirection)
    (h : d ≠ EMazeDirection.NoDir) :
    GetOppositeDirection d ≠ EMazeDirection.NoDir := by
  cases d <;> first | exact absurd rfl h | decide

lemma dirDelta_opp (d : EMazeDirection) :
    dirDelta (GetOppositeDirection d) = (-(dirDelta d).1, -(dirDelta d).2) := by
  cases d <;> decide

lemma dirDelta_ne_zero (d : EMazeDirection) (h : d ≠ EMazeDirection.NoDir) :
    dirDelta d ≠ ((0 : ℤ), (0 : ℤ)) := by
  cases d <;> first | exact absurd rfl h | decide

lemma dirByte_and_iff (Dir d : EMazeDirection) (h : Dir ≠ EMazeDirection.NoDir) :
    dirByte Dir &&& dirByte d ≠ 0 ↔ d = Dir := by
  cases Dir <;> cases d <;> first | exact absurd rfl h | decide

lemma hasDir_setCell_lor (g : ByteGrid) (X Y : ℤ) (b : ℕ) (p : FIntPoint)
    (d : EMazeDirection) :
    hasDir (setCell g X Y (g (X, Y) ||| b)) p d ↔
      (hasDir g p d ∨ (p = (X, Y) ∧ b &&& dirByte d ≠ 0)) := by
  unfold hasDir
  by_cases hp : p = (X, Y)
  · subst hp
    rw [setCell_same, and_lor_ne_zero]
    simp
  · rw [setCell_other _ _ _ _ _ hp]
    simp [hp]

/-- Both-sided passage carving: the two writes that every algorithm uses
to open a passage from room (X, Y) in direction Dir. -/
def carveCells (g : ByteGrid) (X Y : ℤ) (Dir : EMazeDirection) : ByteGrid :=
  let NextX := X + GetDirectionDeltaX Dir
  let NextY := Y + GetDirectionDeltaY Dir
  let g1 := setCell g X Y (g (X, Y) ||| dirByte Dir)
  setCell g1 NextX NextY (g1 (NextX, NextY) ||| dirByte (GetOppositeDirection Dir))

lemma carve_next_ne_cur (X Y : ℤ) (Dir : EMazeDirection)
    (h : Dir ≠ EMazeDirection.NoDir) :
    ((X + (dirDelta Dir).1, Y + (dirDelta Dir).2) : FIntPoint) ≠ (X, Y) := by
  intro heq
  apply dirDelta_ne_zero Dir h
  rw [Prod.mk.injEq] at heq ⊢
  omega

lemma hasDir_carveCells (g : ByteGrid) (X Y : ℤ) (Dir : EMazeDirection)
    (hDir : Dir ≠ EMazeDirection.NoDir) (p : FIntPoint) (d : EMazeDirection) :
    hasDir (carveCells g X Y Dir) p d ↔
      (hasDir g p d ∨ (p = (X, Y) ∧ d = Dir) ∨
        (p = (X + (dirDelta Dir).1, Y + (dirDelta Dir).2) ∧
          d = GetOppositeDirection Dir)) := by
  have hne := carve_next_ne_cur X Y Dir hDir
  unfold carveCells
  show hasDir (setCell (setCell g X Y (g (X, Y) ||| dirByte Dir))
      (X + GetDirectionDeltaX Dir) (Y + GetDirectionDeltaY Dir)
      ((setCell g X Y (g (X, Y) ||| dirByte Dir))
        (X + GetDirectionDeltaX Dir, Y + GetDirectionDeltaY Dir) |||
          dirByte (GetOppositeDirection Dir))) p d ↔ _
  rw [hasDir_setCell_lor, hasDir_setCell_lor]
  have e1 : ((X + GetDirectionDeltaX Dir, Y + GetDirectionDeltaY Dir) : FIntPoint) =
      (X + (dirDelta Dir).1, Y + (dirDelta Dir).2) := rfl
  rw [e1]
  rw [dirByte_and_iff Dir d hDir,
    dirByte_and_iff (GetOppositeDirection Dir) d (GetOppositeDirection_ne_noDir Dir hDir)]
  tauto

lemma carveCells_other (g : ByteGrid) (X Y : ℤ) (Dir : EMazeDirection)
    (p : FIntPoint) (h1 : p ≠ (X, Y))
    (h2 : p ≠ (X + (dirDelta Dir).1, Y + (dirDelta Dir).2)) :
    carveCells g X Y Dir p = g p := by
  have h2b : p ≠ ((X + GetDirectionDeltaX Dir, Y + GetDirectionDeltaY Dir) : FIntPoint) := h2
  unfold carveCells
  rw [setCell_other _ _ _ _ _ h2b, setCell_other _ _ _ _ _ h1]

lemma carveCells_cur_ne_zero (g : ByteGrid) (X Y : ℤ) (Dir : EMazeDirection)
    (hDir : Dir ≠ EMazeDirection.NoDir) :
    carveCells g X Y Dir (X, Y) ≠ 0 ∧
      carveCells g X Y Dir (X + (dirDelta Dir).1, Y + (dirDelta Dir).2) ≠ 0 := by
  have hne := carve_next_ne_cur X Y Dir hDir
  have hbyte : dirByte Dir ≠ 0 := by
    cases Dir <;> first | exact absurd rfl hDir | decide
  have hbyte2 : dirByte (GetOppositeDirection Dir) ≠ 0 := by
    have := GetOppositeDirection_ne_noDir Dir hDir
    cases h : GetOppositeDirection Dir <;> first | exact absurd h this | decide
  constructor
  · unfold carveCells
    show setCell _ (X + GetDirectionDeltaX Dir) (Y + GetDirectionDeltaY Dir) _
      (X, Y) ≠ 0
    have hcur_ne : ((X, Y) : FIntPoint) ≠
        ((X + GetDirectionDeltaX Dir, Y + GetDirectionDeltaY Dir) : FIntPoint) :=
      Ne.symm hne
    rw [setCell_other _ _ _ _ _ hcur_ne]
    rw [setCell_same]
    intro hz
    exact hbyte (lor_eq_zero hz).2
  · unfold carveCells
    show setCell _ (X + GetDirectionDeltaX Dir) (Y + GetDirectionDeltaY Dir) _
      (X + (dirDelta Dir).1, Y + (dirDelta Dir).2) ≠ 0
    rw [show ((X + (dirDelta Dir).1, Y + (dirDelta Dir).2) : FIntPoint) =
      (X + GetDirectionDeltaX Dir, Y + GetDirectionDeltaY Dir) from rfl]
    rw [setCell_same]
    intro hz
    exact hbyte2 (lor_eq_zero hz).2

lemma zeroCount_setCell_ge (Size : FIntPoint) (g : ByteGrid)
    (X Y : ℤ) (v : ℕ) :
    zeroCount Size g ≤ zeroCount Size (setCell g X Y v) + 1 := by
  have hsub : (roomsFinset Size).filter (fun p => g p = 0) ⊆
      insert ((X, Y) : FIntPoint)
        ((roomsFinset Size).filter (fun p => setCell g X Y v p = 0)) := by
    intro p hp
    rw [Finset.mem_filter] at hp
    rw [Finset.mem_insert]
    by_cases hpxy : p = (X, Y)
    · exact Or.inl hpxy
    · refine Or.inr ?_
      rw [Finset.mem_filter]
      refine ⟨hp.1, ?_⟩
      rw [setCell_other _ _ _ _ _ hpxy]
      exact hp.2
  calc zeroCount Size g ≤ _ := Finset.card_le_card hsub
    _ ≤ _ + 1 := Finset.card_insert_le _ _

lemma zeroCount_setCell_nonzero_eq (Size : FIntPoint) (g : ByteGrid)
    (X Y : ℤ) (v : ℕ) (hnz : g (X, Y) ≠ 0) (hv : v ≠ 0) :
    zeroCount Size (setCell g X Y v) = zeroCount Size g := by
  unfold zeroCount
  congr 1
  ext p
  simp only [Finset.mem_filter, and_congr_right_iff]
  intro _
  by_cases hp : p = (X, Y)
  · subst hp
    rw [setCell_same]
    exact ⟨fun h => absurd h hv, fun h => absurd h hnz⟩
  · rw [setCell_other _ _ _ _ _ hp]

lemma zeroCount_carve (Size : FIntPoint) (g : ByteGrid) (X Y : ℤ)
    (Dir : EMazeDirection) (hDir : Dir ≠ EMazeDirection.NoDir)
    (hin1 : ((X, Y) : FIntPoint) ∈ roomsFinset Size)
    (hin2 : ((X + (dirDelta Dir).1, Y + (dirDelta Dir).2) : FIntPoint) ∈ roomsFinset Size)
    (hznext : g (X + (dirDelta Dir).1, Y + (dirDelta Dir).2) = 0) :
    zeroCount Size (carveCells g X Y Dir) + 1 +
      (if g (X, Y) = 0 then 1 else 0) = zeroCount Size g := by
  have hne := carve_next_ne_cur X Y Dir hDir
  have hbyte : dirByte Dir ≠ 0 := by
    cases Dir <;> first | exact absurd rfl hDir | decide
  have hbyte2 : dirByte (GetOppositeDirection Dir) ≠ 0 := by
    have hop := GetOppositeDirection_ne_noDir Dir hDir
    cases h : GetOppositeDirection Dir <;> first | exact absurd h hop | decide
  have hg1next : setCell g X Y (g (X, Y) ||| dirByte Dir)
      (X + (dirDelta Dir).1, Y + (dirDelta Dir).2) = 0 := by
    rw [setCell_other _ _ _ _ _ hne]
    exact hznext
  have hstep2 : zeroCount Size (carveCells g X Y Dir) + 1 =
      zeroCount Size (setCell g X Y (g (X, Y) ||| dirByte Dir)) := by
    unfold carveCells
    show zeroCount Size (setCell (setCell g X Y (g (X, Y) ||| dirByte Dir))
      (X + GetDirectionDeltaX Dir) (Y + GetDirectionDeltaY Dir) _) + 1 = _
    have hv2 : (setCell g X Y (g (X, Y) ||| dirByte Dir))
        (X + GetDirectionDeltaX Dir, Y + GetDirectionDeltaY Dir) |||
          dirByte (GetOppositeDirection Dir) ≠ 0 := by
      intro hz
      exact hbyte2 (lor_eq_zero hz).2
    have := zeroCount_setCell_dec Size
      (setCell g X Y (g (X, Y) ||| dirByte Dir))
      (X + GetDirectionDeltaX Dir) (Y + GetDirectionDeltaY Dir) _ hv2 hin2 hg1next
    have hge := zeroCount_setCell_ge Size
      (setCell g X Y (g (X, Y) ||| dirByte Dir))
      (X + GetDirectionDeltaX Dir) (Y + GetDirectionDeltaY Dir)
      ((setCell g X Y (g (X, Y) ||| dirByte Dir))
        (X + GetDirectionDeltaX Dir, Y + GetDirectionDeltaY Dir) |||
          dirByte (GetOppositeDirection Dir))
    omega
  by_cases hc : g (X, Y) = 0
  · have hstep1 : zeroCount Size (setCell g X Y (g (X, Y) ||| dirByte Dir)) + 1 =
        zeroCount Size g := by
      have hv1 : g (X, Y) ||| dirByte Dir ≠ 0 := by
        intro hz
        exact hbyte (lor_eq_zero hz).2
      have := zeroCount_setCell_dec Size g X Y _ hv1 hin1 hc
      have hge := zeroCount_setCell_ge Size g X Y (g (X, Y) ||| dirByte Dir)
      omega
    rw [if_pos hc]
    omega
  · have hstep1 : zeroCount Size (setCell g X Y (g (X, Y) ||| dirByte Dir)) =
        zeroCount Size g := by
      refine zeroCount_setCell_nonzero_eq Size g X Y _ hc ?_
      intro hz
      exact hc (lor_eq_zero hz).1
    rw [if_neg hc]
    omega

lemma DirGridOK_carve (Size : FIntPoint) (g : ByteGrid) (X Y : ℤ)
    (Dir : EMazeDirection) (hDir : Dir ≠ EMazeDirection.NoDir)
    (hin1 : inRoom Size (X, Y))
    (hin2 : inRoom Size (X + (dirDelta Dir).1, Y + (dirDelta Dir).2))
    (hok : DirGridOK Size g) :
    DirGridOK Size (carveCells g X Y Dir) := by
  have hback : ((X + (dirDelta Dir).1) + (dirDelta (GetOppositeDirection Dir)).1,
      (Y + (dirDelta Dir).2) + (dirDelta (GetOppositeDirection Dir)).2) =
      ((X, Y) : FIntPoint) := by
    rw [dirDelta_opp]
    rw [Prod.mk.injEq]
    constructor <;> ring
  intro p d hd
  rw [hasDir_carveCells _ _ _ _ hDir] at hd
  rcases hd with hd | ⟨rfl, rfl⟩ | ⟨rfl, rfl⟩
  · obtain ⟨hp1, hp2, hp3⟩ := hok p d hd
    exact ⟨hp1, hp2, (hasDir_carveCells _ _ _ _ hDir _ _).mpr (Or.inl hp3)⟩
  · refine ⟨hin1, hin2, ?_⟩
    exact (hasDir_carveCells _ _ _ _ hDir _ _).mpr (Or.inr (Or.inr ⟨rfl, rfl⟩))
  · refine ⟨hin2, ?_, ?_⟩
    · show inRoom Size ((X + (dirDelta Dir).1) + (dirDelta (GetOppositeDirection Dir)).1,
        (Y + (dirDelta Dir).2) + (dirDelta (GetOppositeDirection Dir)).2)
      rw [hback]
      exact hin1
    · show hasDir _ ((X + (dirDelta Dir).1) + (dirDelta (GetOppositeDirection Dir)).1,
        (Y + (dirDelta Dir).2) + (dirDelta (GetOppositeDirection Dir)).2) _
      rw [hback, GetOppositeDirection_involutive]
      exact (hasDir_carveCells _ _ _ _ hDir _ _).mpr (Or.inr (Or.inl ⟨rfl, rfl⟩))

lemma RoomConn_mono (g g2 : ByteGrid)
    (hmono : ∀ p d, hasDir g p d → hasDir g2 p d) (p q : FIntPoint)
    (h : RoomConn g p q) : RoomConn g2 p q := by
  refine Relation.ReflTransGen.mono ?_ h
  rintro a b ⟨d, hd1, hd2⟩
  exact ⟨d, hmono a d hd1, hd2⟩

lemma RoomAdj_carve_fwd (g : ByteGrid) (X Y : ℤ) (Dir : EMazeDirection)
    (hDir : Dir ≠ EMazeDirection.NoDir) :
    RoomAdj (carveCells g X Y Dir) (X, Y)
      (X + (dirDelta Dir).1, Y + (dirDelta Dir).2) :=
  ⟨Dir, (hasDir_carveCells _ _ _ _ hDir _ _).mpr (Or.inr (Or.inl ⟨rfl, rfl⟩)), rfl⟩

lemma RoomAdj_carve_bwd (g : ByteGrid) (X Y : ℤ) (Dir : EMazeDirection)
    (hDir : Dir ≠ EMazeDirection.NoDir) :
    RoomAdj (carveCells g X Y Dir)
      (X + (dirDelta Dir).1, Y + (dirDelta Dir).2) (X, Y) := by
  refine ⟨GetOppositeDirection Dir,
    (hasDir_carveCells _ _ _ _ hDir _ _).mpr (Or.inr (Or.inr ⟨rfl, rfl⟩)), ?_⟩
  rw [dirDelta_opp]
  rw [Prod.mk.injEq]
  constructor <;> ring

lemma carveCells_west_eq (g : ByteGrid) (X Y : ℤ) :
    carveCells g X Y EMazeDirection.West =
      carveCells g (X - 1) Y EMazeDirection.East := by
  funext p
  show (if p = (X + -1, Y + 0) then
      (if ((X + -1, Y + 0) : FIntPoint) = (X, Y) then g (X, Y) ||| 8
        else g (X + -1, Y + 0)) ||| 1
    else if p = (X, Y) then g (X, Y) ||| 8 else g p) =
    (if p = (X - 1 + 1, Y + 0) then
      (if ((X - 1 + 1, Y + 0) : FIntPoint) = (X - 1, Y) then g (X - 1, Y) ||| 1
        else g (X - 1 + 1, Y + 0)) ||| 8
    else if p = (X - 1, Y) then g (X - 1, Y) ||| 1 else g p)
  have hco1 : ((X + -1, Y + 0) : FIntPoint) = (X - 1, Y) := by
    rw [Prod.mk.injEq]
    constructor <;> ring
  have hco2 : ((X - 1 + 1, Y + 0) : FIntPoint) = (X, Y) := by
    rw [Prod.mk.injEq]
    constructor <;> ring
  have hne : ((X - 1, Y) : FIntPoint) ≠ (X, Y) := by
    intro h
    rw [Prod.mk.injEq] at h
    omega
  have hne2 : ((X, Y) : FIntPoint) ≠ (X - 1, Y) := fun h => hne h.symm
  rw [hco1, hco2, if_neg hne, if_neg hne2]
  by_cases hp1 : p = (X - 1, Y)
  · have hp2 : p ≠ (X, Y) := by rw [hp1]; exact hne
    rw [if_pos hp1, if_neg hp2, if_pos hp1]
  · rw [if_neg hp1, if_neg hp1]

lemma carveCells_north_eq (g : ByteGrid) (X Y : ℤ) :
    carveCells g X Y EMazeDirection.North =
      carveCells g X (Y - 1) EMazeDirection.South := by
  funext p
  show (if p = (X + 0, Y + -1) then
      (if ((X + 0, Y + -1) : FIntPoint) = (X, Y) then g (X, Y) ||| 2
        else g (X + 0, Y + -1)) ||| 4
    else if p = (X, Y) then g (X, Y) ||| 2 else g p) =
    (if p = (X + 0, Y - 1 + 1) then
      (if ((X + 0, Y - 1 + 1) : FIntPoint) = (X, Y - 1) then g (X, Y - 1) ||| 4
        else g (X + 0, Y - 1 + 1)) ||| 2
    else if p = (X, Y - 1) then g (X, Y - 1) ||| 4 else g p)
  have hco1 : ((X + 0, Y + -1) : FIntPoint) = (X, Y - 1) := by
    rw [Prod.mk.injEq]
    constructor <;> ring
  have hco2 : ((X + 0, Y - 1 + 1) : FIntPoint) = (X, Y) := by
    rw [Prod.mk.injEq]
    constructor <;> ring
  have hne : ((X, Y - 1) : FIntPoint) ≠ (X, Y) := by
    intro h
    rw [Prod.mk.injEq] at h
    omega
  have hne2 : ((X, Y) : FIntPoint) ≠ (X, Y - 1) := fun h => hne h.symm
  rw [hco1, hco2, if_neg hne, if_neg hne2]
  by_cases hp1 : p = (X, Y - 1)
  · have hp2 : p ≠ (X, Y) := by rw [hp1]; exact hne
    rw [if_pos hp1, if_neg hp2, if_pos hp1]
  · rw [if_neg hp1, if_neg hp1]

lemma passageCount_carve_east (Size : FIntPoint) (g : ByteGrid) (X Y : ℤ)
    (hin1 : ((X, Y) : FIntPoint) ∈ roomsFinset Size)
    (h1 : ¬hasDir g (X, Y) EMazeDirection.East) :
    passageCount Size (carveCells g X Y EMazeDirection.East) =
      passageCount Size g + 1 := by
  have e1 : passageCount Size (carveCells g X Y EMazeDirection.East) =
      ((roomsFinset Size ×ˢ
        ({EMazeDirection.East, EMazeDirection.South} : Finset EMazeDirection)).filter
        (fun pd => hasDir (carveCells g X Y EMazeDirection.East) pd.1 pd.2 ∧
          hasDir (carveCells g X Y EMazeDirection.East)
            (pd.1.1 + (dirDelta pd.2).1, pd.1.2 + (dirDelta pd.2).2)
            (GetOppositeDirection pd.2))).card := rfl
  have e2 : passageCount Size g =
      ((roomsFinset Size ×ˢ
        ({EMazeDirection.East, EMazeDirection.South} : Finset EMazeDirection)).filter
        (fun pd => hasDir g pd.1 pd.2 ∧
          hasDir g (pd.1.1 + (dirDelta pd.2).1, pd.1.2 + (dirDelta pd.2).2)
            (GetOppositeDirection pd.2))).card := rfl
  have hq : ((((X, Y) : FIntPoint), EMazeDirection.East) :
      FIntPoint × EMazeDirection) ∈ roomsFinset Size ×ˢ
        ({EMazeDirection.East, EMazeDirection.South} : Finset EMazeDirection) := by
    rw [Finset.mem_product]
    exact ⟨hin1, by simp⟩
  have hfil : (roomsFinset Size ×ˢ
        ({EMazeDirection.East, EMazeDirection.South} : Finset EMazeDirection)).filter
        (fun pd => hasDir (carveCells g X Y EMazeDirection.East) pd.1 pd.2 ∧
          hasDir (carveCells g X Y EMazeDirection.East)
            (pd.1.1 + (dirDelta pd.2).1, pd.1.2 + (dirDelta pd.2).2)
            (GetOppositeDirection pd.2)) =
      insert ((((X, Y) : FIntPoint), EMazeDirection.East))
        ((roomsFinset Size ×ˢ
          ({EMazeDirection.East, EMazeDirection.South} : Finset EMazeDirection)).filter
          (fun pd => hasDir g pd.1 pd.2 ∧
            hasDir g (pd.1.1 + (dirDelta pd.2).1, pd.1.2 + (dirDelta pd.2).2)
              (GetOppositeDirection pd.2))) := by
    ext pe
    obtain ⟨p, e⟩ := pe
    rw [Finset.mem_insert, Finset.mem_filter, Finset.mem_filter]
    constructor
    · rintro ⟨hdom, hc1, hc2⟩
      have he : e = EMazeDirection.East ∨ e = EMazeDirection.South := by
        have h3 := (Finset.mem_product.mp hdom).2
        simpa using h3
      rw [hasDir_carveCells _ _ _ _ (by decide)] at hc1 hc2
      dsimp only at hc1 hc2
      rcases he with rfl | rfl
      · by_cases hp : p = ((X, Y) : FIntPoint)
        · exact Or.inl (by rw [hp])
        · refine Or.inr ⟨hdom, ?_, ?_⟩
          · dsimp only
            rcases hc1 with h | h | h
            · exact h
            · exact absurd h.1 hp
            · exact absurd h.2 (by decide)
          · dsimp only
            simp only [dirDelta, GetDirectionDeltaX, GetDirectionDeltaY,
              GetOppositeDirection] at hc2 ⊢
            rcases hc2 with h | h | h
            · exact h
            · exact absurd h.2 (by decide)
            · exfalso
              apply hp
              have h4 := h.1
              rw [Prod.mk.injEq] at h4
              rw [Prod.ext_iff]
              exact ⟨by omega, by omega⟩
      · refine Or.inr ⟨hdom, ?_, ?_⟩
        · dsimp only
          rcases hc1 with h | h | h
          · exact h
          · exact absurd h.2 (by decide)
          · exact absurd h.2 (by decide)
        · dsimp only
          rcases hc2 with h | h | h
          · exact h
          · exact absurd h.2 (by decide)
          · exact absurd h.2 (by decide)
    · rintro (heq | ⟨hdom, hc1, hc2⟩)
      · rw [Prod.mk.injEq] at heq
        obtain ⟨rfl, rfl⟩ := heq
        refine ⟨hq, ?_, ?_⟩
        · exact (hasDir_carveCells _ _ _ _ (by decide) _ _).mpr
            (Or.inr (Or.inl ⟨rfl, rfl⟩))
        · exact (hasDir_carveCells _ _ _ _ (by decide) _ _).mpr
            (Or.inr (Or.inr ⟨rfl, rfl⟩))
      · refine ⟨hdom, ?_, ?_⟩
        · exact (hasDir_carveCells _ _ _ _ (by decide) _ _).mpr (Or.inl hc1)
        · exact (hasDir_carveCells _ _ _ _ (by decide) _ _).mpr (Or.inl hc2)
  have hnot : ((((X, Y) : FIntPoint), EMazeDirection.East) :
      FIntPoint × EMazeDirection) ∉
      (roomsFinset Size ×ˢ
        ({EMazeDirection.East, EMazeDirection.South} : Finset EMazeDirection)).filter
        (fun pd => hasDir g pd.1 pd.2 ∧
          hasDir g (pd.1.1 + (dirDelta pd.2).1, pd.1.2 + (dirDelta pd.2).2)
            (GetOppositeDirection pd.2)) := by
    rw [Finset.mem_filter]
    rintro ⟨-, hc1, -⟩
    exact h1 hc1
  rw [e1, e2, hfil, Finset.card_insert_of_not_mem hnot]

lemma passageCount_carve_south (Size : FIntPoint) (g : ByteGrid) (X Y : ℤ)
    (hin1 : ((X, Y) : FIntPoint) ∈ roomsFinset Size)
    (h1 : ¬hasDir g (X, Y) EMazeDirection.South) :
    passageCount Size (carveCells g X Y EMazeDirection.South) =
      passageCount Size g + 1 := by
  have e1 : passageCount Size (carveCells g X Y EMazeDirection.South) =
      ((roomsFinset Size ×ˢ
        ({EMazeDirection.East, EMazeDirection.South} : Finset EMazeDirection)).filter
        (fun pd => hasDir (carveCells g X Y EMazeDirection.South) pd.1 pd.2 ∧
          hasDir (carveCells g X Y EMazeDirection.South)
            (pd.1.1 + (dirDelta pd.2).1, pd.1.2 + (dirDelta pd.2).2)
            (GetOppositeDirection pd.2))).card := rfl
  have e2 : passageCount Size g =
      ((roomsFinset Size ×ˢ
        ({EMazeDirection.East, EMazeDirection.South} : Finset EMazeDirection)).filter
        (fun pd => hasDir g pd.1 pd.2 ∧
          hasDir g (pd.1.1 + (dirDelta pd.2).1, pd.1.2 + (dirDelta pd.2).2)
            (GetOppositeDirection pd.2))).card := rfl
  have hq : ((((X, Y) : FIntPoint), EMazeDirection.South) :
      FIntPoint × EMazeDirection) ∈ roomsFinset Size ×ˢ
        ({EMazeDirection.East, EMazeDirection.South} : Finset EMazeDirection) := by
    rw [Finset.mem_product]
    exact ⟨hin1, by simp⟩
  have hfil : (roomsFinset Size ×ˢ
        ({EMazeDirection.East, EMazeDirection.South} : Finset EMazeDirection)).filter
        (fun pd => hasDir (carveCells g X Y EMazeDirection.South) pd.1 pd.2 ∧
          hasDir (carveCells g X Y EMazeDirection.South)
            (pd.1.1 + (dirDelta pd.2).1, pd.1.2 + (dirDelta pd.2).2)
            (GetOppositeDirection pd.2)) =
      insert ((((X, Y) : FIntPoint), EMazeDirection.South))
        ((roomsFinset Size ×ˢ
          ({EMazeDirection.East, EMazeDirection.South} : Finset EMazeDirection)).filter
          (fun pd => hasDir g pd.1 pd.2 ∧
            hasDir g (pd.1.1 + (dirDelta pd.2).1, pd.1.2 + (dirDelta pd.2).2)
              (GetOppositeDirection pd.2))) := by
    ext pe
    obtain ⟨p, e⟩ := pe
    rw [Finset.mem_insert, Finset.mem_filter, Finset.mem_filter]
    constructor
    · rintro ⟨hdom, hc1, hc2⟩
      have he : e = EMazeDirection.East ∨ e = EMazeDirection.South := by
        have h3 := (Finset.mem_product.mp hdom).2
        simpa using h3
      rw [hasDir_carveCells _ _ _ _ (by decide)] at hc1 hc2
      dsimp only at hc1 hc2
      rcases he with rfl | rfl
      · refine Or.inr ⟨hdom, ?_, ?_⟩
        · dsimp only
          rcases hc1 with h | h | h
          · exact h
          · exact absurd h.2 (by decide)
          · exact absurd h.2 (by decide)
        · dsimp only
          rcases hc2 with h | h | h
          · exact h
          · exact absurd h.2 (by decide)
          · exact absurd h.2 (by decide)
      · by_cases hp : p = ((X, Y) : FIntPoint)
        · exact Or.inl (by rw [hp])
        · refine Or.inr ⟨hdom, ?_, ?_⟩
          · dsimp only
            rcases hc1 with h | h | h
            · exact h
            · exact absurd h.1 hp
            · exact absurd h.2 (by decide)
          · dsimp only
            simp only [dirDelta, GetDirectionDeltaX, GetDirectionDeltaY,
              GetOppositeDirection] at hc2 ⊢
            rcases hc2 with h | h | h
            · exact h
            · exact absurd h.2 (by decide)
            · exfalso
              apply hp
              have h4 := h.1
              rw [Prod.mk.injEq] at h4
              rw [Prod.ext_iff]
              exact ⟨by omega, by omega⟩
    · rintro (heq | ⟨hdom, hc1, hc2⟩)
      · rw [Prod.mk.injEq] at heq
        obtain ⟨rfl, rfl⟩ := heq
        refine ⟨hq, ?_, ?_⟩
        · exact (hasDir_carveCells _ _ _ _ (by decide) _ _).mpr
            (Or.inr (Or.inl ⟨rfl, rfl⟩))
        · exact (hasDir_carveCells _ _ _ _ (by decide) _ _).mpr
            (Or.inr (Or.inr ⟨rfl, rfl⟩))
      · refine ⟨hdom, ?_, ?_⟩
        · exact (hasDir_carveCells _ _ _ _ (by decide) _ _).mpr (Or.inl hc1)
        · exact (hasDir_carveCells _ _ _ _ (by decide) _ _).mpr (Or.inl hc2)
  have hnot : ((((X, Y) : FIntPoint), EMazeDirection.South) :
      FIntPoint × EMazeDirection) ∉
      (roomsFinset Size ×ˢ
        ({EMazeDirection.East, EMazeDirection.South} : Finset EMazeDirection)).filter
        (fun pd => hasDir g pd.1 pd.2 ∧
          hasDir g (pd.1.1 + (dirDelta pd.2).1, pd.1.2 + (dirDelta pd.2).2)
            (GetOppositeDirection pd.2)) := by
    rw [Finset.mem_filter]
    rintro ⟨-, hc1, -⟩
    exact h1 hc1
  rw [e1, e2, hfil, Finset.card_insert_of_not_mem hnot]

lemma passageCount_carve (Size : FIntPoint) (g : ByteGrid) (X Y : ℤ)
    (Dir : EMazeDirection) (hDir : Dir ≠ EMazeDirection.NoDir)
    (hin1 : ((X, Y) : FIntPoint) ∈ roomsFinset Size)
    (hin2 : ((X + (dirDelta Dir).1, Y + (dirDelta Dir).2) : FIntPoint) ∈
      roomsFinset Size)
    (h1 : ¬hasDir g (X, Y) Dir)
    (h2 : ¬hasDir g (X + (dirDelta Dir).1, Y + (dirDelta Dir).2)
      (GetOppositeDirection Dir)) :
    passageCount Size (carveCells g X Y Dir) = passageCount Size g + 1 := by
  cases Dir with
  | NoDir => exact absurd rfl hDir
  | East => exact passageCount_carve_east Size g X Y hin1 h1
  | South => exact passageCount_carve_south Size g X Y hin1 h1
  | West =>
    rw [carveCells_west_eq]
    have hco : ((X + (dirDelta EMazeDirection.West).1,
        Y + (dirDelta EMazeDirection.West).2) : FIntPoint) = (X - 1, Y) := by
      show ((X + -1, Y + 0) : FIntPoint) = (X - 1, Y)
      rw [Prod.mk.injEq]
      constructor <;> ring
    refine passageCount_carve_east Size g (X - 1) Y ?_ ?_
    · rw [hco] at hin2
      exact hin2
    · have hcast : ¬hasDir g (X + (dirDelta EMazeDirection.West).1,
        Y + (dirDelta EMazeDirection.West).2) EMazeDirection.East := h2
      rw [hco] at hcast
      exact hcast
  | North =>
    rw [carveCells_north_eq]
    have hco : ((X + (dirDelta EMazeDirection.North).1,
        Y + (dirDelta EMazeDirection.North).2) : FIntPoint) = (X, Y - 1) := by
      show ((X + 0, Y + -1) : FIntPoint) = (X, Y - 1)
      rw [Prod.mk.injEq]
      constructor <;> ring
    refine passageCount_carve_south Size g X (Y - 1) ?_ ?_
    · rw [hco] at hin2
      exact hin2
    · have hcast : ¬hasDir g (X + (dirDelta EMazeDirection.North).1,
        Y + (dirDelta EMazeDirection.North).2) EMazeDirection.South := h2
      rw [hco] at hcast
      exact hcast

lemma hasDir_ne_zero (g : ByteGrid) (p : FIntPoint) (d : EMazeDirection)
    (h : hasDir g p d) : g p ≠ 0 := by
  intro hz
  apply h
  show g p &&& dirByte d = 0
  rw [hz, Nat.zero_and]

lemma DirGridOK_zero (Size : FIntPoint) : DirGridOK Size CreateZeroedGrid := by
  intro p d hd
  exfalso
  apply hd
  show CreateZeroedGrid p &&& dirByte d = 0
  rw [show CreateZeroedGrid p = 0 from rfl, Nat.zero_and]

lemma mem_roomsFinset (Size : FIntPoint) (p : FIntPoint) :
    p ∈ roomsFinset Size ↔ inRoom Size p := by
  simp only [roomsFinset, Finset.mem_product, Finset.mem_Icc, inRoom]
  omega

lemma zeroCount_mono_of_byte (Size : FIntPoint) (g g2 : ByteGrid)
    (hmono : ∀ p, g p ≠ 0 → g2 p ≠ 0) :
    zeroCount Size g2 ≤ zeroCount Size g := by
  apply Finset.card_le_card
  intro p hp
  rw [Finset.mem_filter] at hp ⊢
  refine ⟨hp.1, ?_⟩
  by_contra hnz
  exact hmono p hnz hp.2

lemma zeroCount_pos (Size : FIntPoint) (g : ByteGrid) (p : FIntPoint)
    (hin : inRoom Size p) (hz : g p = 0) : 1 ≤ zeroCount Size g := by
  rw [Nat.one_le_iff_ne_zero]
  intro hc
  rw [zeroCount, Finset.card_eq_zero, Finset.eq_empty_iff_forall_not_mem] at hc
  exact hc p (Finset.mem_filter.mpr ⟨(mem_roomsFinset Size p).mpr hin, hz⟩)

lemma carveCells_byte_mono (g : ByteGrid) (X Y : ℤ) (Dir : EMazeDirection)
    (p : FIntPoint) (h : g p ≠ 0) : carveCells g X Y Dir p ≠ 0 := by
  show setCell (setCell g X Y (g (X, Y) ||| dirByte Dir))
    (X + GetDirectionDeltaX Dir) (Y + GetDirectionDeltaY Dir)
    ((setCell g X Y (g (X, Y) ||| dirByte Dir))
      (X + GetDirectionDeltaX Dir, Y + GetDirectionDeltaY Dir) |||
        dirByte (GetOppositeDirection Dir)) p ≠ 0
  by_cases h2 : p = (X + GetDirectionDeltaX Dir, Y + GetDirectionDeltaY Dir)
  · rw [h2, setCell_same]
    intro hz
    by_cases h3 : ((X + GetDirectionDeltaX Dir, Y + GetDirectionDeltaY Dir) :
        FIntPoint) = (X, Y)
    · rw [h3, setCell_same] at hz
      have h4 := (lor_eq_zero (lor_eq_zero hz).1).1
      rw [h2, h3] at h
      exact h h4
    · rw [setCell_other _ _ _ _ _ h3] at hz
      rw [h2] at h
      exact h (lor_eq_zero hz).1
  · rw [setCell_other _ _ _ _ _ h2]
    by_cases h3 : p = (X, Y)
    · rw [h3, setCell_same]
      intro hz
      rw [h3] at h
      exact h (lor_eq_zero hz).1
    · rw [setCell_other _ _ _ _ _ h3]
      exact h

lemma passageCount_zeroGrid (Size : FIntPoint) :
    passageCount Size CreateZeroedGrid = 0 := by
  rw [passageCount, Finset.card_eq_zero, Finset.eq_empty_iff_forall_not_mem]
  intro pd hpd
  rw [Finset.mem_filter] at hpd
  apply hpd.2.1
  show CreateZeroedGrid pd.1 &&& dirByte pd.2 = 0
  rw [show CreateZeroedGrid pd.1 = 0 from rfl, Nat.zero_and]

lemma zeroCount_zeroGrid (Size : FIntPoint) :
    zeroCount Size CreateZeroedGrid = (roomsFinset Size).card := by
  rw [zeroCount]
  congr 1
  apply Finset.filter_true_of_mem
  intro p _
  rfl

lemma roomsFinset_card (Size : FIntPoint) (hx : 0 ≤ Size.1) (hy : 0 ≤ Size.2) :
    (roomsFinset Size).card = (Size.1 * Size.2).toNat := by
  rw [roomsFinset, Finset.card_product, Int.card_Icc, Int.card_Icc]
  obtain ⟨a, ha⟩ := Int.eq_ofNat_of_zero_le hx
  obtain ⟨b, hb⟩ := Int.eq_ofNat_of_zero_le hy
  rw [ha, hb, ← Int.natCast_mul, Int.toNat_natCast]
  have h1 : ((a : ℤ) - 1 + 1 - 0).toNat = a := by omega
  have h2 : ((b : ℤ) - 1 + 1 - 0).toNat = b := by omega
  rw [h1, h2]

lemma RoomAdj_symm_of_OK (Size : FIntPoint) (g : ByteGrid)
    (hOK : DirGridOK Size g) (p q : FIntPoint) (h : RoomAdj g p q) :
    RoomAdj g q p := by
  obtain ⟨d, hd, hq⟩ := h
  obtain ⟨-, -, hback⟩ := hOK p d hd
  refine ⟨GetOppositeDirection d, ?_, ?_⟩
  · rw [hq]
    exact hback
  · rw [hq, dirDelta_opp]
    rw [Prod.ext_iff]
    dsimp only
    constructor <;> ring

lemma RoomConn_symm_of_OK (Size : FIntPoint) (g : ByteGrid)
    (hOK : DirGridOK Size g) (p q : FIntPoint) (h : RoomConn g p q) :
    RoomConn g q p := by
  have hs : Symmetric (RoomAdj g) := fun a b hab => RoomAdj_symm_of_OK Size g hOK a b hab
  exact (Relation.ReflTransGen.symmetric hs) h

/-- All four in-bounds neighbors of a room are visited (nonzero byte). -/
def NbrsClosed (Size : FIntPoint) (g : ByteGrid) (p : FIntPoint) : Prop :=
  ∀ d, d ≠ EMazeDirection.NoDir →
    inRoom Size (p.1 + (dirDelta d).1, p.2 + (dirDelta d).2) →
    g (p.1 + (dirDelta d).1, p.2 + (dirDelta d).2) ≠ 0

lemma NbrsClosed_mono (Size : FIntPoint) (g g2 : ByteGrid) (p : FIntPoint)
    (hmono : ∀ q, g q ≠ 0 → g2 q ≠ 0) (h : NbrsClosed Size g p) :
    NbrsClosed Size g2 p :=
  fun d hd hin => hmono _ (h d hd hin)

/-- Invariant bundle threaded through the backtracker carving recursion,
relating the grid g2 after a call rooted at (X, Y) to the grid g before
it. -/
def CarvePost (Size : FIntPoint) (X Y : ℤ) (g g2 : ByteGrid) : Prop :=
  DirGridOK Size g2 ∧
  (∀ p, g p ≠ 0 → g2 p ≠ 0) ∧
  (∀ p d, hasDir g p d → hasDir g2 p d) ∧
  (passageCount Size g2 + zeroCount Size g2 +
      (if g2 (X, Y) = 0 then 0 else 1) =
    passageCount Size g + zeroCount Size g +
      (if g (X, Y) = 0 then 0 else 1)) ∧
  (∀ p, g2 p ≠ 0 → g p ≠ 0 ∨ RoomConn g2 p (X, Y))

lemma CarvePost_refl (Size : FIntPoint) (X Y : ℤ) (g : ByteGrid)
    (hOK : DirGridOK Size g) : CarvePost Size X Y g g :=
  ⟨hOK, fun _ h => h, fun _ _ h => h, rfl, fun _ h => Or.inl h⟩

lemma CarvePost_trans (Size : FIntPoint) (X Y : ℤ) (g g2 g3 : ByteGrid)
    (h12 : CarvePost Size X Y g g2) (h23 : CarvePost Size X Y g2 g3) :
    CarvePost Size X Y g g3 := by
  obtain ⟨hOK2, hb2, hd2, hc2, hconn2⟩ := h12
  obtain ⟨hOK3, hb3, hd3, hc3, hconn3⟩ := h23
  refine ⟨hOK3, fun p h => hb3 p (hb2 p h), fun p d h => hd3 p d (hd2 p d h),
    by omega, ?_⟩
  intro p h
  rcases hconn3 p h with h2 | h2
  · rcases hconn2 p h2 with h3 | h3
    · exact Or.inl h3
    · exact Or.inr (RoomConn_mono g2 g3 hd3 p (X, Y) h3)
  · exact Or.inr h2

lemma CarvePost_recenter (Size : FIntPoint) (X Y X2 Y2 : ℤ)
    (g g2 : ByteGrid) (h : CarvePost Size X2 Y2 g g2)
    (hXY : g (X, Y) ≠ 0) (hX2Y2 : g (X2, Y2) ≠ 0)
    (hstep : RoomConn g2 (X2, Y2) (X, Y)) : CarvePost Size X Y g g2 := by
  obtain ⟨hOK2, hb2, hd2, hc2, hconn2⟩ := h
  refine ⟨hOK2, hb2, hd2, ?_, ?_⟩
  · rw [if_neg hXY, if_neg (hb2 _ hXY), if_neg hX2Y2, if_neg (hb2 _ hX2Y2)] at *
    omega
  · intro p hp
    rcases hconn2 p hp with h2 | h2
    · exact Or.inl h2
    · exact Or.inr (Relation.ReflTransGen.trans h2 hstep)

lemma CarvePost_carve (Size : FIntPoint) (g : ByteGrid) (X Y : ℤ)
    (Dir : EMazeDirection) (hDir : Dir ≠ EMazeDirection.NoDir)
    (hOK : DirGridOK Size g) (hin1 : inRoom Size (X, Y))
    (hin2 : inRoom Size (X + (dirDelta Dir).1, Y + (dirDelta Dir).2))
    (hz : g (X + (dirDelta Dir).1, Y + (dirDelta Dir).2) = 0) :
    CarvePost Size X Y g (carveCells g X Y Dir) := by
  have h1 : ¬hasDir g (X, Y) Dir := by
    intro h
    obtain ⟨-, -, hback⟩ := hOK (X, Y) Dir h
    exact hasDir_ne_zero _ _ _ hback hz
  have h2 : ¬hasDir g (X + (dirDelta Dir).1, Y + (dirDelta Dir).2)
      (GetOppositeDirection Dir) := fun h => hasDir_ne_zero _ _ _ h hz
  have hm1 := (mem_roomsFinset Size (X, Y)).mpr hin1
  have hm2 := (mem_roomsFinset Size _).mpr hin2
  have hpc := passageCount_carve Size g X Y Dir hDir hm1 hm2 h1 h2
  have hzc := zeroCount_carve Size g X Y Dir hDir hm1 hm2 hz
  have hcz := carveCells_cur_ne_zero g X Y Dir hDir
  refine ⟨DirGridOK_carve Size g X Y Dir hDir hin1 hin2 hOK,
    fun p h => carveCells_byte_mono g X Y Dir p h,
    fun p d h => (hasDir_carveCells g X Y Dir hDir p d).mpr (Or.inl h),
    ?_, ?_⟩
  · rw [if_neg hcz.1]
    by_cases hc : g (X, Y) = 0
    · rw [if_pos hc]
      rw [if_pos hc] at hzc
      omega
    · rw [if_neg hc]
      rw [if_neg hc] at hzc
      omega
  · intro p hp
    by_cases hc1 : p = ((X, Y) : FIntPoint)
    · right
      rw [hc1]
      exact Relation.ReflTransGen.refl
    · by_cases hc2 : p = ((X + (dirDelta Dir).1, Y + (dirDelta Dir).2) :
        FIntPoint)
      · right
        rw [hc2]
        exact Relation.ReflTransGen.single (RoomAdj_carve_bwd g X Y Dir hDir)
      · left
        rw [← carveCells_other g X Y Dir p hc1 hc2]
        exact hp

lemma CarveLoop_nil (f : ℕ) (Size : FIntPoint) (X Y : ℤ) (g : ByteGrid)
    (rng : FRandomStream) : CarveLoop f Size X Y [] g rng = (g, rng) := by
  rw [CarveLoop]

lemma CarveLoop_cons (f : ℕ) (Size : FIntPoint) (X Y : ℤ)
    (Dir : EMazeDirection) (rest : List EMazeDirection) (g : ByteGrid)
    (rng : FRandomStream) :
    CarveLoop f Size X Y (Dir :: rest) g rng =
      if X + GetDirectionDeltaX Dir ≥ 0 ∧ X + GetDirectionDeltaX Dir < Size.1 ∧
          Y + GetDirectionDeltaY Dir ≥ 0 ∧ Y + GetDirectionDeltaY Dir < Size.2 ∧
          g (X + GetDirectionDeltaX Dir, Y + GetDirectionDeltaY Dir) = 0 then
        CarveLoop f Size X Y rest
          (CarvePassagesFrom f Size (X + GetDirectionDeltaX Dir)
            (Y + GetDirectionDeltaY Dir) (carveCells g X Y Dir) rng).1
          (CarvePassagesFrom f Size (X + GetDirectionDeltaX Dir)
            (Y + GetDirectionDeltaY Dir) (carveCells g X Y Dir) rng).2
      else
        CarveLoop f Size X Y rest g rng := by
  rw [CarveLoop]
  rfl

lemma CarvePassagesFrom_succ (f : ℕ) (Size : FIntPoint) (X Y : ℤ)
    (g : ByteGrid) (rng : FRandomStream) :
    CarvePassagesFrom (f + 1) Size X Y g rng =
      CarveLoop f Size X Y
        (ShuffleArray [EMazeDirection.East, EMazeDirection.West,
          EMazeDirection.North, EMazeDirection.South] rng).1 g
        (ShuffleArray [EMazeDirection.East, EMazeDirection.West,
          EMazeDirection.North, EMazeDirection.South] rng).2 := by
  rw [CarvePassagesFrom]

lemma CarveLoop_spec (Size : FIntPoint) (f : ℕ)
    (hP : ∀ (X Y : ℤ) (g : ByteGrid) (rng : FRandomStream),
      DirGridOK Size g → inRoom Size (X, Y) → zeroCount Size g + 1 ≤ f →
      CarvePost Size X Y g (CarvePassagesFrom f Size X Y g rng).1 ∧
      NbrsClosed Size (CarvePassagesFrom f Size X Y g rng).1 (X, Y) ∧
      (∀ p, p ≠ ((X, Y) : FIntPoint) → g p = 0 →
        (CarvePassagesFrom f Size X Y g rng).1 p ≠ 0 →
        NbrsClosed Size (CarvePassagesFrom f Size X Y g rng).1 p)) :
    ∀ (dirs : List EMazeDirection) (X Y : ℤ) (g : ByteGrid)
      (rng : FRandomStream), DirGridOK Size g → inRoom Size (X, Y) →
      zeroCount Size g ≤ f → EMazeDirection.NoDir ∉ dirs →
      CarvePost Size X Y g (CarveLoop f Size X Y dirs g rng).1 ∧
      (∀ Dir ∈ dirs,
        inRoom Size (X + (dirDelta Dir).1, Y + (dirDelta Dir).2) →
        (CarveLoop f Size X Y dirs g rng).1
          (X + (dirDelta Dir).1, Y + (dirDelta Dir).2) ≠ 0) ∧
      (∀ p, p ≠ ((X, Y) : FIntPoint) → g p = 0 →
        (CarveLoop f Size X Y dirs g rng).1 p ≠ 0 →
        NbrsClosed Size (CarveLoop f Size X Y dirs g rng).1 p) := by
  intro dirs
  induction dirs with
  | nil =>
    intro X Y g rng hOK hin hfuel hnd
    rw [CarveLoop_nil]
    refine ⟨CarvePost_refl Size X Y g hOK, ?_, ?_⟩
    · intro Dir hDir
      exact absurd hDir (List.not_mem_nil _)
    · intro p hp hz hnz
      exact absurd hz hnz
  | cons Dir rest ih =>
    intro X Y g rng hOK hin hfuel hnd
    have hDir : Dir ≠ EMazeDirection.NoDir := by
      intro h
      exact hnd (h ▸ List.mem_cons_self Dir rest)
    have hndrest : EMazeDirection.NoDir ∉ rest :=
      fun h => hnd (List.mem_cons_of_mem _ h)
    rw [CarveLoop_cons]
    by_cases hcond : X + GetDirectionDeltaX Dir ≥ 0 ∧
        X + GetDirectionDeltaX Dir < Size.1 ∧
        Y + GetDirectionDeltaY Dir ≥ 0 ∧
        Y + GetDirectionDeltaY Dir < Size.2 ∧
        g (X + GetDirectionDeltaX Dir, Y + GetDirectionDeltaY Dir) = 0
    · rw [if_pos hcond]
      obtain ⟨hb1, hb2, hb3, hb4, hz⟩ := hcond
      have hzd : g (X + (dirDelta Dir).1, Y + (dirDelta Dir).2) = 0 := hz
      have hinN : inRoom Size (X + (dirDelta Dir).1, Y + (dirDelta Dir).2) :=
        ⟨hb1, hb2, hb3, hb4⟩
      have hcarve := CarvePost_carve Size g X Y Dir hDir hOK hin hinN hzd
      have hzc := zeroCount_carve Size g X Y Dir hDir
        ((mem_roomsFinset Size _).mpr hin) ((mem_roomsFinset Size _).mpr hinN)
        hzd
      have hdrop : zeroCount Size (carveCells g X Y Dir) + 1 ≤
          zeroCount Size g := by
        by_cases hc : g (X, Y) = 0
        · rw [if_pos hc] at hzc
          omega
        · rw [if_neg hc] at hzc
          omega
      have hcneq := carveCells_cur_ne_zero g X Y Dir hDir
      have hrec := hP (X + GetDirectionDeltaX Dir) (Y + GetDirectionDeltaY Dir)
        (carveCells g X Y Dir) rng hcarve.1 hinN (by omega)
      obtain ⟨hpostr, hnbrr, hnewr⟩ := hrec
      have hfuel3 : zeroCount Size
          (CarvePassagesFrom f Size (X + GetDirectionDeltaX Dir)
            (Y + GetDirectionDeltaY Dir) (carveCells g X Y Dir) rng).1 ≤ f := by
        have hm := zeroCount_mono_of_byte Size (carveCells g X Y Dir)
          (CarvePassagesFrom f Size (X + GetDirectionDeltaX Dir)
            (Y + GetDirectionDeltaY Dir) (carveCells g X Y Dir) rng).1
          hpostr.2.1
        omega
      have hrest := ih X Y
        (CarvePassagesFrom f Size (X + GetDirectionDeltaX Dir)
          (Y + GetDirectionDeltaY Dir) (carveCells g X Y Dir) rng).1
        (CarvePassagesFrom f Size (X + GetDirectionDeltaX Dir)
          (Y + GetDirectionDeltaY Dir) (carveCells g X Y Dir) rng).2
        hpostr.1 hin hfuel3 hndrest
      obtain ⟨hpost3, hnbr3, hnew3⟩ := hrest
      have hstep : RoomConn
          (CarvePassagesFrom f Size (X + GetDirectionDeltaX Dir)
            (Y + GetDirectionDeltaY Dir) (carveCells g X Y Dir) rng).1
          (X + GetDirectionDeltaX Dir, Y + GetDirectionDeltaY Dir)
          ((X, Y) : FIntPoint) := by
        obtain ⟨d, hd, hco⟩ := RoomAdj_carve_bwd g X Y Dir hDir
        exact Relation.ReflTransGen.single ⟨d, hpostr.2.2.1 _ _ hd, hco⟩
      have hrecC := CarvePost_recenter Size X Y
        (X + GetDirectionDeltaX Dir) (Y + GetDirectionDeltaY Dir)
        (carveCells g X Y Dir)
        (CarvePassagesFrom f Size (X + GetDirectionDeltaX Dir)
          (Y + GetDirectionDeltaY Dir) (carveCells g X Y Dir) rng).1
        hpostr hcneq.1 hcneq.2 hstep
      refine ⟨CarvePost_trans Size X Y _ _ _ hcarve
        (CarvePost_trans Size X Y _ _ _ hrecC hpost3), ?_, ?_⟩
      · intro D hD hinD
        rcases List.mem_cons.mp hD with rfl | hmem
        · exact hpost3.2.1 _ (hpostr.2.1 _ hcneq.2)
        · exact hnbr3 D hmem hinD
      · intro p hpne hgz hnz
        by_cases hr1z : (CarvePassagesFrom f Size (X + GetDirectionDeltaX Dir)
            (Y + GetDirectionDeltaY Dir) (carveCells g X Y Dir) rng).1 p = 0
        · exact hnew3 p hpne hr1z hnz
        · by_cases hcz : carveCells g X Y Dir p = 0
          · have hpnn : p ≠ ((X + GetDirectionDeltaX Dir,
                Y + GetDirectionDeltaY Dir) : FIntPoint) := by
              intro hh
              rw [hh] at hcz
              exact hcneq.2 hcz
            exact NbrsClosed_mono Size _ _ p hpost3.2.1
              (hnewr p hpnn hcz hr1z)
          · have hpn : p = ((X + GetDirectionDeltaX Dir,
                Y + GetDirectionDeltaY Dir) : FIntPoint) := by
              by_contra hc
              apply hcz
              rw [carveCells_other g X Y Dir p hpne hc]
              exact hgz
            rw [hpn]
            exact NbrsClosed_mono Size _ _ _ hpost3.2.1 hnbrr
    · rw [if_neg hcond]
      have hrest := ih X Y g rng hOK hin hfuel hndrest
      obtain ⟨hpost3, hnbr3, hnew3⟩ := hrest
      refine ⟨hpost3, ?_, hnew3⟩
      intro D hD hinD
      rcases List.mem_cons.mp hD with rfl | hmem
      · have hgz : g (X + (dirDelta D).1, Y + (dirDelta D).2) ≠ 0 := by
          intro hz0
          exact hcond ⟨hinD.1, hinD.2.1, hinD.2.2.1, hinD.2.2.2, hz0⟩
        exact hpost3.2.1 _ hgz
      · exact hnbr3 D hmem hinD

lemma CarvePassagesFrom_spec (Size : FIntPoint) :
    ∀ (f : ℕ) (X Y : ℤ) (g : ByteGrid) (rng : FRandomStream),
      DirGridOK Size g → inRoom Size (X, Y) → zeroCount Size g + 1 ≤ f →
      CarvePost Size X Y g (CarvePassagesFrom f Size X Y g rng).1 ∧
      NbrsClosed Size (CarvePassagesFrom f Size X Y g rng).1 (X, Y) ∧
      (∀ p, p ≠ ((X, Y) : FIntPoint) → g p = 0 →
        (CarvePassagesFrom f Size X Y g rng).1 p ≠ 0 →
        NbrsClosed Size (CarvePassagesFrom f Size X Y g rng).1 p) := by
  intro f
  induction f with
  | zero =>
    intro X Y g rng hOK hin hfuel
    exact absurd hfuel (by omega)
  | succ f ih =>
    intro X Y g rng hOK hin hfuel
    rw [CarvePassagesFrom_succ]
    have hnd : EMazeDirection.NoDir ∉
        (ShuffleArray [EMazeDirection.East, EMazeDirection.West,
          EMazeDirection.North, EMazeDirection.South] rng).1 := by
      rw [ShuffleArray_mem]
      decide
    have hloop := CarveLoop_spec Size f ih
      (ShuffleArray [EMazeDirection.East, EMazeDirection.West,
        EMazeDirection.North, EMazeDirection.South] rng).1 X Y g
      (ShuffleArray [EMazeDirection.East, EMazeDirection.West,
        EMazeDirection.North, EMazeDirection.South] rng).2
      hOK hin (by omega) hnd
    obtain ⟨hpost, hnbr, hnew⟩ := hloop
    refine ⟨hpost, ?_, hnew⟩
    intro d hd hinD
    refine hnbr d ?_ hinD
    rw [ShuffleArray_mem]
    cases d
    · exact absurd rfl hd
    · decide
    · decide
    · decide
    · decide

lemma Backtracker_grid_spec (Size : FIntPoint) (rng : FRandomStream)
    (hx : 1 ≤ Size.1) (hy : 1 ≤ Size.2) :
    DirGridOK Size (GenerateBacktracker Size rng).1 ∧
    passageCount Size (GenerateBacktracker Size rng).1 =
      (Size.1 * Size.2).toNat - 1 ∧
    ∀ p q, inRoom Size p → inRoom Size q →
      RoomConn (GenerateBacktracker Size rng).1 p q := by
  have hG : (GenerateBacktracker Size rng).1 =
      (CarvePassagesFrom ((Size.1 * Size.2 + 1).toNat) Size 0 0
        CreateZeroedGrid rng).1 := rfl
  rw [hG]
  have hwh : 1 ≤ Size.1 * Size.2 := by
    have := mul_pos (show (0 : ℤ) < Size.1 by omega)
      (show (0 : ℤ) < Size.2 by omega)
    omega
  have hin0 : inRoom Size ((0 : ℤ), (0 : ℤ)) := by
    unfold inRoom
    dsimp only
    omega
  have hz0 : zeroCount Size CreateZeroedGrid = (Size.1 * Size.2).toNat := by
    rw [zeroCount_zeroGrid, roomsFinset_card Size (by omega) (by omega)]
  have hspec := CarvePassagesFrom_spec Size ((Size.1 * Size.2 + 1).toNat) 0 0
    CreateZeroedGrid rng (DirGridOK_zero Size) hin0 (by omega)
  obtain ⟨⟨hOK, hbyte, hbit, hcount, hconn⟩, hnbr, hnew⟩ := hspec
  rw [passageCount_zeroGrid, hz0] at hcount
  rw [if_pos (show CreateZeroedGrid ((0 : ℤ), (0 : ℤ)) = 0 from rfl)] at hcount
  have hcl : ∀ p, inRoom Size p → (CarvePassagesFrom
      ((Size.1 * Size.2 + 1).toNat) Size 0 0 CreateZeroedGrid rng).1 p ≠ 0 →
      NbrsClosed Size (CarvePassagesFrom ((Size.1 * Size.2 + 1).toNat) Size 0 0
        CreateZeroedGrid rng).1 p := by
    intro p hp hnz
    by_cases h0 : p = (((0 : ℤ), (0 : ℤ)) : FIntPoint)
    · rw [h0]
      exact hnbr
    · exact hnew p h0 rfl hnz
  by_cases hone : Size.1 = 1 ∧ Size.2 = 1
  · obtain ⟨h1, h2⟩ := hone
    have hrc : (Size.1 * Size.2).toNat = 1 := by
      rw [h1, h2]
      rfl
    have hpc0 : passageCount Size (CarvePassagesFrom
        ((Size.1 * Size.2 + 1).toNat) Size 0 0 CreateZeroedGrid rng).1 = 0 := by
      by_cases hzz : (CarvePassagesFrom ((Size.1 * Size.2 + 1).toNat) Size 0 0
          CreateZeroedGrid rng).1 ((0 : ℤ), (0 : ℤ)) = 0
      · rw [if_pos hzz] at hcount
        have hpos := zeroCount_pos Size _ ((0 : ℤ), (0 : ℤ)) hin0 hzz
        omega
      · rw [if_neg hzz] at hcount
        omega
    refine ⟨hOK, ?_, ?_⟩
    · rw [hpc0]
      omega
    · intro p q hp hq
      have hpq : p = q := by
        unfold inRoom at hp hq
        rw [h1] at hp hq
        rw [h2] at hp hq
        rw [Prod.ext_iff]
        omega
      rw [hpq]
      exact Relation.ReflTransGen.refl
  · have h00 : (CarvePassagesFrom ((Size.1 * Size.2 + 1).toNat) Size 0 0
        CreateZeroedGrid rng).1 ((0 : ℤ), (0 : ℤ)) ≠ 0 := by
      intro h00z
      have hR1 : ∃ c : FIntPoint, (CarvePassagesFrom
          ((Size.1 * Size.2 + 1).toNat) Size 0 0 CreateZeroedGrid rng).1 c ≠ 0 ∧
          c ≠ (((0 : ℤ), (0 : ℤ)) : FIntPoint) := by
        rcases (show 2 ≤ Size.1 ∨ 2 ≤ Size.2 by
            rcases not_and_or.mp hone with h | h <;> omega) with hw | hh
        · refine ⟨((1 : ℤ), (0 : ℤ)), ?_, by decide⟩
          have hstep2 := hnbr EMazeDirection.East (by decide)
          have hco : ((((0 : ℤ), (0 : ℤ)) : FIntPoint).1 +
              (dirDelta EMazeDirection.East).1,
              (((0 : ℤ), (0 : ℤ)) : FIntPoint).2 +
              (dirDelta EMazeDirection.East).2) =
              (((1 : ℤ), (0 : ℤ)) : FIntPoint) := by decide
          rw [hco] at hstep2
          exact hstep2 (by unfold inRoom; dsimp only; omega)
        · refine ⟨((0 : ℤ), (1 : ℤ)), ?_, by decide⟩
          have hstep2 := hnbr EMazeDirection.South (by decide)
          have hco : ((((0 : ℤ), (0 : ℤ)) : FIntPoint).1 +
              (dirDelta EMazeDirection.South).1,
              (((0 : ℤ), (0 : ℤ)) : FIntPoint).2 +
              (dirDelta EMazeDirection.South).2) =
              (((0 : ℤ), (1 : ℤ)) : FIntPoint) := by decide
          rw [hco] at hstep2
          exact hstep2 (by unfold inRoom; dsimp only; omega)
      obtain ⟨c, hc, hcne⟩ := hR1
      rcases hconn c hc with hl | hr
      · exact hl rfl
      · rcases Relation.ReflTransGen.cases_tail hr with heq | ⟨b, -, hadj⟩
        · exact hcne heq.symm
        · obtain ⟨d, hd, hco⟩ := hadj
          obtain ⟨-, -, hback⟩ := hOK b d hd
          rw [← hco] at hback
          exact hasDir_ne_zero _ _ _ hback h00z
    have hall : ∀ (n : ℕ) (p : FIntPoint), inRoom Size p →
        p.1.toNat + p.2.toNat ≤ n →
        (CarvePassagesFrom ((Size.1 * Size.2 + 1).toNat) Size 0 0
          CreateZeroedGrid rng).1 p ≠ 0 := by
      intro n
      induction n with
      | zero =>
        intro p hp hs
        have hp0 : p = (((0 : ℤ), (0 : ℤ)) : FIntPoint) := by
          unfold inRoom at hp
          rw [Prod.ext_iff]
          dsimp only
          omega
        rw [hp0]
        exact h00
      | succ n ihn =>
        intro p hp hs
        by_cases hsn : p.1.toNat + p.2.toNat ≤ n
        · exact ihn p hp hsn
        · unfold inRoom at hp
          rcases (show 1 ≤ p.1 ∨ 1 ≤ p.2 by omega) with h1 | h1
          · have hqin : inRoom Size (p.1 - 1, p.2) := by
              unfold inRoom
              dsimp only
              omega
            have hq := ihn (p.1 - 1, p.2) hqin
              (by show (p.1 - 1).toNat + p.2.toNat ≤ n; omega)
            have hcq := hcl (p.1 - 1, p.2) hqin hq
            have hstep2 := hcq EMazeDirection.East (by decide)
            have hco : ((((p.1 - 1, p.2)) : FIntPoint).1 +
                (dirDelta EMazeDirection.East).1,
                (((p.1 - 1, p.2)) : FIntPoint).2 +
                (dirDelta EMazeDirection.East).2) = p := by
              rw [Prod.ext_iff]
              simp only [dirDelta, GetDirectionDeltaX, GetDirectionDeltaY]
              constructor <;> omega
            rw [hco] at hstep2
            exact hstep2 (by unfold inRoom; omega)
          · have hqin : inRoom Size (p.1, p.2 - 1) := by
              unfold inRoom
              dsimp only
              omega
            have hq := ihn (p.1, p.2 - 1) hqin
              (by show p.1.toNat + (p.2 - 1).toNat ≤ n; omega)
            have hcq := hcl (p.1, p.2 - 1) hqin hq
            have hstep2 := hcq EMazeDirection.South (by decide)
            have hco : ((((p.1, p.2 - 1)) : FIntPoint).1 +
                (dirDelta EMazeDirection.South).1,
                (((p.1, p.2 - 1)) : FIntPoint).2 +
                (dirDelta EMazeDirection.South).2) = p := by
              rw [Prod.ext_iff]
              simp only [dirDelta, GetDirectionDeltaX, GetDirectionDeltaY]
              constructor <;> omega
            rw [hco] at hstep2
            exact hstep2 (by unfold inRoom; omega)
    have hzcR : zeroCount Size (CarvePassagesFrom
        ((Size.1 * Size.2 + 1).toNat) Size 0 0 CreateZeroedGrid rng).1 = 0 := by
      rw [zeroCount, Finset.card_eq_zero, Finset.eq_empty_iff_forall_not_mem]
      intro p hp
      rw [Finset.mem_filter, mem_roomsFinset] at hp
      exact hall (p.1.toNat + p.2.toNat) p hp.1 (le_refl _) hp.2
    rw [if_neg h00, hzcR] at hcount
    refine ⟨hOK, by omega, ?_⟩
    intro p q hp hq
    have hcp : RoomConn (CarvePassagesFrom ((Size.1 * Size.2 + 1).toNat) Size
        0 0 CreateZeroedGrid rng).1 p ((0 : ℤ), (0 : ℤ)) := by
      rcases hconn p (hall (p.1.toNat + p.2.toNat) p hp (le_refl _)) with hl | hr
      · exact absurd rfl hl
      · exact hr
    have hcq : RoomConn (CarvePassagesFrom ((Size.1 * Size.2 + 1).toNat) Size
        0 0 CreateZeroedGrid rng).1 q ((0 : ℤ), (0 : ℤ)) := by
      rcases hconn q (hall (q.1.toNat + q.2.toNat) q hq (le_refl _)) with hl | hr
      · exact absurd rfl hl
      · exact hr
    exact Relation.ReflTransGen.trans hcp
      (RoomConn_symm_of_OK Size _ hOK q _ hcq)

lemma grid_path_induction (Size : FIntPoint) (P : FIntPoint → Prop)
    (c : FIntPoint) (hc : inRoom Size c) (hbase : P c)
    (hstep : ∀ p, inRoom Size p → P p → ∀ d, d ≠ EMazeDirection.NoDir →
      inRoom Size (p.1 + (dirDelta d).1, p.2 + (dirDelta d).2) →
      P (p.1 + (dirDelta d).1, p.2 + (dirDelta d).2)) :
    ∀ p, inRoom Size p → P p := by
  have key : ∀ (n : ℕ) (p : FIntPoint), inRoom Size p →
      (p.1 - c.1).natAbs + (p.2 - c.2).natAbs ≤ n → P p := by
    intro n
    induction n with
    | zero =>
      intro p hp hd
      have hpc : p = c := by
        rw [Prod.ext_iff]
        omega
      rw [hpc]
      exact hbase
    | succ n ih =>
      intro p hp hd
      by_cases h0 : (p.1 - c.1).natAbs + (p.2 - c.2).natAbs ≤ n
      · exact ih p hp h0
      · unfold inRoom at hp hc
        rcases (show p.1 < c.1 ∨ c.1 < p.1 ∨ (p.1 = c.1 ∧ p.2 < c.2) ∨
            (p.1 = c.1 ∧ c.2 < p.2) by omega) with h1 | h1 | ⟨h1, h2⟩ | ⟨h1, h2⟩
        · have hq : inRoom Size (p.1 + 1, p.2) := by
            unfold inRoom
            dsimp only
            omega
          have hPq := ih (p.1 + 1, p.2) hq
            (by show ((p.1 + 1) - c.1).natAbs + (p.2 - c.2).natAbs ≤ n; omega)
          have hres := hstep (p.1 + 1, p.2) hq hPq EMazeDirection.West
            (by decide)
          have hco : ((((p.1 + 1, p.2)) : FIntPoint).1 +
              (dirDelta EMazeDirection.West).1,
              (((p.1 + 1, p.2)) : FIntPoint).2 +
              (dirDelta EMazeDirection.West).2) = p := by
            rw [Prod.ext_iff]
            simp only [dirDelta, GetDirectionDeltaX, GetDirectionDeltaY]
            constructor <;> omega
          rw [hco] at hres
          exact hres (by unfold inRoom; omega)
        · have hq : inRoom Size (p.1 - 1, p.2) := by
            unfold inRoom
            dsimp only
            omega
          have hPq := ih (p.1 - 1, p.2) hq
            (by show ((p.1 - 1) - c.1).natAbs + (p.2 - c.2).natAbs ≤ n; omega)
          have hres := hstep (p.1 - 1, p.2) hq hPq EMazeDirection.East
            (by decide)
          have hco : ((((p.1 - 1, p.2)) : FIntPoint).1 +
              (dirDelta EMazeDirection.East).1,
              (((p.1 - 1, p.2)) : FIntPoint).2 +
              (dirDelta EMazeDirection.East).2) = p := by
            rw [Prod.ext_iff]
            simp only [dirDelta, GetDirectionDeltaX, GetDirectionDeltaY]
            constructor <;> omega
          rw [hco] at hres
          exact hres (by unfold inRoom; omega)
        · have hq : inRoom Size (p.1, p.2 + 1) := by
            unfold inRoom
            dsimp only
            omega
          have hPq := ih (p.1, p.2 + 1) hq
            (by show (p.1 - c.1).natAbs + ((p.2 + 1) - c.2).natAbs ≤ n; omega)
          have hres := hstep (p.1, p.2 + 1) hq hPq EMazeDirection.North
            (by decide)
          have hco : ((((p.1, p.2 + 1)) : FIntPoint).1 +
              (dirDelta EMazeDirection.North).1,
              (((p.1, p.2 + 1)) : FIntPoint).2 +
              (dirDelta EMazeDirection.North).2) = p := by
            rw [Prod.ext_iff]
            simp only [dirDelta, GetDirectionDeltaX, GetDirectionDeltaY]
            constructor <;> omega
          rw [hco] at hres
          exact hres (by unfold inRoom; omega)
        · have hq : inRoom Size (p.1, p.2 - 1) := by
            unfold inRoom
            dsimp only
            omega
          have hPq := ih (p.1, p.2 - 1) hq
            (by show (p.1 - c.1).natAbs + ((p.2 - 1) - c.2).natAbs ≤ n; omega)
          have hres := hstep (p.1, p.2 - 1) hq hPq EMazeDirection.South
            (by decide)
          have hco : ((((p.1, p.2 - 1)) : FIntPoint).1 +
              (dirDelta EMazeDirection.South).1,
              (((p.1, p.2 - 1)) : FIntPoint).2 +
              (dirDelta EMazeDirection.South).2) = p := by
            rw [Prod.ext_iff]
            simp only [dirDelta, GetDirectionDeltaX, GetDirectionDeltaY]
            constructor <;> omega
          rw [hco] at hres
          exact hres (by unfold inRoom; omega)
  intro p hp
  exact key ((p.1 - c.1).natAbs + (p.2 - c.2).natAbs) p hp (le_refl _)

lemma PrimAddToFrontier_eq (Size : FIntPoint) (X Y : ℤ) (g : ByteGrid)
    (fr : List FIntPoint) :
    PrimAddToFrontier Size X Y g fr =
      if inRoom Size (X, Y) ∧ g (X, Y) = 0 then
        (setCell g X Y 64, fr ++ [(X, Y)])
      else (g, fr) := by
  unfold PrimAddToFrontier
  by_cases h : X ≥ 0 ∧ X < Size.1 ∧ Y ≥ 0 ∧ Y < Size.2 ∧ g (X, Y) = 0
  · rw [if_pos h, if_pos ⟨⟨h.1, h.2.1, h.2.2.1, h.2.2.2.1⟩, h.2.2.2.2⟩]
    rw [h.2.2.2.2]
    rfl
  · rw [if_neg h, if_neg (fun hc : inRoom Size (X, Y) ∧ g (X, Y) = 0 =>
      h ⟨hc.1.1, hc.1.2.1, hc.1.2.2.1, hc.1.2.2.2, hc.2⟩)]

lemma PrimAdd_grid_other (Size : FIntPoint) (X Y : ℤ) (g : ByteGrid)
    (fr : List FIntPoint) (q : FIntPoint) (hq : q ≠ (X, Y)) :
    (PrimAddToFrontier Size X Y g fr).1 q = g q := by
  rw [PrimAddToFrontier_eq]
  split_ifs with h
  · exact setCell_other _ _ _ _ _ hq
  · rfl

lemma PrimAdd_grid_target_pos (Size : FIntPoint) (X Y : ℤ) (g : ByteGrid)
    (fr : List FIntPoint) (h : inRoom Size (X, Y) ∧ g (X, Y) = 0) :
    (PrimAddToFrontier Size X Y g fr).1 (X, Y) = 64 := by
  rw [PrimAddToFrontier_eq, if_pos h]
  exact setCell_same _ _ _ _

lemma PrimAdd_grid_target_neg (Size : FIntPoint) (X Y : ℤ) (g : ByteGrid)
    (fr : List FIntPoint) (h : ¬(inRoom Size (X, Y) ∧ g (X, Y) = 0)) :
    (PrimAddToFrontier Size X Y g fr).1 (X, Y) = g (X, Y) := by
  rw [PrimAddToFrontier_eq, if_neg h]

lemma PrimAdd_mem (Size : FIntPoint) (X Y : ℤ) (g : ByteGrid)
    (fr : List FIntPoint) (p : FIntPoint) :
    p ∈ (PrimAddToFrontier Size X Y g fr).2 ↔
      p ∈ fr ∨ (p = (X, Y) ∧ inRoom Size (X, Y) ∧ g (X, Y) = 0) := by
  rw [PrimAddToFrontier_eq]
  split_ifs with h
  · show p ∈ fr ++ [(X, Y)] ↔ _
    rw [List.mem_append, List.mem_singleton]
    constructor
    · rintro (hm | rfl)
      · exact Or.inl hm
      · exact Or.inr ⟨rfl, h⟩
    · rintro (hm | ⟨rfl, -⟩)
      · exact Or.inl hm
      · exact Or.inr rfl
  · constructor
    · exact Or.inl
    · rintro (hm | ⟨rfl, hc⟩)
      · exact hm
      · exact absurd hc h

lemma PrimAdd_nodup (Size : FIntPoint) (X Y : ℤ) (g : ByteGrid)
    (fr : List FIntPoint) (h : fr.Nodup)
    (hby : ∀ p ∈ fr, g p ≠ 0) : (PrimAddToFrontier Size X Y g fr).2.Nodup := by
  rw [PrimAddToFrontier_eq]
  split_ifs with hc
  · show (fr ++ [(X, Y)]).Nodup
    rw [List.nodup_append]
    refine ⟨h, List.nodup_singleton _, ?_⟩
    intro p hp
    rw [List.mem_singleton]
    intro hxy
    rw [hxy] at hp
    exact hby _ hp hc.2
  · exact h

lemma PrimAdd_fr_nonzero (Size : FIntPoint) (X Y : ℤ) (g : ByteGrid)
    (fr : List FIntPoint) (h : ∀ p ∈ fr, g p ≠ 0) :
    ∀ p ∈ (PrimAddToFrontier Size X Y g fr).2,
      (PrimAddToFrontier Size X Y g fr).1 p ≠ 0 := by
  intro p hp
  rw [PrimAdd_mem] at hp
  rcases hp with hp | ⟨rfl, hin, hz⟩
  · by_cases hc : inRoom Size (X, Y) ∧ g (X, Y) = 0
    · rw [PrimAddToFrontier_eq, if_pos hc]
      show setCell g X Y 64 p ≠ 0
      by_cases hq : p = ((X, Y) : FIntPoint)
      · rw [hq, setCell_same]
        decide
      · rw [setCell_other _ _ _ _ _ hq]
        exact h p hp
    · rw [PrimAddToFrontier_eq, if_neg hc]
      exact h p hp
  · rw [PrimAdd_grid_target_pos Size X Y g fr ⟨hin, hz⟩]
    decide

lemma dirDelta_injective (d d2 : EMazeDirection)
    (h1 : d ≠ EMazeDirection.NoDir) (h2 : d2 ≠ EMazeDirection.NoDir)
    (hne : d ≠ d2) : dirDelta d ≠ dirDelta d2 := by
  cases d <;> cases d2 <;>
    first
      | exact absurd rfl h1
      | exact absurd rfl h2
      | exact absurd rfl hne
      | decide

/-- State of the frontier-expansion loop after processing the neighbor
offers in `done`, relative to the grid g and frontier fr at entry of
PrimExpandFrontierFrom rooted at (X, Y). -/
def PrimMid (Size : FIntPoint) (X Y : ℤ) (g : ByteGrid)
    (fr : List FIntPoint) (done : List EMazeDirection)
    (s : ByteGrid × List FIntPoint) : Prop :=
  (s.1 (X, Y) = g (X, Y) ||| 128) ∧
  (∀ q, q ≠ (X, Y) →
    (∀ d ∈ done, q ≠ ((X + (dirDelta d).1, Y + (dirDelta d).2) : FIntPoint)) →
    s.1 q = g q) ∧
  (∀ d ∈ done,
    (inRoom Size (X + (dirDelta d).1, Y + (dirDelta d).2) →
      g (X + (dirDelta d).1, Y + (dirDelta d).2) = 0 →
      s.1 (X + (dirDelta d).1, Y + (dirDelta d).2) = 64 ∧
        ((X + (dirDelta d).1, Y + (dirDelta d).2) : FIntPoint) ∈ s.2) ∧
    (¬(inRoom Size (X + (dirDelta d).1, Y + (dirDelta d).2) ∧
        g (X + (dirDelta d).1, Y + (dirDelta d).2) = 0) →
      s.1 (X + (dirDelta d).1, Y + (dirDelta d).2) =
        g (X + (dirDelta d).1, Y + (dirDelta d).2))) ∧
  (∀ p, p ∈ s.2 ↔ p ∈ fr ∨ ∃ d ∈ done,
    p = ((X + (dirDelta d).1, Y + (dirDelta d).2) : FIntPoint) ∧
    inRoom Size p ∧ g p = 0) ∧
  ((∀ p ∈ fr, g p ≠ 0) → fr.Nodup →
    s.2.Nodup ∧ (∀ p ∈ s.2, s.1 p ≠ 0))

lemma PrimMid_base (Size : FIntPoint) (X Y : ℤ) (g : ByteGrid)
    (fr : List FIntPoint) :
    PrimMid Size X Y g fr [] (setCell g X Y (g (X, Y) ||| 128), fr) := by
  refine ⟨setCell_same _ _ _ _, ?_, ?_, ?_, ?_⟩
  · intro q hq _
    exact setCell_other _ _ _ _ _ hq
  · intro d hd
    exact absurd hd (List.not_mem_nil _)
  · intro p
    constructor
    · intro hp
      exact Or.inl hp
    · rintro (hp | ⟨d, hd, -⟩)
      · exact hp
      · exact absurd hd (List.not_mem_nil _)
  · intro hbytes hnd
    refine ⟨hnd, ?_⟩
    intro p hp
    show setCell g X Y (g (X, Y) ||| 128) p ≠ 0
    by_cases hq : p = ((X, Y) : FIntPoint)
    · rw [hq, setCell_same]
      intro hz
      exact absurd (lor_eq_zero hz).2 (by decide)
    · rw [setCell_other _ _ _ _ _ hq]
      exact hbytes p hp

lemma PrimMid_step (Size : FIntPoint) (X Y : ℤ) (g : ByteGrid)
    (fr : List FIntPoint) (done : List EMazeDirection)
    (s : ByteGrid × List FIntPoint) (d0 : EMazeDirection)
    (hd0 : d0 ≠ EMazeDirection.NoDir) (hnotin : d0 ∉ done)
    (hdone : ∀ d ∈ done, d ≠ EMazeDirection.NoDir)
    (hmid : PrimMid Size X Y g fr done s) :
    PrimMid Size X Y g fr (done ++ [d0])
      (PrimAddToFrontier Size (X + (dirDelta d0).1) (Y + (dirDelta d0).2)
        s.1 s.2) := by
  obtain ⟨hA, hB, hC, hD, hE⟩ := hmid
  have hne0 : ((X + (dirDelta d0).1, Y + (dirDelta d0).2) : FIntPoint) ≠
      (X, Y) := carve_next_ne_cur X Y d0 hd0
  have hnei : ∀ d ∈ done,
      ((X + (dirDelta d0).1, Y + (dirDelta d0).2) : FIntPoint) ≠
        ((X + (dirDelta d).1, Y + (dirDelta d).2) : FIntPoint) := by
    intro d hd hco
    rw [Prod.mk.injEq] at hco
    apply dirDelta_injective d0 d hd0 (hdone d hd)
      (fun hh => hnotin (hh ▸ hd))
    rw [Prod.ext_iff]
    omega
  have hval0 : s.1 (X + (dirDelta d0).1, Y + (dirDelta d0).2) =
      g (X + (dirDelta d0).1, Y + (dirDelta d0).2) :=
    hB _ hne0 (fun d hd => hnei d hd)
  refine ⟨?_, ?_, ?_, ?_, ?_⟩
  · rw [PrimAdd_grid_other _ _ _ _ _ _ (fun h => hne0 h.symm)]
    exact hA
  · intro q hq hqd
    have hq0 : q ≠ ((X + (dirDelta d0).1, Y + (dirDelta d0).2) : FIntPoint) :=
      hqd d0 (List.mem_append_right _ (List.mem_singleton.mpr rfl))
    rw [PrimAdd_grid_other _ _ _ _ _ _ hq0]
    exact hB q hq (fun d hd => hqd d (List.mem_append_left _ hd))
  · intro d hd
    rcases List.mem_append.mp hd with hdl | hdr
    · have hne : ((X + (dirDelta d).1, Y + (dirDelta d).2) : FIntPoint) ≠
          ((X + (dirDelta d0).1, Y + (dirDelta d0).2) : FIntPoint) :=
        fun h => hnei d hdl h.symm
      constructor
      · intro hin hz
        obtain ⟨hv, hm⟩ := (hC d hdl).1 hin hz
        rw [PrimAdd_grid_other _ _ _ _ _ _ hne]
        exact ⟨hv, (PrimAdd_mem _ _ _ _ _ _).mpr (Or.inl hm)⟩
      · intro hno
        rw [PrimAdd_grid_other _ _ _ _ _ _ hne]
        exact (hC d hdl).2 hno
    · rw [List.mem_singleton] at hdr
      subst hdr
      constructor
      · intro hin hz
        have hcond : inRoom Size (X + (dirDelta d).1, Y + (dirDelta d).2) ∧
            s.1 (X + (dirDelta d).1, Y + (dirDelta d).2) = 0 := by
          rw [hval0]
          exact ⟨hin, hz⟩
        refine ⟨PrimAdd_grid_target_pos _ _ _ _ _ hcond, ?_⟩
        exact (PrimAdd_mem _ _ _ _ _ _).mpr (Or.inr ⟨rfl, hcond⟩)
      · intro hno
        have hcond : ¬(inRoom Size (X + (dirDelta d).1, Y + (dirDelta d).2) ∧
            s.1 (X + (dirDelta d).1, Y + (dirDelta d).2) = 0) := by
          rw [hval0]
          exact hno
        rw [PrimAdd_grid_target_neg _ _ _ _ _ hcond]
        exact hval0
  · intro p
    rw [PrimAdd_mem, hD p]
    constructor
    · rintro ((hp | ⟨d, hd, hp⟩) | ⟨rfl, hin, hz⟩)
      · exact Or.inl hp
      · exact Or.inr ⟨d, List.mem_append_left _ hd, hp⟩
      · rw [hval0] at hz
        exact Or.inr ⟨d0,
          List.mem_append_right _ (List.mem_singleton.mpr rfl), rfl, hin, hz⟩
    · rintro (hp | ⟨d, hd, hp, hin, hz⟩)
      · exact Or.inl (Or.inl hp)
      · rcases List.mem_append.mp hd with hdl | hdr
        · exact Or.inl (Or.inr ⟨d, hdl, hp, hin, hz⟩)
        · rw [List.mem_singleton] at hdr
          subst hdr
          subst hp
          refine Or.inr ⟨rfl, hin, ?_⟩
          rw [hval0]
          exact hz
  · intro hbytes hnd
    obtain ⟨hnd2, hnz2⟩ := hE hbytes hnd
    refine ⟨PrimAdd_nodup _ _ _ _ _ hnd2 hnz2, ?_⟩
    exact PrimAdd_fr_nonzero _ _ _ _ _ hnz2

lemma PrimMid_step2 (Size : FIntPoint) (X Y : ℤ) (g : ByteGrid)
    (fr : List FIntPoint) (done : List EMazeDirection)
    (s : ByteGrid × List FIntPoint) (d0 : EMazeDirection) (NX NY : ℤ)
    (hco : ((NX, NY) : FIntPoint) =
      (X + (dirDelta d0).1, Y + (dirDelta d0).2))
    (hd0 : d0 ≠ EMazeDirection.NoDir) (hnotin : d0 ∉ done)
    (hdone : ∀ d ∈ done, d ≠ EMazeDirection.NoDir)
    (hmid : PrimMid Size X Y g fr done s) :
    PrimMid Size X Y g fr (done ++ [d0])
      (PrimAddToFrontier Size NX NY s.1 s.2) := by
  have hX : NX = X + (dirDelta d0).1 := congrArg Prod.fst hco
  have hY : NY = Y + (dirDelta d0).2 := congrArg Prod.snd hco
  rw [hX, hY]
  exact PrimMid_step Size X Y g fr done s d0 hd0 hnotin hdone hmid

lemma PrimExpand_final (Size : FIntPoint) (X Y : ℤ) (g : ByteGrid)
    (fr : List FIntPoint) :
    PrimMid Size X Y g fr
      [EMazeDirection.West, EMazeDirection.East, EMazeDirection.North,
        EMazeDirection.South]
      (PrimExpandFrontierFrom Size X Y g fr) := by
  have hW : ((X - 1, Y) : FIntPoint) =
      (X + (dirDelta EMazeDirection.West).1,
        Y + (dirDelta EMazeDirection.West).2) := by
    rw [Prod.mk.injEq]
    simp only [dirDelta, GetDirectionDeltaX, GetDirectionDeltaY]
    constructor <;> ring
  have hEa : ((X + 1, Y) : FIntPoint) =
      (X + (dirDelta EMazeDirection.East).1,
        Y + (dirDelta EMazeDirection.East).2) := by
    rw [Prod.mk.injEq]
    simp only [dirDelta, GetDirectionDeltaX, GetDirectionDeltaY]
    constructor <;> ring
  have hN : ((X, Y - 1) : FIntPoint) =
      (X + (dirDelta EMazeDirection.North).1,
        Y + (dirDelta EMazeDirection.North).2) := by
    rw [Prod.mk.injEq]
    simp only [dirDelta, GetDirectionDeltaX, GetDirectionDeltaY]
    constructor <;> ring
  have hS : ((X, Y + 1) : FIntPoint) =
      (X + (dirDelta EMazeDirection.South).1,
        Y + (dirDelta EMazeDirection.South).2) := by
    rw [Prod.mk.injEq]
    simp only [dirDelta, GetDirectionDeltaX, GetDirectionDeltaY]
    constructor <;> ring
  exact PrimMid_step2 Size X Y g fr
    [EMazeDirection.West, EMazeDirection.East, EMazeDirection.North] _
    EMazeDirection.South X (Y + 1) hS (by decide) (by decide) (by decide)
    (PrimMid_step2 Size X Y g fr [EMazeDirection.West, EMazeDirection.East] _
      EMazeDirection.North X (Y - 1) hN (by decide) (by decide) (by decide)
      (PrimMid_step2 Size X Y g fr [EMazeDirection.West] _
        EMazeDirection.East (X + 1) Y hEa (by decide) (by decide) (by decide)
        (PrimMid_step2 Size X Y g fr [] _
          EMazeDirection.West (X - 1) Y hW (by decide) (List.not_mem_nil _)
          (fun d hd => absurd hd (List.not_mem_nil _))
          (PrimMid_base Size X Y g fr))))

lemma mem_if_append {α : Type} (L : List α) (c : Prop) [Decidable c]
    (t q : α) :
    q ∈ (if c then L ++ [t] else L) ↔ q ∈ L ∨ (c ∧ q = t) := by
  split_ifs with hc
  · rw [List.mem_append, List.mem_singleton]
    constructor
    · rintro (h | h)
      · exact Or.inl h
      · exact Or.inr ⟨hc, h⟩
    · rintro (h | ⟨-, h⟩)
      · exact Or.inl h
      · exact Or.inr h
  · constructor
    · exact Or.inl
    · rintro (h | ⟨hcc, -⟩)
      · exact h
      · exact absurd hcc hc

lemma PrimGetInNeighbors_mem (Size : FIntPoint) (X Y : ℤ) (g : ByteGrid)
    (hin : inRoom Size (X, Y)) (q : FIntPoint) :
    q ∈ PrimGetInNeighbors Size X Y g ↔
      ∃ d, d ≠ EMazeDirection.NoDir ∧
        q = ((X + (dirDelta d).1, Y + (dirDelta d).2) : FIntPoint) ∧
        inRoom Size q ∧ g q &&& 128 ≠ 0 := by
  have hW : ((X - 1, Y) : FIntPoint) =
      (X + (dirDelta EMazeDirection.West).1,
        Y + (dirDelta EMazeDirection.West).2) := by
    rw [Prod.mk.injEq]
    simp only [dirDelta, GetDirectionDeltaX, GetDirectionDeltaY]
    constructor <;> ring
  have hEa : ((X + 1, Y) : FIntPoint) =
      (X + (dirDelta EMazeDirection.East).1,
        Y + (dirDelta EMazeDirection.East).2) := by
    rw [Prod.mk.injEq]
    simp only [dirDelta, GetDirectionDeltaX, GetDirectionDeltaY]
    constructor <;> ring
  have hN : ((X, Y - 1) : FIntPoint) =
      (X + (dirDelta EMazeDirection.North).1,
        Y + (dirDelta EMazeDirection.North).2) := by
    rw [Prod.mk.injEq]
    simp only [dirDelta, GetDirectionDeltaX, GetDirectionDeltaY]
    constructor <;> ring
  have hS : ((X, Y + 1) : FIntPoint) =
      (X + (dirDelta EMazeDirection.South).1,
        Y + (dirDelta EMazeDirection.South).2) := by
    rw [Prod.mk.injEq]
    simp only [dirDelta, GetDirectionDeltaX, GetDirectionDeltaY]
    constructor <;> ring
  unfold inRoom at hin
  simp only [PrimGetInNeighbors, mem_if_append, List.not_mem_nil, false_or]
  constructor
  · rintro (((⟨⟨hb, hbit⟩, rfl⟩ | ⟨⟨hb, hbit⟩, rfl⟩) | ⟨⟨hb, hbit⟩, rfl⟩) |
      ⟨⟨hb, hbit⟩, rfl⟩)
    · exact ⟨EMazeDirection.West, by decide, hW,
        by unfold inRoom; dsimp only; omega, hbit⟩
    · exact ⟨EMazeDirection.East, by decide, hEa,
        by unfold inRoom; dsimp only; omega, hbit⟩
    · exact ⟨EMazeDirection.North, by decide, hN,
        by unfold inRoom; dsimp only; omega, hbit⟩
    · exact ⟨EMazeDirection.South, by decide, hS,
        by unfold inRoom; dsimp only; omega, hbit⟩
  · rintro ⟨d, hd, rfl, hinq, hbit⟩
    unfold inRoom at hinq
    cases d with
    | NoDir => exact absurd rfl hd
    | West =>
      refine Or.inl (Or.inl (Or.inl ⟨⟨?_, ?_⟩, hW.symm⟩))
      · simp only [dirDelta, GetDirectionDeltaX, GetDirectionDeltaY] at hinq
        omega
      · rw [← hW] at hbit
        exact hbit
    | East =>
      refine Or.inl (Or.inl (Or.inr ⟨⟨?_, ?_⟩, hEa.symm⟩))
      · simp only [dirDelta, GetDirectionDeltaX, GetDirectionDeltaY] at hinq
        omega
      · rw [← hEa] at hbit
        exact hbit
    | North =>
      refine Or.inl (Or.inr ⟨⟨?_, ?_⟩, hN.symm⟩)
      · simp only [dirDelta, GetDirectionDeltaX, GetDirectionDeltaY] at hinq
        omega
      · rw [← hN] at hbit
        exact hbit
    | South =>
      refine Or.inr ⟨⟨?_, ?_⟩, hS.symm⟩
      · simp only [dirDelta, GetDirectionDeltaX, GetDirectionDeltaY] at hinq
        omega
      · rw [← hS] at hbit
        exact hbit

lemma GetDirectionBetween_delta (a : FIntPoint) (d : EMazeDirection)
    (hd : d ≠ EMazeDirection.NoDir) :
    GetDirectionBetween a
      (a.1 + (dirDelta d).1, a.2 + (dirDelta d).2) = d := by
  cases d with
  | NoDir => exact absurd rfl hd
  | East =>
    unfold GetDirectionBetween
    rw [if_pos (by simp only [dirDelta, GetDirectionDeltaX,
      GetDirectionDeltaY]; omega)]
  | West =>
    unfold GetDirectionBetween
    rw [if_neg (by simp only [dirDelta, GetDirectionDeltaX,
      GetDirectionDeltaY]; omega),
      if_pos (by simp only [dirDelta, GetDirectionDeltaX,
        GetDirectionDeltaY]; omega)]
  | South =>
    unfold GetDirectionBetween
    rw [if_neg (by simp only [dirDelta, GetDirectionDeltaX,
      GetDirectionDeltaY]; omega),
      if_neg (by simp only [dirDelta, GetDirectionDeltaX,
        GetDirectionDeltaY]; omega),
      if_pos (by simp only [dirDelta, GetDirectionDeltaX,
        GetDirectionDeltaY]; omega)]
  | North =>
    unfold GetDirectionBetween
    rw [if_neg (by simp only [dirDelta, GetDirectionDeltaX,
      GetDirectionDeltaY]; omega),
      if_neg (by simp only [dirDelta, GetDirectionDeltaX,
        GetDirectionDeltaY]; omega),
      if_neg (by simp only [dirDelta, GetDirectionDeltaX,
        GetDirectionDeltaY]; omega),
      if_pos (by simp only [dirDelta, GetDirectionDeltaX,
        GetDirectionDeltaY]; omega)]

lemma mem_eraseIdx_of_ne {α : Type} :
    ∀ (l : List α) (i : ℕ) (hi : i < l.length) (p : α), p ∈ l →
      p ≠ l.get ⟨i, hi⟩ → p ∈ l.eraseIdx i := by
  intro l
  induction l with
  | nil =>
    intro i hi
    exact absurd hi (by simp)
  | cons a t ih =>
    intro i hi p hp hne
    cases i with
    | zero =>
      rcases List.mem_cons.mp hp with rfl | hm
      · exact absurd rfl hne
      · exact hm
    | succ j =>
      rcases List.mem_cons.mp hp with rfl | hm
      · exact List.mem_cons_self _ _
      · have hj : j < t.length := by
          simp only [List.length_cons] at hi
          omega
        exact List.mem_cons_of_mem _ (ih j hj p hm hne)

/-- Rooms already absorbed into the growing Prim region (bit 128). -/
def nIn (Size : FIntPoint) (g : ByteGrid) : ℕ :=
  ((roomsFinset Size).filter (fun p => g p &&& 128 ≠ 0)).card

lemma passageCount_congr (Size : FIntPoint) (g g2 : ByteGrid)
    (h : ∀ p d, hasDir g p d ↔ hasDir g2 p d) :
    passageCount Size g = passageCount Size g2 := by
  unfold passageCount
  congr 1
  ext pd
  simp only [Finset.mem_filter]
  rw [h pd.1 pd.2, h (pd.1.1 + (dirDelta pd.2).1, pd.1.2 + (dirDelta pd.2).2)
    (GetOppositeDirection pd.2)]

/-- One pass of the Prim while-body after the frontier pop: connect the
popped cell to a random In neighbor when one exists. -/
def PrimStep (Size : FIntPoint) (g : ByteGrid) (Current : FIntPoint)
    (rng : FRandomStream) : ByteGrid × FRandomStream :=
  let InNeighbors := PrimGetInNeighbors Size Current.1 Current.2 g
  if InNeighbors.length > 0 then
    let r2 := RandRange rng 0 ((InNeighbors.length : ℤ) - 1)
    let Neighbor := InNeighbors.getD r2.1.toNat (0, 0)
    let Dir := GetDirectionBetween Current Neighbor
    let ga := setCell g Current.1 Current.2
      (g (Current.1, Current.2) ||| dirByte Dir)
    (setCell ga Neighbor.1 Neighbor.2
      (ga (Neighbor.1, Neighbor.2) ||| dirByte (GetOppositeDirection Dir)),
      r2.2)
  else (g, rng)

lemma PrimLoop_succ (Size : FIntPoint) (fuel : ℕ) (g : ByteGrid)
    (fr : List FIntPoint) (rng : FRandomStream) :
    PrimLoop Size (fuel + 1) g fr rng =
      if fr.length > 0 then
        PrimLoop Size fuel
          (PrimExpandFrontierFrom Size
            (fr.getD (RandRange rng 0 ((fr.length : ℤ) - 1)).1.toNat (0, 0)).1
            (fr.getD (RandRange rng 0 ((fr.length : ℤ) - 1)).1.toNat (0, 0)).2
            (PrimStep Size g
              (fr.getD (RandRange rng 0 ((fr.length : ℤ) - 1)).1.toNat (0, 0))
              (RandRange rng 0 ((fr.length : ℤ) - 1)).2).1
            (fr.eraseIdx (RandRange rng 0 ((fr.length : ℤ) - 1)).1.toNat)).1
          (PrimExpandFrontierFrom Size
            (fr.getD (RandRange rng 0 ((fr.length : ℤ) - 1)).1.toNat (0, 0)).1
            (fr.getD (RandRange rng 0 ((fr.length : ℤ) - 1)).1.toNat (0, 0)).2
            (PrimStep Size g
              (fr.getD (RandRange rng 0 ((fr.length : ℤ) - 1)).1.toNat (0, 0))
              (RandRange rng 0 ((fr.length : ℤ) - 1)).2).1
            (fr.eraseIdx (RandRange rng 0 ((fr.length : ℤ) - 1)).1.toNat)).2
          (PrimStep Size g
            (fr.getD (RandRange rng 0 ((fr.length : ℤ) - 1)).1.toNat (0, 0))
            (RandRange rng 0 ((fr.length : ℤ) - 1)).2).2
      else (g, rng) := by
  rw [PrimLoop]
  rfl

lemma not_mem_eraseIdx_self {α : Type} :
    ∀ (l : List α) (i : ℕ) (hi : i < l.length), l.Nodup →
      l.get ⟨i, hi⟩ ∉ l.eraseIdx i := by
  intro l
  induction l with
  | nil =>
    intro i hi
    exact absurd hi (by simp)
  | cons a t ih =>
    intro i hi hnd
    rw [List.nodup_cons] at hnd
    cases i with
    | zero =>
      exact hnd.1
    | succ j =>
      have hj : j < t.length := by
        simp only [List.length_cons] at hi
        omega
      intro hmem
      rcases List.mem_cons.mp hmem with heq | hm
      · exact hnd.1 (heq ▸ List.get_mem t j hj)
      · exact ih j hj hnd.2 hm

lemma zeroCount_congr (Size : FIntPoint) (g g2 : ByteGrid)
    (h : ∀ p, g2 p = 0 ↔ g p = 0) :
    zeroCount Size g2 = zeroCount Size g := by
  unfold zeroCount
  congr 1
  ext p
  simp only [Finset.mem_filter]
  rw [h p]

lemma nIn_congr (Size : FIntPoint) (g g2 : ByteGrid)
    (h : ∀ p, g2 p &&& 128 ≠ 0 ↔ g p &&& 128 ≠ 0) :
    nIn Size g2 = nIn Size g := by
  unfold nIn
  congr 1
  ext p
  simp only [Finset.mem_filter]
  rw [h p]

lemma nIn_insert (Size : FIntPoint) (g g2 : ByteGrid) (c : FIntPoint)
    (h : ∀ p, g2 p &&& 128 ≠ 0 ↔ (g p &&& 128 ≠ 0 ∨ p = c))
    (hc : g c &&& 128 = 0) (hcin : c ∈ roomsFinset Size) :
    nIn Size g2 = nIn Size g + 1 := by
  unfold nIn
  have hfil : (roomsFinset Size).filter (fun p => g2 p &&& 128 ≠ 0) =
      insert c ((roomsFinset Size).filter (fun p => g p &&& 128 ≠ 0)) := by
    ext p
    rw [Finset.mem_insert, Finset.mem_filter, Finset.mem_filter]
    constructor
    · rintro ⟨hm, hp⟩
      rcases (h p).mp hp with hl | rfl
      · exact Or.inr ⟨hm, hl⟩
      · exact Or.inl rfl
    · rintro (rfl | ⟨hm, hp⟩)
      · exact ⟨hcin, (h p).mpr (Or.inr rfl)⟩
      · exact ⟨hm, (h p).mpr (Or.inl hp)⟩
  rw [hfil, Finset.card_insert_of_not_mem]
  rw [Finset.mem_filter]
  rintro ⟨-, hcon⟩
  exact hcon hc

lemma DirGridOK_congr (Size : FIntPoint) (g g2 : ByteGrid)
    (h : ∀ p d, hasDir g2 p d ↔ hasDir g p d) (hOK : DirGridOK Size g) :
    DirGridOK Size g2 := by
  intro p d hd
  obtain ⟨h1, h2, h3⟩ := hOK p d ((h p d).mp hd)
  exact ⟨h1, h2, (h _ _).mpr h3⟩

lemma flag128_lor_dir (v : ℕ) (d : EMazeDirection) :
    ((v ||| dirByte d) &&& 128 ≠ 0) ↔ (v &&& 128 ≠ 0) := by
  rw [and_lor_ne_zero]
  constructor
  · rintro (h | h)
    · exact h
    · exact absurd h (by cases d <;> decide)
  · exact Or.inl

lemma hasDir_byte64 (d : EMazeDirection) : (64 : ℕ) &&& dirByte d = 0 := by
  cases d <;> decide

lemma carve_128_iff (g : ByteGrid) (X Y : ℤ) (Dir : EMazeDirection)
    (hDir : Dir ≠ EMazeDirection.NoDir) (p : FIntPoint) :
    carveCells g X Y Dir p &&& 128 ≠ 0 ↔ g p &&& 128 ≠ 0 := by
  have hne := carve_next_ne_cur X Y Dir hDir
  have hne2 : ((X + GetDirectionDeltaX Dir, Y + GetDirectionDeltaY Dir) :
      FIntPoint) ≠ (X, Y) := hne
  by_cases h2 : p = ((X + (dirDelta Dir).1, Y + (dirDelta Dir).2) : FIntPoint)
  · have hv : carveCells g X Y Dir p =
        g (X + (dirDelta Dir).1, Y + (dirDelta Dir).2) |||
          dirByte (GetOppositeDirection Dir) := by
      rw [h2]
      show setCell (setCell g X Y (g (X, Y) ||| dirByte Dir))
        (X + GetDirectionDeltaX Dir) (Y + GetDirectionDeltaY Dir)
        ((setCell g X Y (g (X, Y) ||| dirByte Dir))
          (X + GetDirectionDeltaX Dir, Y + GetDirectionDeltaY Dir) |||
            dirByte (GetOppositeDirection Dir))
        (X + GetDirectionDeltaX Dir, Y + GetDirectionDeltaY Dir) =
        g (X + GetDirectionDeltaX Dir, Y + GetDirectionDeltaY Dir) |||
          dirByte (GetOppositeDirection Dir)
      rw [setCell_same, setCell_other _ _ _ _ _ hne2]
    rw [hv, flag128_lor_dir, h2]
  · by_cases h1 : p = ((X, Y) : FIntPoint)
    · have hne3 : ((X, Y) : FIntPoint) ≠
          (X + GetDirectionDeltaX Dir, Y + GetDirectionDeltaY Dir) :=
        fun hcon => hne2 hcon.symm
      have hv : carveCells g X Y Dir p = g (X, Y) ||| dirByte Dir := by
        rw [h1]
        show setCell (setCell g X Y (g (X, Y) ||| dirByte Dir))
          (X + GetDirectionDeltaX Dir) (Y + GetDirectionDeltaY Dir)
          ((setCell g X Y (g (X, Y) ||| dirByte Dir))
            (X + GetDirectionDeltaX Dir, Y + GetDirectionDeltaY Dir) |||
              dirByte (GetOppositeDirection Dir)) (X, Y) =
          g (X, Y) ||| dirByte Dir
        rw [setCell_other _ _ _ _ _ hne3, setCell_same]
      rw [hv, flag128_lor_dir, h1]
    · rw [carveCells_other g X Y Dir p h1 h2]

lemma carveCells_cur_val (g : ByteGrid) (X Y : ℤ) (Dir : EMazeDirection)
    (hDir : Dir ≠ EMazeDirection.NoDir) :
    carveCells g X Y Dir (X, Y) = g (X, Y) ||| dirByte Dir := by
  have hne2 : ((X + GetDirectionDeltaX Dir, Y + GetDirectionDeltaY Dir) :
      FIntPoint) ≠ (X, Y) := carve_next_ne_cur X Y Dir hDir
  show setCell (setCell g X Y (g (X, Y) ||| dirByte Dir))
    (X + GetDirectionDeltaX Dir) (Y + GetDirectionDeltaY Dir)
    ((setCell g X Y (g (X, Y) ||| dirByte Dir))
      (X + GetDirectionDeltaX Dir, Y + GetDirectionDeltaY Dir) |||
        dirByte (GetOppositeDirection Dir)) (X, Y) =
    g (X, Y) ||| dirByte Dir
  rw [setCell_other _ _ _ _ _ (fun hcon => hne2 hcon.symm), setCell_same]

lemma carveCells_next_val (g : ByteGrid) (X Y : ℤ) (Dir : EMazeDirection)
    (hDir : Dir ≠ EMazeDirection.NoDir) :
    carveCells g X Y Dir (X + (dirDelta Dir).1, Y + (dirDelta Dir).2) =
      g (X + (dirDelta Dir).1, Y + (dirDelta Dir).2) |||
        dirByte (GetOppositeDirection Dir) := by
  have hne2 : ((X + GetDirectionDeltaX Dir, Y + GetDirectionDeltaY Dir) :
      FIntPoint) ≠ (X, Y) := carve_next_ne_cur X Y Dir hDir
  show setCell (setCell g X Y (g (X, Y) ||| dirByte Dir))
    (X + GetDirectionDeltaX Dir) (Y + GetDirectionDeltaY Dir)
    ((setCell g X Y (g (X, Y) ||| dirByte Dir))
      (X + GetDirectionDeltaX Dir, Y + GetDirectionDeltaY Dir) |||
        dirByte (GetOppositeDirection Dir))
    (X + GetDirectionDeltaX Dir, Y + GetDirectionDeltaY Dir) =
    g (X + GetDirectionDeltaX Dir, Y + GetDirectionDeltaY Dir) |||
      dirByte (GetOppositeDirection Dir)
  rw [setCell_same, setCell_other _ _ _ _ _ hne2]

lemma carve_zero_iff (g : ByteGrid) (X Y : ℤ) (Dir : EMazeDirection)
    (hDir : Dir ≠ EMazeDirection.NoDir) (hcur : g (X, Y) ≠ 0)
    (hnext : g (X + (dirDelta Dir).1, Y + (dirDelta Dir).2) ≠ 0)
    (p : FIntPoint) : carveCells g X Y Dir p = 0 ↔ g p = 0 := by
  have hcz := carveCells_cur_ne_zero g X Y Dir hDir
  by_cases h1 : p = ((X, Y) : FIntPoint)
  · rw [h1]
    exact ⟨fun h => absurd h hcz.1, fun h => absurd h hcur⟩
  · by_cases h2 : p = ((X + (dirDelta Dir).1, Y + (dirDelta Dir).2) :
      FIntPoint)
    · rw [h2]
      exact ⟨fun h => absurd h hcz.2, fun h => absurd h hnext⟩
    · rw [carveCells_other g X Y Dir p h1 h2]

lemma zeroCount_drop (Size : FIntPoint) (g g2 : ByteGrid)
    (hmono : ∀ p, g p ≠ 0 → g2 p ≠ 0) (S : Finset FIntPoint)
    (hS : ∀ p ∈ S, inRoom Size p ∧ g p = 0 ∧ g2 p ≠ 0) :
    zeroCount Size g2 + S.card ≤ zeroCount Size g := by
  have hdisj : Disjoint ((roomsFinset Size).filter (fun p => g2 p = 0)) S := by
    rw [Finset.disjoint_left]
    intro p hp hps
    rw [Finset.mem_filter] at hp
    exact (hS p hps).2.2 hp.2
  have hsub : (roomsFinset Size).filter (fun p => g2 p = 0) ∪ S ⊆
      (roomsFinset Size).filter (fun p => g p = 0) := by
    intro p hp
    rw [Finset.mem_union] at hp
    rw [Finset.mem_filter]
    rcases hp with hp | hp
    · rw [Finset.mem_filter] at hp
      refine ⟨hp.1, ?_⟩
      by_contra hnz
      exact hmono p hnz hp.2
    · obtain ⟨hin, hz, -⟩ := hS p hp
      exact ⟨(mem_roomsFinset Size p).mpr hin, hz⟩
  calc zeroCount Size g2 + S.card
      = ((roomsFinset Size).filter (fun p => g2 p = 0) ∪ S).card := by
        rw [Finset.card_union_of_disjoint hdisj]
        rfl
    _ ≤ zeroCount Size g := Finset.card_le_card hsub

lemma PrimExpand_cases (Size : FIntPoint) (X Y : ℤ) (gc : ByteGrid)
    (fr1 : List FIntPoint) (p : FIntPoint) :
    ((PrimExpandFrontierFrom Size X Y gc fr1).1 p = gc p ∧
      p ≠ ((X, Y) : FIntPoint)) ∨
    (p = ((X, Y) : FIntPoint) ∧
      (PrimExpandFrontierFrom Size X Y gc fr1).1 p = gc p ||| 128) ∨
    (gc p = 0 ∧ inRoom Size p ∧
      (PrimExpandFrontierFrom Size X Y gc fr1).1 p = 64 ∧
      p ∈ (PrimExpandFrontierFrom Size X Y gc fr1).2 ∧
      ∃ d, d ≠ EMazeDirection.NoDir ∧
        p = ((X + (dirDelta d).1, Y + (dirDelta d).2) : FIntPoint)) := by
  obtain ⟨hA, hB, hC, hD, hE⟩ := PrimExpand_final Size X Y gc fr1
  by_cases hp : p = ((X, Y) : FIntPoint)
  · refine Or.inr (Or.inl ⟨hp, ?_⟩)
    rw [hp]
    exact hA
  · by_cases hnb : ∃ d ∈ ([EMazeDirection.West, EMazeDirection.East,
        EMazeDirection.North, EMazeDirection.South] : List EMazeDirection),
        p = ((X + (dirDelta d).1, Y + (dirDelta d).2) : FIntPoint)
    · obtain ⟨d, hd, hpd⟩ := hnb
      have hdn : d ≠ EMazeDirection.NoDir := by
        simp only [List.mem_cons, List.mem_singleton, List.not_mem_nil,
          or_false] at hd
        rcases hd with rfl | rfl | rfl | rfl <;> decide
      by_cases hcond : inRoom Size (X + (dirDelta d).1, Y + (dirDelta d).2) ∧
          gc (X + (dirDelta d).1, Y + (dirDelta d).2) = 0
      · obtain ⟨hv, hm⟩ := (hC d hd).1 hcond.1 hcond.2
        refine Or.inr (Or.inr ⟨?_, ?_, ?_, ?_, d, hdn, hpd⟩)
        · rw [hpd]
          exact hcond.2
        · rw [hpd]
          exact hcond.1
        · rw [hpd]
          exact hv
        · rw [hpd]
          exact hm
      · refine Or.inl ⟨?_, hp⟩
        rw [hpd]
        exact (hC d hd).2 hcond
    · refine Or.inl ⟨hB p hp ?_, hp⟩
      intro d hd hco
      exact hnb ⟨d, hd, hco⟩

/-- Loop invariant of GeneratePrims: dir bits symmetric and in bounds,
frontier cells are marked 64 and touch the In region, In cells have no
untouched neighbors, every touched room is In or frontier, the In region
is connected, and the carved passages tree the In region. -/
def PrimInv (Size : FIntPoint) (g : ByteGrid) (fr : List FIntPoint) : Prop :=
  DirGridOK Size g ∧
  fr.Nodup ∧
  (∀ p ∈ fr, inRoom Size p ∧ g p = 64) ∧
  (∀ p ∈ fr, ∃ d, d ≠ EMazeDirection.NoDir ∧
    inRoom Size (p.1 + (dirDelta d).1, p.2 + (dirDelta d).2) ∧
    g (p.1 + (dirDelta d).1, p.2 + (dirDelta d).2) &&& 128 ≠ 0) ∧
  (∀ p, g p &&& 128 ≠ 0 → ∀ d, d ≠ EMazeDirection.NoDir →
    inRoom Size (p.1 + (dirDelta d).1, p.2 + (dirDelta d).2) →
    g (p.1 + (dirDelta d).1, p.2 + (dirDelta d).2) ≠ 0) ∧
  (∀ p, inRoom Size p → g p ≠ 0 → (g p &&& 128 ≠ 0 ∨ p ∈ fr)) ∧
  (∀ p q, g p &&& 128 ≠ 0 → g q &&& 128 ≠ 0 → RoomConn g p q) ∧
  (passageCount Size g + 1 = nIn Size g) ∧
  (∀ p, g p ≠ 0 → inRoom Size p)

lemma mem_four_dirs (d : EMazeDirection) (h : d ≠ EMazeDirection.NoDir) :
    d ∈ ([EMazeDirection.West, EMazeDirection.East, EMazeDirection.North,
      EMazeDirection.South] : List EMazeDirection) := by
  cases d
  · exact absurd rfl h
  · decide
  · decide
  · decide
  · decide

lemma PrimIter_inv (Size : FIntPoint) (g : ByteGrid) (fr : List FIntPoint)
    (idx : ℕ) (hidx : idx < fr.length) (rs : FRandomStream)
    (hinv : PrimInv Size g fr) :
    PrimInv Size
      (PrimExpandFrontierFrom Size (fr.getD idx (0, 0)).1
        (fr.getD idx (0, 0)).2
        (PrimStep Size g (fr.getD idx (0, 0)) rs).1 (fr.eraseIdx idx)).1
      (PrimExpandFrontierFrom Size (fr.getD idx (0, 0)).1
        (fr.getD idx (0, 0)).2
        (PrimStep Size g (fr.getD idx (0, 0)) rs).1 (fr.eraseIdx idx)).2 ∧
    2 * zeroCount Size (PrimExpandFrontierFrom Size (fr.getD idx (0, 0)).1
        (fr.getD idx (0, 0)).2
        (PrimStep Size g (fr.getD idx (0, 0)) rs).1 (fr.eraseIdx idx)).1 +
      (PrimExpandFrontierFrom Size (fr.getD idx (0, 0)).1
        (fr.getD idx (0, 0)).2
        (PrimStep Size g (fr.getD idx (0, 0)) rs).1
        (fr.eraseIdx idx)).2.length + 1 ≤
      2 * zeroCount Size g + fr.length := by
  obtain ⟨hOK, hnd, hI3, hI6, hI8, hI9, hI10, hcount, hroom⟩ := hinv
  have hCget : fr.getD idx (0, 0) = fr.get ⟨idx, hidx⟩ := by
    rw [List.getD_eq_getElem _ _ hidx]
    exact (List.get_eq_getElem fr ⟨idx, hidx⟩).symm
  have hCmem : fr.getD idx (0, 0) ∈ fr := by
    rw [hCget]
    exact List.get_mem fr idx hidx
  obtain ⟨hCin, hC64⟩ := hI3 _ hCmem
  have hCin2 : inRoom Size ((fr.getD idx (0, 0)).1, (fr.getD idx (0, 0)).2) :=
    hCin
  obtain ⟨d1, hd1, hin1, hbit1⟩ := hI6 _ hCmem
  have hlen2 : 0 < (PrimGetInNeighbors Size (fr.getD idx (0, 0)).1
      (fr.getD idx (0, 0)).2 g).length := by
    have hm : ((fr.getD idx (0, 0)).1 + (dirDelta d1).1,
        (fr.getD idx (0, 0)).2 + (dirDelta d1).2) ∈
        PrimGetInNeighbors Size (fr.getD idx (0, 0)).1
          (fr.getD idx (0, 0)).2 g :=
      (PrimGetInNeighbors_mem Size (fr.getD idx (0, 0)).1
        (fr.getD idx (0, 0)).2 g hCin2 _).mpr ⟨d1, hd1, rfl, hin1, hbit1⟩
    exact List.length_pos.mpr (List.ne_nil_of_mem hm)
  have hb2 := RandRange_bounds rs 0
    (((PrimGetInNeighbors Size (fr.getD idx (0, 0)).1
      (fr.getD idx (0, 0)).2 g).length : ℤ) - 1) (by omega)
  have hidx2 : (RandRange rs 0
      (((PrimGetInNeighbors Size (fr.getD idx (0, 0)).1
        (fr.getD idx (0, 0)).2 g).length : ℤ) - 1)).1.toNat <
      (PrimGetInNeighbors Size (fr.getD idx (0, 0)).1
        (fr.getD idx (0, 0)).2 g).length := by
    omega
  have hNmem : (PrimGetInNeighbors Size (fr.getD idx (0, 0)).1
      (fr.getD idx (0, 0)).2 g).getD
      (RandRange rs 0 (((PrimGetInNeighbors Size (fr.getD idx (0, 0)).1
        (fr.getD idx (0, 0)).2 g).length : ℤ) - 1)).1.toNat (0, 0) ∈
      PrimGetInNeighbors Size (fr.getD idx (0, 0)).1
        (fr.getD idx (0, 0)).2 g := by
    rw [List.getD_eq_getElem _ _ hidx2]
    exact List.getElem_mem _
  obtain ⟨d, hd, hNq, hNin, hNbit⟩ :=
    (PrimGetInNeighbors_mem Size (fr.getD idx (0, 0)).1
      (fr.getD idx (0, 0)).2 g hCin2 _).mp hNmem
  have hstep1 : (PrimStep Size g (fr.getD idx (0, 0)) rs).1 =
      carveCells g (fr.getD idx (0, 0)).1 (fr.getD idx (0, 0)).2 d := by
    simp only [PrimStep]
    rw [if_pos hlen2, hNq, GetDirectionBetween_delta _ d hd]
    rfl
  rw [hstep1]
  rw [hNq] at hNin hNbit
  have hgcur : g ((fr.getD idx (0, 0)).1, (fr.getD idx (0, 0)).2) = 64 := hC64
  have hCne0 : g ((fr.getD idx (0, 0)).1, (fr.getD idx (0, 0)).2) ≠ 0 := by
    rw [hgcur]
    decide
  have hnext_ne0 : g ((fr.getD idx (0, 0)).1 + (dirDelta d).1,
      (fr.getD idx (0, 0)).2 + (dirDelta d).2) ≠ 0 := by
    intro hz
    apply hNbit
    rw [hz, Nat.zero_and]
  have hnd1g : ¬hasDir g ((fr.getD idx (0, 0)).1, (fr.getD idx (0, 0)).2) d :=
    fun hcon => hcon (by rw [hgcur]; exact hasDir_byte64 d)
  have hnd2g : ¬hasDir g ((fr.getD idx (0, 0)).1 + (dirDelta d).1,
      (fr.getD idx (0, 0)).2 + (dirDelta d).2) (GetOppositeDirection d) := by
    intro hcon
    obtain ⟨-, -, hback⟩ := hOK _ _ hcon
    rw [dirDelta_opp, GetOppositeDirection_involutive] at hback
    have hco : (((fr.getD idx (0, 0)).1 + (dirDelta d).1 + -(dirDelta d).1,
        (fr.getD idx (0, 0)).2 + (dirDelta d).2 + -(dirDelta d).2) :
        FIntPoint) =
        ((fr.getD idx (0, 0)).1, (fr.getD idx (0, 0)).2) := by
      rw [Prod.mk.injEq]
      constructor <;> ring
    rw [hco] at hback
    exact hnd1g hback
  have hpc1 := passageCount_carve Size g (fr.getD idx (0, 0)).1
    (fr.getD idx (0, 0)).2 d hd ((mem_roomsFinset Size _).mpr hCin)
    ((mem_roomsFinset Size _).mpr hNin) hnd1g hnd2g
  have hnin1 : nIn Size (carveCells g (fr.getD idx (0, 0)).1
      (fr.getD idx (0, 0)).2 d) = nIn Size g :=
    nIn_congr Size g _ (fun p => carve_128_iff g _ _ d hd p)
  have hzc1 : zeroCount Size (carveCells g (fr.getD idx (0, 0)).1
      (fr.getD idx (0, 0)).2 d) = zeroCount Size g :=
    zeroCount_congr Size g _
      (fun p => carve_zero_iff g _ _ d hd hCne0 hnext_ne0 p)
  have hOKc : DirGridOK Size (carveCells g (fr.getD idx (0, 0)).1
      (fr.getD idx (0, 0)).2 d) :=
    DirGridOK_carve Size g _ _ d hd hCin hNin hOK
  have hcarve_dir : hasDir (carveCells g (fr.getD idx (0, 0)).1
      (fr.getD idx (0, 0)).2 d)
      ((fr.getD idx (0, 0)).1, (fr.getD idx (0, 0)).2) d :=
    (hasDir_carveCells g _ _ d hd _ _).mpr (Or.inr (Or.inl ⟨rfl, rfl⟩))
  have hc128 : ∀ p, carveCells g (fr.getD idx (0, 0)).1
      (fr.getD idx (0, 0)).2 d p &&& 128 ≠ 0 ↔ g p &&& 128 ≠ 0 :=
    fun p => carve_128_iff g _ _ d hd p
  have hfr1nd : (fr.eraseIdx idx).Nodup :=
    hnd.sublist (List.eraseIdx_sublist fr idx)
  have hfr1mem : ∀ p ∈ fr.eraseIdx idx, p ∈ fr :=
    fun p hp => (List.eraseIdx_sublist fr idx).subset hp
  have hCnotfr1 : fr.getD idx (0, 0) ∉ fr.eraseIdx idx := by
    rw [hCget]
    exact not_mem_eraseIdx_self fr idx hidx hnd
  have hmemfr1 : ∀ p ∈ fr, p ≠ fr.getD idx (0, 0) → p ∈ fr.eraseIdx idx := by
    intro p hp hne
    refine mem_eraseIdx_of_ne fr idx hidx p hp ?_
    rw [← hCget]
    exact hne
  have hfr1len : (fr.eraseIdx idx).length = fr.length - 1 := by
    rw [List.length_eraseIdx]
    simp [hidx]
  have hI3c : ∀ p ∈ fr.eraseIdx idx, inRoom Size p ∧
      carveCells g (fr.getD idx (0, 0)).1 (fr.getD idx (0, 0)).2 d p = 64 := by
    intro p hp
    obtain ⟨hpin, hp64⟩ := hI3 p (hfr1mem p hp)
    refine ⟨hpin, ?_⟩
    have hp1 : p ≠ (((fr.getD idx (0, 0)).1, (fr.getD idx (0, 0)).2) :
        FIntPoint) := by
      intro hcon
      have hcon2 : p = fr.getD idx (0, 0) := hcon
      rw [hcon2] at hp
      exact hCnotfr1 hp
    have hp2 : p ≠ (((fr.getD idx (0, 0)).1 + (dirDelta d).1,
        (fr.getD idx (0, 0)).2 + (dirDelta d).2) : FIntPoint) := by
      intro hcon
      apply hNbit
      rw [← hcon, hp64]
      decide
    rw [carveCells_other g _ _ d p hp1 hp2]
    exact hp64
  have hbytes1 : ∀ p ∈ fr.eraseIdx idx,
      carveCells g (fr.getD idx (0, 0)).1 (fr.getD idx (0, 0)).2 d p ≠ 0 := by
    intro p hp
    rw [(hI3c p hp).2]
    decide
  obtain ⟨hmA, hmB, hmC, hmD, hmE⟩ := PrimExpand_final Size
    (fr.getD idx (0, 0)).1 (fr.getD idx (0, 0)).2
    (carveCells g (fr.getD idx (0, 0)).1 (fr.getD idx (0, 0)).2 d)
    (fr.eraseIdx idx)
  obtain ⟨hEnodup, hEnz⟩ := hmE hbytes1 hfr1nd
  have hEmono : ∀ p, carveCells g (fr.getD idx (0, 0)).1
      (fr.getD idx (0, 0)).2 d p ≠ 0 →
      (PrimExpandFrontierFrom Size (fr.getD idx (0, 0)).1
        (fr.getD idx (0, 0)).2
        (carveCells g (fr.getD idx (0, 0)).1 (fr.getD idx (0, 0)).2 d)
        (fr.eraseIdx idx)).1 p ≠ 0 := by
    intro p hp
    rcases PrimExpand_cases Size (fr.getD idx (0, 0)).1 (fr.getD idx (0, 0)).2
      (carveCells g (fr.getD idx (0, 0)).1 (fr.getD idx (0, 0)).2 d)
      (fr.eraseIdx idx) p with ⟨hv, -⟩ | ⟨-, hv⟩ | ⟨hz, -, -, -, -⟩
    · rw [hv]
      exact hp
    · rw [hv]
      intro hcon
      exact hp (lor_eq_zero hcon).1
    · exact absurd hz hp
  have hdir_iff : ∀ p dd, hasDir (PrimExpandFrontierFrom Size
      (fr.getD idx (0, 0)).1 (fr.getD idx (0, 0)).2
      (carveCells g (fr.getD idx (0, 0)).1 (fr.getD idx (0, 0)).2 d)
      (fr.eraseIdx idx)).1 p dd ↔
      hasDir (carveCells g (fr.getD idx (0, 0)).1 (fr.getD idx (0, 0)).2 d)
        p dd := by
    intro p dd
    unfold hasDir
    rcases PrimExpand_cases Size (fr.getD idx (0, 0)).1 (fr.getD idx (0, 0)).2
      (carveCells g (fr.getD idx (0, 0)).1 (fr.getD idx (0, 0)).2 d)
      (fr.eraseIdx idx) p with ⟨hv, -⟩ | ⟨-, hv⟩ | ⟨hz, -, hv, -, -⟩
    · rw [hv]
    · rw [hv, and_lor_ne_zero]
      constructor
      · rintro (h | h)
        · exact h
        · exact absurd h (by cases dd <;> decide)
      · exact Or.inl
    · rw [hv, hz, hasDir_byte64 dd, Nat.zero_and]
  have hE128 : ∀ p, (PrimExpandFrontierFrom Size
      (fr.getD idx (0, 0)).1 (fr.getD idx (0, 0)).2
      (carveCells g (fr.getD idx (0, 0)).1 (fr.getD idx (0, 0)).2 d)
      (fr.eraseIdx idx)).1 p &&& 128 ≠ 0 ↔
      (carveCells g (fr.getD idx (0, 0)).1 (fr.getD idx (0, 0)).2 d p &&&
        128 ≠ 0 ∨
        p = (((fr.getD idx (0, 0)).1, (fr.getD idx (0, 0)).2) : FIntPoint)) := by
    intro p
    rcases PrimExpand_cases Size (fr.getD idx (0, 0)).1 (fr.getD idx (0, 0)).2
      (carveCells g (fr.getD idx (0, 0)).1 (fr.getD idx (0, 0)).2 d)
      (fr.eraseIdx idx) p with ⟨hv, hpne⟩ | ⟨hp, hv⟩ | ⟨hz, -, hv, -, hex⟩
    · rw [hv]
      constructor
      · exact Or.inl
      · rintro (h | h)
        · exact h
        · exact absurd h hpne
    · rw [hv, and_lor_ne_zero]
      constructor
      · intro _
        exact Or.inr hp
      · intro _
        right
        decide
    · rw [hv, hz]
      obtain ⟨dd, hdd, hpd⟩ := hex
      constructor
      · intro h
        exact absurd rfl h
      · rintro (h | h)
        · exact absurd rfl h
        · exfalso
          rw [h] at hpd
          exact carve_next_ne_cur _ _ dd hdd hpd.symm
  have hc_notIn : carveCells g (fr.getD idx (0, 0)).1 (fr.getD idx (0, 0)).2 d
      ((fr.getD idx (0, 0)).1, (fr.getD idx (0, 0)).2) &&& 128 = 0 := by
    rw [carveCells_cur_val g _ _ d hd, hgcur]
    cases d <;> decide
  have hninE : nIn Size (PrimExpandFrontierFrom Size
      (fr.getD idx (0, 0)).1 (fr.getD idx (0, 0)).2
      (carveCells g (fr.getD idx (0, 0)).1 (fr.getD idx (0, 0)).2 d)
      (fr.eraseIdx idx)).1 =
      nIn Size (carveCells g (fr.getD idx (0, 0)).1
        (fr.getD idx (0, 0)).2 d) + 1 :=
    nIn_insert Size _ _ _ hE128 hc_notIn ((mem_roomsFinset Size _).mpr hCin)
  have hpcE : passageCount Size (PrimExpandFrontierFrom Size
      (fr.getD idx (0, 0)).1 (fr.getD idx (0, 0)).2
      (carveCells g (fr.getD idx (0, 0)).1 (fr.getD idx (0, 0)).2 d)
      (fr.eraseIdx idx)).1 =
      passageCount Size (carveCells g (fr.getD idx (0, 0)).1
        (fr.getD idx (0, 0)).2 d) :=
    (passageCount_congr Size _ _ (fun p dd => (hdir_iff p dd).symm)).symm
  refine ⟨⟨DirGridOK_congr Size _ _ hdir_iff hOKc, hEnodup, ?_, ?_, ?_, ?_,
    ?_, ?_, ?_⟩, ?_⟩
  · -- I3: frontier cells are rooms with byte 64
    intro p hp
    rcases (hmD p).mp hp with hp1 | ⟨dd, hdd, hpd, hpin, hpz⟩
    · obtain ⟨hpin, hp64⟩ := hI3c p hp1
      refine ⟨hpin, ?_⟩
      rcases PrimExpand_cases Size (fr.getD idx (0, 0)).1
        (fr.getD idx (0, 0)).2
        (carveCells g (fr.getD idx (0, 0)).1 (fr.getD idx (0, 0)).2 d)
        (fr.eraseIdx idx) p with ⟨hv, -⟩ | ⟨hpc, -⟩ | ⟨hz, -, -, -, -⟩
      · rw [hv]
        exact hp64
      · exfalso
        apply hCnotfr1
        have : p = fr.getD idx (0, 0) := hpc
        rw [← this]
        exact hp1
      · rw [hp64] at hz
        exact absurd hz (by decide)
    · have hddne : dd ≠ EMazeDirection.NoDir := by
        intro hcon
        rw [hcon] at hdd
        exact absurd hdd (by decide)
      refine ⟨hpin, ?_⟩
      obtain ⟨hv, -⟩ := (hmC dd hdd).1 (hpd ▸ hpin) (hpd ▸ hpz)
      rw [hpd]
      exact hv
  · -- I6: frontier cells touch the In region
    intro p hp
    rcases (hmD p).mp hp with hp1 | ⟨dd, hdd, hpd, hpin, hpz⟩
    · obtain ⟨d2, hd2, hin2, hbit2⟩ := hI6 p (hfr1mem p hp1)
      exact ⟨d2, hd2, hin2, (hE128 _).mpr (Or.inl ((hc128 _).mpr hbit2))⟩
    · have hddne : dd ≠ EMazeDirection.NoDir := by
        intro hcon
        rw [hcon] at hdd
        exact absurd hdd (by decide)
      refine ⟨GetOppositeDirection dd,
        GetOppositeDirection_ne_noDir dd hddne, ?_, ?_⟩
      · have hco : ((p.1 + (dirDelta (GetOppositeDirection dd)).1,
            p.2 + (dirDelta (GetOppositeDirection dd)).2) : FIntPoint) =
            ((fr.getD idx (0, 0)).1, (fr.getD idx (0, 0)).2) := by
          rw [dirDelta_opp, hpd]
          rw [Prod.mk.injEq]
          dsimp only
          constructor <;> ring
        rw [hco]
        exact hCin
      · have hco : ((p.1 + (dirDelta (GetOppositeDirection dd)).1,
            p.2 + (dirDelta (GetOppositeDirection dd)).2) : FIntPoint) =
            ((fr.getD idx (0, 0)).1, (fr.getD idx (0, 0)).2) := by
          rw [dirDelta_opp, hpd]
          rw [Prod.mk.injEq]
          dsimp only
          constructor <;> ring
        rw [hco]
        exact (hE128 _).mpr (Or.inr rfl)
  · -- I8: In cells have no untouched in-bounds neighbors
    intro p hpIn dd hdd hddin
    rcases (hE128 p).mp hpIn with hgc | rfl
    · have hgIn : g p &&& 128 ≠ 0 := (hc128 p).mp hgc
      have hnz := hI8 p hgIn dd hdd hddin
      exact hEmono _ (fun hz => hnz (by
        have := (carve_zero_iff g _ _ d hd hCne0 hnext_ne0 _).mp hz
        exact this))
    · have hdd4 := mem_four_dirs dd hdd
      have hddin2 : inRoom Size ((fr.getD idx (0, 0)).1 + (dirDelta dd).1,
          (fr.getD idx (0, 0)).2 + (dirDelta dd).2) := hddin
      show (PrimExpandFrontierFrom Size (fr.getD idx (0, 0)).1
        (fr.getD idx (0, 0)).2
        (carveCells g (fr.getD idx (0, 0)).1 (fr.getD idx (0, 0)).2 d)
        (fr.eraseIdx idx)).1
        ((fr.getD idx (0, 0)).1 + (dirDelta dd).1,
          (fr.getD idx (0, 0)).2 + (dirDelta dd).2) ≠ 0
      by_cases hz : carveCells g (fr.getD idx (0, 0)).1
          (fr.getD idx (0, 0)).2 d
          ((fr.getD idx (0, 0)).1 + (dirDelta dd).1,
            (fr.getD idx (0, 0)).2 + (dirDelta dd).2) = 0
      · obtain ⟨hv, -⟩ := (hmC dd hdd4).1 hddin2 hz
        rw [hv]
        decide
      · exact hEmono _ hz
  · -- I9: nonzero rooms are In or frontier
    intro p hpin hpnz
    rcases PrimExpand_cases Size (fr.getD idx (0, 0)).1 (fr.getD idx (0, 0)).2
      (carveCells g (fr.getD idx (0, 0)).1 (fr.getD idx (0, 0)).2 d)
      (fr.eraseIdx idx) p with ⟨hv, hpne⟩ | ⟨hpc, -⟩ | ⟨-, -, -, hm, -⟩
    · rw [hv] at hpnz
      have hgnz : g p ≠ 0 := by
        intro hz
        exact hpnz ((carve_zero_iff g _ _ d hd hCne0 hnext_ne0 p).mpr hz)
      rcases hI9 p hpin hgnz with hIn | hfr
      · exact Or.inl ((hE128 p).mpr (Or.inl ((hc128 p).mpr hIn)))
      · refine Or.inr ((hmD p).mpr (Or.inl ?_))
        refine hmemfr1 p hfr ?_
        intro hcon
        exact hpne (by rw [hcon])
    · exact Or.inl ((hE128 p).mpr (Or.inr hpc))
    · exact Or.inr hm
  · -- I10: the In region is connected
    have hconn_base : ∀ p q, carveCells g (fr.getD idx (0, 0)).1
        (fr.getD idx (0, 0)).2 d p &&& 128 ≠ 0 →
        carveCells g (fr.getD idx (0, 0)).1 (fr.getD idx (0, 0)).2 d q &&&
          128 ≠ 0 →
        RoomConn (PrimExpandFrontierFrom Size (fr.getD idx (0, 0)).1
          (fr.getD idx (0, 0)).2
          (carveCells g (fr.getD idx (0, 0)).1 (fr.getD idx (0, 0)).2 d)
          (fr.eraseIdx idx)).1 p q := by
      intro p q hp hq
      have hg := hI10 p q ((hc128 p).mp hp) ((hc128 q).mp hq)
      refine RoomConn_mono _ _ ?_ p q hg
      intro a da ha
      exact (hdir_iff a da).mpr ((hasDir_carveCells g _ _ d hd a da).mpr
        (Or.inl ha))
    have hnext_conn : RoomConn (PrimExpandFrontierFrom Size
        (fr.getD idx (0, 0)).1 (fr.getD idx (0, 0)).2
        (carveCells g (fr.getD idx (0, 0)).1 (fr.getD idx (0, 0)).2 d)
        (fr.eraseIdx idx)).1
        (((fr.getD idx (0, 0)).1, (fr.getD idx (0, 0)).2) : FIntPoint)
        (((fr.getD idx (0, 0)).1 + (dirDelta d).1,
          (fr.getD idx (0, 0)).2 + (dirDelta d).2) : FIntPoint) :=
      Relation.ReflTransGen.single ⟨d, (hdir_iff _ d).mpr hcarve_dir, rfl⟩
    have hnextIn : carveCells g (fr.getD idx (0, 0)).1
        (fr.getD idx (0, 0)).2 d
        ((fr.getD idx (0, 0)).1 + (dirDelta d).1,
          (fr.getD idx (0, 0)).2 + (dirDelta d).2) &&& 128 ≠ 0 :=
      (hc128 _).mpr hNbit
    intro p q hp hq
    rcases (hE128 p).mp hp with hpc | rfl
    · rcases (hE128 q).mp hq with hqc | rfl
      · exact hconn_base p q hpc hqc
      · refine RoomConn_symm_of_OK Size _
          (DirGridOK_congr Size _ _ hdir_iff hOKc) _ _ ?_
        exact Relation.ReflTransGen.trans hnext_conn
          (hconn_base _ p hnextIn hpc)
    · rcases (hE128 q).mp hq with hqc | rfl
      · exact Relation.ReflTransGen.trans hnext_conn
          (hconn_base _ q hnextIn hqc)
      · exact Relation.ReflTransGen.refl
  · -- passage count
    rw [hpcE, hpc1, hninE, hnin1]
    omega
  · -- nonzero cells are rooms
    intro p hpnz
    rcases PrimExpand_cases Size (fr.getD idx (0, 0)).1 (fr.getD idx (0, 0)).2
      (carveCells g (fr.getD idx (0, 0)).1 (fr.getD idx (0, 0)).2 d)
      (fr.eraseIdx idx) p with ⟨hv, -⟩ | ⟨hpc, -⟩ | ⟨-, hin, -, -, -⟩
    · rw [hv] at hpnz
      apply hroom
      intro hz
      exact hpnz ((carve_zero_iff g _ _ d hd hCne0 hnext_ne0 p).mpr hz)
    · rw [hpc]
      exact hCin
    · exact hin
  · -- measure decrease
    have hS : ∀ p ∈ (PrimExpandFrontierFrom Size (fr.getD idx (0, 0)).1
        (fr.getD idx (0, 0)).2
        (carveCells g (fr.getD idx (0, 0)).1 (fr.getD idx (0, 0)).2 d)
        (fr.eraseIdx idx)).2.toFinset \ (fr.eraseIdx idx).toFinset,
        inRoom Size p ∧
        carveCells g (fr.getD idx (0, 0)).1 (fr.getD idx (0, 0)).2 d p = 0 ∧
        (PrimExpandFrontierFrom Size (fr.getD idx (0, 0)).1
          (fr.getD idx (0, 0)).2
          (carveCells g (fr.getD idx (0, 0)).1 (fr.getD idx (0, 0)).2 d)
          (fr.eraseIdx idx)).1 p ≠ 0 := by
      intro p hp
      rw [Finset.mem_sdiff, List.mem_toFinset, List.mem_toFinset] at hp
      obtain ⟨hpe, hpnot⟩ := hp
      rcases (hmD p).mp hpe with hp1 | ⟨dd, hdd, hpd, hpin, hpz⟩
      · exact absurd hp1 hpnot
      · exact ⟨hpin, hpz, hEnz p hpe⟩
    have hdropE := zeroCount_drop Size
      (carveCells g (fr.getD idx (0, 0)).1 (fr.getD idx (0, 0)).2 d)
      (PrimExpandFrontierFrom Size (fr.getD idx (0, 0)).1
        (fr.getD idx (0, 0)).2
        (carveCells g (fr.getD idx (0, 0)).1 (fr.getD idx (0, 0)).2 d)
        (fr.eraseIdx idx)).1 hEmono _ hS
    have hlenE : (PrimExpandFrontierFrom Size (fr.getD idx (0, 0)).1
        (fr.getD idx (0, 0)).2
        (carveCells g (fr.getD idx (0, 0)).1 (fr.getD idx (0, 0)).2 d)
        (fr.eraseIdx idx)).2.length ≤
        (fr.eraseIdx idx).length +
        ((PrimExpandFrontierFrom Size (fr.getD idx (0, 0)).1
          (fr.getD idx (0, 0)).2
          (carveCells g (fr.getD idx (0, 0)).1 (fr.getD idx (0, 0)).2 d)
          (fr.eraseIdx idx)).2.toFinset \ (fr.eraseIdx idx).toFinset).card := by
      rw [← List.toFinset_card_of_nodup hEnodup]
      calc (PrimExpandFrontierFrom Size (fr.getD idx (0, 0)).1
          (fr.getD idx (0, 0)).2
          (carveCells g (fr.getD idx (0, 0)).1 (fr.getD idx (0, 0)).2 d)
          (fr.eraseIdx idx)).2.toFinset.card
          ≤ ((PrimExpandFrontierFrom Size (fr.getD idx (0, 0)).1
            (fr.getD idx (0, 0)).2
            (carveCells g (fr.getD idx (0, 0)).1 (fr.getD idx (0, 0)).2 d)
            (fr.eraseIdx idx)).2.toFinset \ (fr.eraseIdx idx).toFinset).card +
            (fr.eraseIdx idx).toFinset.card :=
            Finset.card_le_card_sdiff_add_card
        _ ≤ _ := by
            have := (fr.eraseIdx idx).toFinset_card_le
            omega
    rw [hzc1] at hdropE
    omega

lemma PrimLoop_spec (Size : FIntPoint) :
    ∀ (fuel : ℕ) (g : ByteGrid) (fr : List FIntPoint) (rng : FRandomStream),
      PrimInv Size g fr →
      2 * zeroCount Size g + fr.length + 1 ≤ fuel →
      PrimInv Size (PrimLoop Size fuel g fr rng).1 [] := by
  intro fuel
  induction fuel with
  | zero =>
    intro g fr rng hinv hfuel
    exact absurd hfuel (by omega)
  | succ fuel ih =>
    intro g fr rng hinv hfuel
    rw [PrimLoop_succ]
    by_cases hlen : fr.length > 0
    · rw [if_pos hlen]
      have hidx : (RandRange rng 0 ((fr.length : ℤ) - 1)).1.toNat <
          fr.length := by
        have hb := RandRange_bounds rng 0 ((fr.length : ℤ) - 1) (by omega)
        omega
      obtain ⟨hinv2, hmeas⟩ := PrimIter_inv Size g fr _ hidx
        (RandRange rng 0 ((fr.length : ℤ) - 1)).2 hinv
      exact ih _ _ _ hinv2 (by omega)
    · rw [if_neg hlen]
      have hfr : fr = [] := List.length_eq_zero.mp (by omega)
      subst hfr
      exact hinv

lemma passageCount_eq_zero (Size : FIntPoint) (g : ByteGrid)
    (h : ∀ p dd, ¬hasDir g p dd) : passageCount Size g = 0 := by
  rw [passageCount, Finset.card_eq_zero, Finset.eq_empty_iff_forall_not_mem]
  intro pd hpd
  rw [Finset.mem_filter] at hpd
  exact h _ _ hpd.2.1

lemma nIn_zeroGrid (Size : FIntPoint) : nIn Size CreateZeroedGrid = 0 := by
  rw [nIn, Finset.card_eq_zero, Finset.eq_empty_iff_forall_not_mem]
  intro p hp
  rw [Finset.mem_filter] at hp
  exact hp.2 (by decide : (0 : ℕ) &&& 128 = 0)

lemma Prim_entry_inv (Size : FIntPoint) (SX SY : ℤ)
    (hin : inRoom Size (SX, SY)) :
    PrimInv Size (PrimExpandFrontierFrom Size SX SY CreateZeroedGrid []).1
      (PrimExpandFrontierFrom Size SX SY CreateZeroedGrid []).2 := by
  obtain ⟨hmA, hmB, hmC, hmD, hmE⟩ :=
    PrimExpand_final Size SX SY CreateZeroedGrid []
  obtain ⟨hEnodup, hEnz⟩ := hmE (fun p hp => absurd hp (List.not_mem_nil _))
    List.nodup_nil
  have hE128 : ∀ p, (PrimExpandFrontierFrom Size SX SY
      CreateZeroedGrid []).1 p &&& 128 ≠ 0 ↔ p = ((SX, SY) : FIntPoint) := by
    intro p
    rcases PrimExpand_cases Size SX SY CreateZeroedGrid [] p with
      ⟨hv, hpne⟩ | ⟨hp, hv⟩ | ⟨hz, -, hv, -, hex⟩
    · rw [hv]
      constructor
      · intro h
        exact absurd (by decide : (0 : ℕ) &&& 128 = 0) h
      · intro h
        exact absurd h hpne
    · rw [hv, and_lor_ne_zero]
      constructor
      · intro _
        exact hp
      · intro _
        exact Or.inr (by decide)
    · rw [hv]
      obtain ⟨dd, hdd, hpd⟩ := hex
      constructor
      · intro h
        exact absurd rfl h
      · intro h
        exfalso
        rw [h] at hpd
        exact carve_next_ne_cur _ _ dd hdd hpd.symm
  have hdir0 : ∀ p dd, ¬hasDir (PrimExpandFrontierFrom Size SX SY
      CreateZeroedGrid []).1 p dd := by
    intro p dd
    rcases PrimExpand_cases Size SX SY CreateZeroedGrid [] p with
      ⟨hv, -⟩ | ⟨-, hv⟩ | ⟨-, -, hv, -, -⟩
    · intro h
      apply h
      rw [hv]
      show CreateZeroedGrid p &&& dirByte dd = 0
      have h1 : CreateZeroedGrid p = 0 := rfl
      rw [h1, Nat.zero_and]
    · intro h
      apply h
      rw [hv]
      show (CreateZeroedGrid p ||| 128) &&& dirByte dd = 0
      have h1 : CreateZeroedGrid p = 0 := rfl
      rw [h1]
      cases dd <;> decide
    · intro h
      apply h
      rw [hv]
      exact hasDir_byte64 dd
  have hpcE : passageCount Size (PrimExpandFrontierFrom Size SX SY
      CreateZeroedGrid []).1 = 0 := passageCount_eq_zero Size _ hdir0
  have hninE : nIn Size (PrimExpandFrontierFrom Size SX SY
      CreateZeroedGrid []).1 = 1 := by
    have h128 : ∀ p, (PrimExpandFrontierFrom Size SX SY
        CreateZeroedGrid []).1 p &&& 128 ≠ 0 ↔
        (CreateZeroedGrid p &&& 128 ≠ 0 ∨ p = ((SX, SY) : FIntPoint)) := by
      intro p
      rw [hE128 p]
      constructor
      · exact Or.inr
      · rintro (h | h)
        · exact absurd (by decide : (0 : ℕ) &&& 128 = 0) h
        · exact h
    rw [nIn_insert Size _ _ _ h128 (by decide : (0 : ℕ) &&& 128 = 0)
      ((mem_roomsFinset Size _).mpr hin), nIn_zeroGrid]
  refine ⟨?_, hEnodup, ?_, ?_, ?_, ?_, ?_, ?_, ?_⟩
  · intro p d h
    exact absurd h (hdir0 p d)
  · intro p hp
    rcases (hmD p).mp hp with hp1 | ⟨dd, hdd, hpd, hpin, hpz⟩
    · exact absurd hp1 (List.not_mem_nil _)
    · have hddne : dd ≠ EMazeDirection.NoDir := by
        intro hcon
        rw [hcon] at hdd
        exact absurd hdd (by decide)
      refine ⟨hpin, ?_⟩
      obtain ⟨hv, -⟩ := (hmC dd hdd).1 (hpd ▸ hpin) (hpd ▸ hpz)
      rw [hpd]
      exact hv
  · intro p hp
    rcases (hmD p).mp hp with hp1 | ⟨dd, hdd, hpd, hpin, hpz⟩
    · exact absurd hp1 (List.not_mem_nil _)
    · have hddne : dd ≠ EMazeDirection.NoDir := by
        intro hcon
        rw [hcon] at hdd
        exact absurd hdd (by decide)
      refine ⟨GetOppositeDirection dd,
        GetOppositeDirection_ne_noDir dd hddne, ?_, ?_⟩
      · have hco : ((p.1 + (dirDelta (GetOppositeDirection dd)).1,
            p.2 + (dirDelta (GetOppositeDirection dd)).2) : FIntPoint) =
            (SX, SY) := by
          rw [dirDelta_opp, hpd]
          rw [Prod.mk.injEq]
          dsimp only
          constructor <;> ring
        rw [hco]
        exact hin
      · have hco : ((p.1 + (dirDelta (GetOppositeDirection dd)).1,
            p.2 + (dirDelta (GetOppositeDirection dd)).2) : FIntPoint) =
            (SX, SY) := by
          rw [dirDelta_opp, hpd]
          rw [Prod.mk.injEq]
          dsimp only
          constructor <;> ring
        rw [hco]
        exact (hE128 _).mpr rfl
  · intro p hpIn dd hdd hddin
    have hpc := (hE128 p).mp hpIn
    subst hpc
    have hddin2 : inRoom Size (SX + (dirDelta dd).1, SY + (dirDelta dd).2) :=
      hddin
    show (PrimExpandFrontierFrom Size SX SY CreateZeroedGrid []).1
      (SX + (dirDelta dd).1, SY + (dirDelta dd).2) ≠ 0
    obtain ⟨hv, -⟩ := (hmC dd (mem_four_dirs dd hdd)).1 hddin2 rfl
    rw [hv]
    decide
  · intro p hpin hpnz
    rcases PrimExpand_cases Size SX SY CreateZeroedGrid [] p with
      ⟨hv, -⟩ | ⟨hpc, -⟩ | ⟨-, -, -, hm, -⟩
    · rw [hv] at hpnz
      exact absurd rfl hpnz
    · exact Or.inl ((hE128 p).mpr hpc)
    · exact Or.inr hm
  · intro p q hp hq
    rw [(hE128 p).mp hp, (hE128 q).mp hq]
    exact Relation.ReflTransGen.refl
  · rw [hpcE, hninE]
  · intro p hpnz
    rcases PrimExpand_cases Size SX SY CreateZeroedGrid [] p with
      ⟨hv, -⟩ | ⟨hpc, -⟩ | ⟨-, hin2, -, -, -⟩
    · rw [hv] at hpnz
      exact absurd rfl hpnz
    · rw [hpc]
      exact hin
    · exact hin2

lemma Prims_grid_spec (Size : FIntPoint) (rng : FRandomStream)
    (hx : 1 ≤ Size.1) (hy : 1 ≤ Size.2) :
    DirGridOK Size (GeneratePrims Size rng).1 ∧
    passageCount Size (GeneratePrims Size rng).1 =
      (Size.1 * Size.2).toNat - 1 ∧
    ∀ p q, inRoom Size p → inRoom Size q →
      RoomConn (GeneratePrims Size rng).1 p q := by
  have hG : (GeneratePrims Size rng).1 =
      (PrimLoop Size (2 * (Size.1 * Size.2).toNat + 5)
        (PrimExpandFrontierFrom Size (RandRange rng 0 (Size.1 - 1)).1
          (RandRange (RandRange rng 0 (Size.1 - 1)).2 0 (Size.2 - 1)).1
          CreateZeroedGrid []).1
        (PrimExpandFrontierFrom Size (RandRange rng 0 (Size.1 - 1)).1
          (RandRange (RandRange rng 0 (Size.1 - 1)).2 0 (Size.2 - 1)).1
          CreateZeroedGrid []).2
        (RandRange (RandRange rng 0 (Size.1 - 1)).2 0 (Size.2 - 1)).2).1 :=
    rfl
  rw [hG]
  have hb1 := RandRange_bounds rng 0 (Size.1 - 1) (by omega)
  have hb2 := RandRange_bounds (RandRange rng 0 (Size.1 - 1)).2 0
    (Size.2 - 1) (by omega)
  have hstart : inRoom Size ((RandRange rng 0 (Size.1 - 1)).1,
      (RandRange (RandRange rng 0 (Size.1 - 1)).2 0 (Size.2 - 1)).1) := by
    unfold inRoom
    dsimp only
    omega
  have hentry := Prim_entry_inv Size (RandRange rng 0 (Size.1 - 1)).1
    (RandRange (RandRange rng 0 (Size.1 - 1)).2 0 (Size.2 - 1)).1 hstart
  have hmeas := PrimExpandFrontierFrom_measure Size
    (RandRange rng 0 (Size.1 - 1)).1
    (RandRange (RandRange rng 0 (Size.1 - 1)).2 0 (Size.2 - 1)).1
    CreateZeroedGrid []
  have hzc0 : zeroCount Size CreateZeroedGrid = (Size.1 * Size.2).toNat := by
    rw [zeroCount_zeroGrid, roomsFinset_card Size (by omega) (by omega)]
  have hfin := PrimLoop_spec Size (2 * (Size.1 * Size.2).toNat + 5) _ _
    (RandRange (RandRange rng 0 (Size.1 - 1)).2 0 (Size.2 - 1)).2 hentry
    (by
      simp only [List.length_nil] at hmeas
      omega)
  obtain ⟨hOK, -, -, -, hI8, hI9, hI10, hcount, hroom⟩ := hfin
  have hcIn : ∃ c, c ∈ roomsFinset Size ∧
      (PrimLoop Size (2 * (Size.1 * Size.2).toNat + 5)
        (PrimExpandFrontierFrom Size (RandRange rng 0 (Size.1 - 1)).1
          (RandRange (RandRange rng 0 (Size.1 - 1)).2 0 (Size.2 - 1)).1
          CreateZeroedGrid []).1
        (PrimExpandFrontierFrom Size (RandRange rng 0 (Size.1 - 1)).1
          (RandRange (RandRange rng 0 (Size.1 - 1)).2 0 (Size.2 - 1)).1
          CreateZeroedGrid []).2
        (RandRange (RandRange rng 0 (Size.1 - 1)).2 0 (Size.2 - 1)).2).1 c
        &&& 128 ≠ 0 := by
    have hpos : 0 < nIn Size (PrimLoop Size (2 * (Size.1 * Size.2).toNat + 5)
        (PrimExpandFrontierFrom Size (RandRange rng 0 (Size.1 - 1)).1
          (RandRange (RandRange rng 0 (Size.1 - 1)).2 0 (Size.2 - 1)).1
          CreateZeroedGrid []).1
        (PrimExpandFrontierFrom Size (RandRange rng 0 (Size.1 - 1)).1
          (RandRange (RandRange rng 0 (Size.1 - 1)).2 0 (Size.2 - 1)).1
          CreateZeroedGrid []).2
        (RandRange (RandRange rng 0 (Size.1 - 1)).2 0 (Size.2 - 1)).2).1 := by
      omega
    rw [nIn, Finset.card_pos] at hpos
    obtain ⟨c, hc⟩ := hpos
    rw [Finset.mem_filter] at hc
    exact ⟨c, hc.1, hc.2⟩
  obtain ⟨c, hcmem, hcbit⟩ := hcIn
  have hallIn : ∀ p, inRoom Size p →
      (PrimLoop Size (2 * (Size.1 * Size.2).toNat + 5)
        (PrimExpandFrontierFrom Size (RandRange rng 0 (Size.1 - 1)).1
          (RandRange (RandRange rng 0 (Size.1 - 1)).2 0 (Size.2 - 1)).1
          CreateZeroedGrid []).1
        (PrimExpandFrontierFrom Size (RandRange rng 0 (Size.1 - 1)).1
          (RandRange (RandRange rng 0 (Size.1 - 1)).2 0 (Size.2 - 1)).1
          CreateZeroedGrid []).2
        (RandRange (RandRange rng 0 (Size.1 - 1)).2 0 (Size.2 - 1)).2).1 p
        &&& 128 ≠ 0 := by
    refine grid_path_induction Size _ c ((mem_roomsFinset Size c).mp hcmem)
      hcbit ?_
    intro p hpin hpP dd hdd hnbin
    have hnz := hI8 p hpP dd hdd hnbin
    rcases hI9 _ hnbin hnz with hIn | hfr
    · exact hIn
    · exact absurd hfr (List.not_mem_nil _)
  have hninfull : nIn Size (PrimLoop Size (2 * (Size.1 * Size.2).toNat + 5)
      (PrimExpandFrontierFrom Size (RandRange rng 0 (Size.1 - 1)).1
        (RandRange (RandRange rng 0 (Size.1 - 1)).2 0 (Size.2 - 1)).1
        CreateZeroedGrid []).1
      (PrimExpandFrontierFrom Size (RandRange rng 0 (Size.1 - 1)).1
        (RandRange (RandRange rng 0 (Size.1 - 1)).2 0 (Size.2 - 1)).1
        CreateZeroedGrid []).2
      (RandRange (RandRange rng 0 (Size.1 - 1)).2 0 (Size.2 - 1)).2).1 =
      (Size.1 * Size.2).toNat := by
    rw [nIn]
    rw [Finset.filter_true_of_mem
      (fun p hp => hallIn p ((mem_roomsFinset Size p).mp hp))]
    exact roomsFinset_card Size (by omega) (by omega)
  refine ⟨hOK, ?_, ?_⟩
  · rw [hninfull] at hcount
    have hwh : 1 ≤ Size.1 * Size.2 := by
      have := mul_pos (show (0 : ℤ) < Size.1 by omega)
        (show (0 : ℤ) < Size.2 by omega)
      omega
    omega
  · intro p q hp hq
    exact hI10 p q (hallIn p hp) (hallIn q hq)

/-- One parent-pointer step of the disjoint-set forest. -/
def KParent (S : FIntPoint → Option FIntPoint) (a b : FIntPoint) : Prop :=
  S a = some b

/-- Reachability along parent pointers. -/
def KReaches (S : FIntPoint → Option FIntPoint) : FIntPoint → FIntPoint → Prop :=
  Relation.ReflTransGen (KParent S)

/-- Two cells lie in the same set: they reach a common root. -/
def SameRoot (S : FIntPoint → Option FIntPoint) (p q : FIntPoint) : Prop :=
  ∃ r, KReaches S p r ∧ KReaches S q r ∧ S r = none

/-- A maximal parent chain: consecutive parent steps ending in a root. -/
def ParentChain (S : FIntPoint → Option FIntPoint) : List FIntPoint → Prop
  | [] => False
  | [r] => S r = none
  | a :: b :: t => S a = some b ∧ ParentChain S (b :: t)

/-- Rooms that are still roots of their own set. -/
def numRoots (Size : FIntPoint) (S : FIntPoint → Option FIntPoint) : ℕ :=
  ((roomsFinset Size).filter (fun p => S p = none)).card

lemma ParentChain_ne_nil (S : FIntPoint → Option FIntPoint)
    (L : List FIntPoint) (h : ParentChain S L) : L ≠ [] := by
  intro hcon
  rw [hcon] at h
  exact h

lemma ParentChain_getLast_root (S : FIntPoint → Option FIntPoint) :
    ∀ (L : List FIntPoint), ParentChain S L → ∀ (h : L ≠ []),
      S (L.getLast h) = none := by
  intro L
  induction L with
  | nil => intro h; exact absurd rfl (ParentChain_ne_nil S [] h)
  | cons a t ih =>
    intro h hne
    cases t with
    | nil => exact h
    | cons b t2 =>
      rw [List.getLast_cons (by simp : b :: t2 ≠ [])]
      exact ih h.2 (by simp)

lemma ParentChain_mem_reaches (S : FIntPoint → Option FIntPoint) :
    ∀ (L : List FIntPoint), ParentChain S L → ∀ (h : L ≠ []),
      ∀ p ∈ L, KReaches S p (L.getLast h) := by
  intro L
  induction L with
  | nil => intro h; exact absurd rfl (ParentChain_ne_nil S [] h)
  | cons a t ih =>
    intro h hne p hp
    cases t with
    | nil =>
      rcases List.mem_singleton.mp hp with rfl
      exact Relation.ReflTransGen.refl
    | cons b t2 =>
      rw [List.getLast_cons (by simp : b :: t2 ≠ [])]
      rcases List.mem_cons.mp hp with rfl | hp2
      · refine Relation.ReflTransGen.head h.1 ?_
        exact ih h.2 (by simp) b (List.mem_cons_self _ _)
      · exact ih h.2 (by simp) p hp2

lemma ParentChain_mem_rooms (Size : FIntPoint)
    (S : FIntPoint → Option FIntPoint)
    (hdom : ∀ p q, S p = some q → inRoom Size p ∧ inRoom Size q) :
    ∀ (L : List FIntPoint), ParentChain S L →
      ∀ (hh : L ≠ []), inRoom Size (L.head hh) → ∀ p ∈ L, inRoom Size p := by
  intro L
  induction L with
  | nil => intro h; exact absurd rfl (ParentChain_ne_nil S [] h)
  | cons a t ih =>
    intro h hh hhead p hp
    cases t with
    | nil =>
      rcases List.mem_singleton.mp hp with rfl
      exact hhead
    | cons b t2 =>
      rcases List.mem_cons.mp hp with rfl | hp2
      · exact hhead
      · exact ih h.2 (by simp) (hdom a b h.1).2 p hp2

lemma chain_length_bound (Size : FIntPoint) (L : List FIntPoint)
    (hnd : L.Nodup) (hrooms : ∀ p ∈ L, inRoom Size p) :
    L.length ≤ (roomsFinset Size).card := by
  rw [← List.toFinset_card_of_nodup hnd]
  apply Finset.card_le_card
  intro p hp
  rw [List.mem_toFinset] at hp
  exact (mem_roomsFinset Size p).mpr (hrooms p hp)

lemma KruskalGetRoot_chain (S : FIntPoint → Option FIntPoint) :
    ∀ (L : List FIntPoint) (F : ℕ) (p : FIntPoint), ParentChain S L →
      L.head? = some p → L.length ≤ F + 1 →
      ∀ (h : L ≠ []), KruskalGetRoot S F p = L.getLast h := by
  intro L
  induction L with
  | nil => intro F p h; exact absurd rfl (ParentChain_ne_nil S [] h)
  | cons a t ih =>
    intro F p h hhead hlen hne
    rw [List.head?_cons, Option.some.injEq] at hhead
    subst hhead
    cases t with
    | nil =>
      cases F with
      | zero => rfl
      | succ F2 =>
        show (match S a with
          | none => a
          | some q => KruskalGetRoot S F2 q) = a
        rw [h]
    | cons b t2 =>
      cases F with
      | zero =>
        exfalso
        simp only [List.length_cons] at hlen
        omega
      | succ F2 =>
        rw [List.getLast_cons (by simp : b :: t2 ≠ [])]
        have hstep : KruskalGetRoot S (F2 + 1) a =
            KruskalGetRoot S F2 b := by
          show (match S a with
            | none => a
            | some q => KruskalGetRoot S F2 q) = _
          rw [h.1]
        rw [hstep]
        refine ih F2 b h.2 rfl ?_ (by simp)
        simp only [List.length_cons] at hlen ⊢
        omega

lemma KReaches_root_unique (S : FIntPoint → Option FIntPoint)
    (p r1 r2 : FIntPoint) (h1 : KReaches S p r1) (hr1 : S r1 = none)
    (h2 : KReaches S p r2) (hr2 : S r2 = none) : r1 = r2 := by
  induction h1 using Relation.ReflTransGen.head_induction_on with
  | refl =>
    rcases Relation.ReflTransGen.cases_head h2 with heq | ⟨c, hc, -⟩
    · exact heq
    · rw [KParent] at hc
      rw [hr1] at hc
      exact absurd hc (by simp)
  | head hab htail ih =>
    rename_i a b
    rcases Relation.ReflTransGen.cases_head h2 with heq | ⟨c, hc, hc2⟩
    · subst heq
      rw [KParent] at hab
      rw [hr2] at hab
      exact absurd hab (by simp)
    · rw [KParent] at hab hc
      rw [hab, Option.some.injEq] at hc
      subst hc
      exact ih hc2

lemma SameRoot_symm (S : FIntPoint → Option FIntPoint) (p q : FIntPoint)
    (h : SameRoot S p q) : SameRoot S q p := by
  obtain ⟨r, h1, h2, h3⟩ := h
  exact ⟨r, h2, h1, h3⟩

lemma SameRoot_trans (S : FIntPoint → Option FIntPoint) (p q s : FIntPoint)
    (h1 : SameRoot S p q) (h2 : SameRoot S q s) : SameRoot S p s := by
  obtain ⟨r, ha, hb, hc⟩ := h1
  obtain ⟨r2, hd, he, hf⟩ := h2
  have : r = r2 := KReaches_root_unique S q r r2 hb hc hd hf
  subst this
  exact ⟨r, ha, he, hc⟩

lemma KReaches_update_pres (S : FIntPoint → Option FIntPoint)
    (r2 cur : FIntPoint) (hr2 : S r2 = none) (p r : FIntPoint)
    (h : KReaches S p r) :
    KReaches (fun x => if x = r2 then some cur else S x) p r := by
  induction h using Relation.ReflTransGen.head_induction_on with
  | refl => exact Relation.ReflTransGen.refl
  | head hab htail ih =>
    rename_i a b
    have ha : a ≠ r2 := by
      intro hcon
      rw [KParent, hcon, hr2] at hab
      exact absurd hab (by simp)
    refine Relation.ReflTransGen.head ?_ ih
    show (if a = r2 then some cur else S a) = some b
    rw [if_neg ha]
    exact hab

lemma KReaches_update_inv (S : FIntPoint → Option FIntPoint)
    (r2 cur : FIntPoint) (p r : FIntPoint)
    (h : KReaches (fun x => if x = r2 then some cur else S x) p r) :
    KReaches S p r ∨ (KReaches S p r2 ∧ KReaches S cur r) := by
  induction h using Relation.ReflTransGen.head_induction_on with
  | refl => exact Or.inl Relation.ReflTransGen.refl
  | head hab htail ih =>
    rename_i a b
    by_cases ha : a = r2
    · rw [KParent] at hab
      rw [if_pos ha] at hab
      rw [Option.some.injEq] at hab
      subst hab
      subst ha
      rcases ih with hl | ⟨h1, h2⟩
      · exact Or.inr ⟨Relation.ReflTransGen.refl, hl⟩
      · exact Or.inr ⟨Relation.ReflTransGen.refl, h2⟩
    · rw [KParent] at hab
      rw [if_neg ha] at hab
      rcases ih with hl | ⟨h1, h2⟩
      · exact Or.inl (Relation.ReflTransGen.head hab hl)
      · exact Or.inr ⟨Relation.ReflTransGen.head hab h1, h2⟩

lemma ParentChain_congr (S S2 : FIntPoint → Option FIntPoint) :
    ∀ L : List FIntPoint, (∀ a ∈ L, S2 a = S a) → ParentChain S L →
      ParentChain S2 L := by
  intro L
  induction L with
  | nil =>
    intro _ h
    exact absurd rfl (ParentChain_ne_nil S [] h)
  | cons a t ih =>
    intro heq h
    cases t with
    | nil =>
      show S2 a = none
      rw [heq a (List.mem_singleton.mpr rfl)]
      exact h
    | cons b t2 =>
      refine ⟨?_, ih (fun x hx => heq x (List.mem_cons_of_mem _ hx)) h.2⟩
      rw [heq a (List.mem_cons_self _ _)]
      exact h.1

lemma ParentChain_elem_ne (S : FIntPoint → Option FIntPoint)
    (L : List FIntPoint) (hL : ParentChain S L) (hne : L ≠ [])
    (r2 : FIntPoint) (hr2 : S r2 = none) (hlast : L.getLast hne ≠ r2) :
    ∀ a ∈ L, a ≠ r2 := by
  intro a ha hcon
  subst hcon
  have hreach := ParentChain_mem_reaches S L hL hne a ha
  rcases Relation.ReflTransGen.cases_head hreach with heq | ⟨c, hc, -⟩
  · exact hlast heq.symm
  · rw [KParent, hr2] at hc
    exact absurd hc (by simp)

lemma ParentChain_append_link (S : FIntPoint → Option FIntPoint)
    (r2 cur : FIntPoint) (hr2 : S r2 = none) :
    ∀ (L M : List FIntPoint), ParentChain S L →
      (∀ (h : L ≠ []), L.getLast h = r2) →
      ParentChain (fun x => if x = r2 then some cur else S x) M →
      M.head? = some cur →
      ParentChain (fun x => if x = r2 then some cur else S x) (L ++ M) := by
  intro L
  induction L with
  | nil =>
    intro M h
    exact absurd rfl (ParentChain_ne_nil S [] h)
  | cons a t ih =>
    intro M hL hlast hM hMhead
    cases t with
    | nil =>
      have ha : a = r2 := hlast (by simp)
      cases M with
      | nil => exact absurd rfl (ParentChain_ne_nil _ [] hM)
      | cons c t2 =>
        rw [List.head?_cons, Option.some.injEq] at hMhead
        refine ⟨?_, hM⟩
        show (if a = r2 then some cur else S a) = some c
        rw [if_pos ha, hMhead]
    | cons b t2 =>
      have hstep : S a = some b := hL.1
      have ha : a ≠ r2 := by
        intro hcon
        rw [hcon, hr2] at hstep
        exact absurd hstep (by simp)
      have hlast2 : ∀ (h : b :: t2 ≠ []), (b :: t2).getLast h = r2 := by
        intro h
        have := hlast (by simp)
        rw [List.getLast_cons h] at this
        exact this
      refine ⟨?_, ih M hL.2 hlast2 hM hMhead⟩
      show (if a = r2 then some cur else S a) = some b
      rw [if_neg ha]
      exact hstep

lemma numRoots_update (Size : FIntPoint) (S : FIntPoint → Option FIntPoint)
    (r2 cur : FIntPoint) (hr2 : S r2 = none)
    (hr2in : r2 ∈ roomsFinset Size) :
    numRoots Size S =
      numRoots Size (fun x => if x = r2 then some cur else S x) + 1 := by
  unfold numRoots
  have hfil : (roomsFinset Size).filter
      (fun p => (if p = r2 then some cur else S p) = none) =
      ((roomsFinset Size).filter (fun p => S p = none)).erase r2 := by
    ext p
    rw [Finset.mem_erase, Finset.mem_filter, Finset.mem_filter]
    constructor
    · rintro ⟨hm, hp⟩
      by_cases hpr : p = r2
      · rw [if_pos hpr] at hp
        exact absurd hp (by simp)
      · rw [if_neg hpr] at hp
        exact ⟨hpr, hm, hp⟩
    · rintro ⟨hpr, hm, hp⟩
      refine ⟨hm, ?_⟩
      rw [if_neg hpr]
      exact hp
  rw [hfil, Finset.card_erase_of_mem
    (Finset.mem_filter.mpr ⟨hr2in, hr2⟩)]
  have hpos : 0 < ((roomsFinset Size).filter (fun p => S p = none)).card :=
    Finset.card_pos.mpr ⟨r2, Finset.mem_filter.mpr ⟨hr2in, hr2⟩⟩
  omega

/-- Loop invariant of GenerateKruskals over the disjoint-set state and
the carved grid. -/
def KInv (Size : FIntPoint) (g : ByteGrid)
    (S : FIntPoint → Option FIntPoint) : Prop :=
  DirGridOK Size g ∧
  (∀ p q, S p = some q → inRoom Size p ∧ inRoom Size q) ∧
  (∀ p, inRoom Size p → ∃ L, ParentChain S L ∧ L.head? = some p ∧ L.Nodup) ∧
  (∀ p q, inRoom Size p → inRoom Size q →
    (SameRoot S p q ↔ RoomConn g p q)) ∧
  (passageCount Size g + numRoots Size S = (roomsFinset Size).card)

lemma KInv_getRoot (Size : FIntPoint) (S : FIntPoint → Option FIntPoint)
    (F : ℕ) (hdom : ∀ p q, S p = some q → inRoom Size p ∧ inRoom Size q)
    (p : FIntPoint)
    (hch : ∃ L, ParentChain S L ∧ L.head? = some p ∧ L.Nodup)
    (hp : inRoom Size p) (hF : (roomsFinset Size).card ≤ F + 1) :
    KReaches S p (KruskalGetRoot S F p) ∧
      S (KruskalGetRoot S F p) = none ∧
      inRoom Size (KruskalGetRoot S F p) := by
  obtain ⟨L, hL, hhead, hnd⟩ := hch
  cases L with
  | nil => exact absurd rfl (ParentChain_ne_nil S [] hL)
  | cons a t =>
    rw [List.head?_cons, Option.some.injEq] at hhead
    subst hhead
    have hne : a :: t ≠ [] := by simp
    have hrooms : ∀ x ∈ a :: t, inRoom Size x :=
      ParentChain_mem_rooms Size S hdom (a :: t) hL hne hp
    have hlen : (a :: t).length ≤ F + 1 :=
      le_trans (chain_length_bound Size (a :: t) hnd hrooms) hF
    have hroot := KruskalGetRoot_chain S (a :: t) F a hL rfl hlen hne
    rw [hroot]
    exact ⟨ParentChain_mem_reaches S (a :: t) hL hne a (List.mem_cons_self a t),
      ParentChain_getLast_root S (a :: t) hL hne,
      hrooms _ (List.getLast_mem hne)⟩

lemma SameRoot_update (S : FIntPoint → Option FIntPoint)
    (r2 cur rcur : FIntPoint) (hr2 : S r2 = none)
    (hcur : KReaches S cur rcur) (hrcur : S rcur = none)
    (hne : rcur ≠ r2) (p q : FIntPoint) (h : SameRoot S p q) :
    SameRoot (fun x => if x = r2 then some cur else S x) p q := by
  obtain ⟨r, h1, h2, h3⟩ := h
  by_cases hrr : r = r2
  · rw [hrr] at h1 h2
    refine ⟨rcur, ?_, ?_, ?_⟩
    · refine Relation.ReflTransGen.trans
        (KReaches_update_pres S r2 cur hr2 p r2 h1)
        (Relation.ReflTransGen.head ?_
          (KReaches_update_pres S r2 cur hr2 cur rcur hcur))
      show (if r2 = r2 then some cur else S r2) = some cur
      rw [if_pos rfl]
    · refine Relation.ReflTransGen.trans
        (KReaches_update_pres S r2 cur hr2 q r2 h2)
        (Relation.ReflTransGen.head ?_
          (KReaches_update_pres S r2 cur hr2 cur rcur hcur))
      show (if r2 = r2 then some cur else S r2) = some cur
      rw [if_pos rfl]
    · show (if rcur = r2 then some cur else S rcur) = none
      rw [if_neg hne]
      exact hrcur
  · refine ⟨r, KReaches_update_pres S r2 cur hr2 p r h1,
      KReaches_update_pres S r2 cur hr2 q r h2, ?_⟩
    show (if r = r2 then some cur else S r) = none
    rw [if_neg hrr]
    exact h3

lemma KruskalProcess_nil (F : ℕ) (g : ByteGrid)
    (S : FIntPoint → Option FIntPoint) :
    KruskalProcess F [] g S = (g, S) := rfl

lemma KruskalProcess_cons (F : ℕ) (Edge : FKruskalEdge)
    (rest : List FKruskalEdge) (g : ByteGrid)
    (S : FIntPoint → Option FIntPoint) :
    KruskalProcess F (Edge :: rest) g S =
      if KruskalGetRoot S F (Edge.X, Edge.Y) ≠
          KruskalGetRoot S F (Edge.X + (dirDelta Edge.Direction).1,
            Edge.Y + (dirDelta Edge.Direction).2) then
        KruskalProcess F rest (carveCells g Edge.X Edge.Y Edge.Direction)
          (fun p => if p = KruskalGetRoot S F
              (Edge.X + (dirDelta Edge.Direction).1,
                Edge.Y + (dirDelta Edge.Direction).2) then
            some (Edge.X, Edge.Y)
          else S p)
      else KruskalProcess F rest g S := rfl

/-- An edge candidate joining two in-range rooms through a real
direction, the shape of every entry of KruskalEdges. -/
def KEdgeOK (Size : FIntPoint) (e : FKruskalEdge) : Prop :=
  e.Direction ≠ EMazeDirection.NoDir ∧ inRoom Size (e.X, e.Y) ∧
    inRoom Size (e.X + (dirDelta e.Direction).1,
      e.Y + (dirDelta e.Direction).2)

lemma KruskalProcess_spec (Size : FIntPoint) (F : ℕ)
    (hF : (roomsFinset Size).card ≤ F + 1) :
    ∀ (edges : List FKruskalEdge) (g : ByteGrid)
      (S : FIntPoint → Option FIntPoint), KInv Size g S →
      (∀ e ∈ edges, KEdgeOK Size e) →
      KInv Size (KruskalProcess F edges g S).1
          (KruskalProcess F edges g S).2 ∧
        (∀ p d, hasDir g p d → hasDir (KruskalProcess F edges g S).1 p d) ∧
        (∀ e ∈ edges, RoomConn (KruskalProcess F edges g S).1 (e.X, e.Y)
          (e.X + (dirDelta e.Direction).1, e.Y + (dirDelta e.Direction).2)) := by
  intro edges
  induction edges with
  | nil =>
    intro g S hinv _
    rw [KruskalProcess_nil]
    exact ⟨hinv, fun p d h => h, fun e he => absurd he (List.not_mem_nil e)⟩
  | cons Edge rest ih =>
    intro g S hinv hval
    obtain ⟨hOK, hdom, hch, hiff, hcount⟩ := hinv
    obtain ⟨hEdir, hEcur, hEnbr⟩ := hval Edge (List.mem_cons_self _ _)
    have hrp := KInv_getRoot Size S F hdom (Edge.X, Edge.Y)
      (hch _ hEcur) hEcur hF
    have hrq := KInv_getRoot Size S F hdom
      (Edge.X + (dirDelta Edge.Direction).1, Edge.Y + (dirDelta Edge.Direction).2)
      (hch _ hEnbr) hEnbr hF
    rw [KruskalProcess_cons]
    by_cases hbr : KruskalGetRoot S F (Edge.X, Edge.Y) ≠
        KruskalGetRoot S F (Edge.X + (dirDelta Edge.Direction).1,
          Edge.Y + (dirDelta Edge.Direction).2)
    · rw [if_pos hbr]
      have hnsr : ¬ SameRoot S (Edge.X, Edge.Y)
          (Edge.X + (dirDelta Edge.Direction).1,
            Edge.Y + (dirDelta Edge.Direction).2) := by
        rintro ⟨r, h1, h2, h3⟩
        have e1 := KReaches_root_unique S (Edge.X, Edge.Y) _ r hrp.1 hrp.2.1 h1 h3
        have e2 := KReaches_root_unique S
          (Edge.X + (dirDelta Edge.Direction).1,
            Edge.Y + (dirDelta Edge.Direction).2) _ r hrq.1 hrq.2.1 h2 h3
        exact hbr (e1.trans e2.symm)
      have hnconn : ¬ RoomConn g (Edge.X, Edge.Y)
          (Edge.X + (dirDelta Edge.Direction).1,
            Edge.Y + (dirDelta Edge.Direction).2) :=
        fun hc => hnsr ((hiff _ _ hEcur hEnbr).mpr hc)
      have hnd1 : ¬ hasDir g (Edge.X, Edge.Y) Edge.Direction := by
        intro hd
        exact hnconn (Relation.ReflTransGen.single ⟨Edge.Direction, hd, rfl⟩)
      have hnd2 : ¬ hasDir g
          (Edge.X + (dirDelta Edge.Direction).1,
            Edge.Y + (dirDelta Edge.Direction).2)
          (GetOppositeDirection Edge.Direction) := by
        intro hd
        apply hnconn
        have hadj : RoomAdj g
            (Edge.X + (dirDelta Edge.Direction).1,
              Edge.Y + (dirDelta Edge.Direction).2) (Edge.X, Edge.Y) := by
          refine ⟨GetOppositeDirection Edge.Direction, hd, ?_⟩
          rw [dirDelta_opp]
          rw [Prod.mk.injEq]
          constructor <;> ring
        exact RoomConn_symm_of_OK Size g hOK _ _
          (Relation.ReflTransGen.single hadj)
      have hmonoc : ∀ (x : FIntPoint) (d : EMazeDirection), hasDir g x d →
          hasDir (carveCells g Edge.X Edge.Y Edge.Direction) x d :=
        fun x d hd =>
          (hasDir_carveCells g Edge.X Edge.Y Edge.Direction hEdir x d).mpr
            (Or.inl hd)
      have hOK2 : DirGridOK Size (carveCells g Edge.X Edge.Y Edge.Direction) :=
        DirGridOK_carve Size g Edge.X Edge.Y Edge.Direction hEdir hEcur hEnbr hOK
      have hpc2 : passageCount Size (carveCells g Edge.X Edge.Y Edge.Direction) =
          passageCount Size g + 1 :=
        passageCount_carve Size g Edge.X Edge.Y Edge.Direction hEdir
          ((mem_roomsFinset _ _).mpr hEcur) ((mem_roomsFinset _ _).mpr hEnbr)
          hnd1 hnd2
      have hnum : numRoots Size S = numRoots Size
          (fun p => if p = KruskalGetRoot S F
              (Edge.X + (dirDelta Edge.Direction).1,
                Edge.Y + (dirDelta Edge.Direction).2) then
            some (Edge.X, Edge.Y) else S p) + 1 :=
        numRoots_update Size S _ (Edge.X, Edge.Y) hrq.2.1
          ((mem_roomsFinset _ _).mpr hrq.2.2)
      have hdom2 : ∀ a b : FIntPoint,
          (if a = KruskalGetRoot S F
              (Edge.X + (dirDelta Edge.Direction).1,
                Edge.Y + (dirDelta Edge.Direction).2) then
            some (Edge.X, Edge.Y) else S a) = some b →
          inRoom Size a ∧ inRoom Size b := by
        intro a b hab
        by_cases ha : a = KruskalGetRoot S F
            (Edge.X + (dirDelta Edge.Direction).1,
              Edge.Y + (dirDelta Edge.Direction).2)
        · rw [if_pos ha, Option.some.injEq] at hab
          refine ⟨?_, ?_⟩
          · rw [ha]
            exact hrq.2.2
          · rw [← hab]
            exact hEcur
        · rw [if_neg ha] at hab
          exact hdom a b hab
      have hch2 : ∀ p2, inRoom Size p2 → ∃ L,
          ParentChain (fun x => if x = KruskalGetRoot S F
              (Edge.X + (dirDelta Edge.Direction).1,
                Edge.Y + (dirDelta Edge.Direction).2) then
            some (Edge.X, Edge.Y) else S x) L ∧
          L.head? = some p2 ∧ L.Nodup := by
        intro p2 hp2
        obtain ⟨L, hL, hhead, hnd⟩ := hch p2 hp2
        have hLne : L ≠ [] := ParentChain_ne_nil S L hL
        by_cases hLr : L.getLast hLne = KruskalGetRoot S F
            (Edge.X + (dirDelta Edge.Direction).1,
              Edge.Y + (dirDelta Edge.Direction).2)
        · obtain ⟨M, hM, hMhead, hMnd⟩ := hch (Edge.X, Edge.Y) hEcur
          have hMne : M ≠ [] := ParentChain_ne_nil S M hM
          have hMroot : S (M.getLast hMne) = none :=
            ParentChain_getLast_root S M hM hMne
          have hcurmem : (Edge.X, Edge.Y) ∈ M := by
            cases M with
            | nil => exact absurd rfl hMne
            | cons a t =>
              rw [List.head?_cons, Option.some.injEq] at hMhead
              exact hMhead ▸ List.mem_cons_self a t
          have hMlast : M.getLast hMne = KruskalGetRoot S F (Edge.X, Edge.Y) :=
            KReaches_root_unique S (Edge.X, Edge.Y) _ _
              (ParentChain_mem_reaches S M hM hMne _ hcurmem) hMroot
              hrp.1 hrp.2.1
          have hMne2 : ∀ a ∈ M, a ≠ KruskalGetRoot S F
              (Edge.X + (dirDelta Edge.Direction).1,
                Edge.Y + (dirDelta Edge.Direction).2) :=
            ParentChain_elem_ne S M hM hMne _ hrq.2.1
              (by rw [hMlast]; exact hbr)
          have hM2 : ParentChain (fun x => if x = KruskalGetRoot S F
              (Edge.X + (dirDelta Edge.Direction).1,
                Edge.Y + (dirDelta Edge.Direction).2) then
              some (Edge.X, Edge.Y) else S x) M := by
            refine ParentChain_congr S _ M (fun a ha => ?_) hM
            show (if a = KruskalGetRoot S F
                (Edge.X + (dirDelta Edge.Direction).1,
                  Edge.Y + (dirDelta Edge.Direction).2) then
              some (Edge.X, Edge.Y) else S a) = S a
            rw [if_neg (hMne2 a ha)]
          refine ⟨L ++ M, ParentChain_append_link S _ (Edge.X, Edge.Y)
            hrq.2.1 L M hL (fun _ => hLr) hM2 hMhead, ?_, ?_⟩
          · cases L with
            | nil => exact absurd rfl hLne
            | cons a t =>
              rw [List.head?_cons] at hhead
              show (a :: (t ++ M)).head? = some p2
              rw [List.head?_cons]
              exact hhead
          · rw [List.nodup_append]
            refine ⟨hnd, hMnd, ?_⟩
            intro a haL haM
            have h1 : KReaches S a (KruskalGetRoot S F
                (Edge.X + (dirDelta Edge.Direction).1,
                  Edge.Y + (dirDelta Edge.Direction).2)) := by
              rw [← hLr]
              exact ParentChain_mem_reaches S L hL hLne a haL
            have h2 : KReaches S a (KruskalGetRoot S F (Edge.X, Edge.Y)) := by
              rw [← hMlast]
              exact ParentChain_mem_reaches S M hM hMne a haM
            exact hbr (KReaches_root_unique S a _ _ h2 hrp.2.1 h1 hrq.2.1)
        · have hLne2 : ∀ a ∈ L, a ≠ KruskalGetRoot S F
              (Edge.X + (dirDelta Edge.Direction).1,
                Edge.Y + (dirDelta Edge.Direction).2) :=
            ParentChain_elem_ne S L hL hLne _ hrq.2.1 hLr
          refine ⟨L, ?_, hhead, hnd⟩
          refine ParentChain_congr S _ L (fun a ha => ?_) hL
          show (if a = KruskalGetRoot S F
              (Edge.X + (dirDelta Edge.Direction).1,
                Edge.Y + (dirDelta Edge.Direction).2) then
            some (Edge.X, Edge.Y) else S a) = S a
          rw [if_neg (hLne2 a ha)]
      have hsrefl : ∀ p2, inRoom Size p2 → SameRoot
          (fun x => if x = KruskalGetRoot S F
              (Edge.X + (dirDelta Edge.Direction).1,
                Edge.Y + (dirDelta Edge.Direction).2) then
            some (Edge.X, Edge.Y) else S x) p2 p2 := by
        intro p2 hp2
        obtain ⟨L, hL, hhead, -⟩ := hch2 p2 hp2
        have hne : L ≠ [] := ParentChain_ne_nil _ L hL
        have hm : p2 ∈ L := by
          cases L with
          | nil => exact absurd rfl hne
          | cons a t =>
            rw [List.head?_cons, Option.some.injEq] at hhead
            exact hhead ▸ List.mem_cons_self a t
        exact ⟨L.getLast hne, ParentChain_mem_reaches _ L hL hne p2 hm,
          ParentChain_mem_reaches _ L hL hne p2 hm,
          ParentChain_getLast_root _ L hL hne⟩
      have hsnew : SameRoot (fun x => if x = KruskalGetRoot S F
            (Edge.X + (dirDelta Edge.Direction).1,
              Edge.Y + (dirDelta Edge.Direction).2) then
          some (Edge.X, Edge.Y) else S x) (Edge.X, Edge.Y)
          (Edge.X + (dirDelta Edge.Direction).1,
            Edge.Y + (dirDelta Edge.Direction).2) := by
        refine ⟨KruskalGetRoot S F (Edge.X, Edge.Y),
          KReaches_update_pres S _ (Edge.X, Edge.Y) hrq.2.1 _ _ hrp.1,
          ?_, ?_⟩
        · refine Relation.ReflTransGen.trans
            (KReaches_update_pres S _ (Edge.X, Edge.Y) hrq.2.1 _ _ hrq.1)
            (Relation.ReflTransGen.head ?_
              (KReaches_update_pres S _ (Edge.X, Edge.Y) hrq.2.1 _ _ hrp.1))
          show (if KruskalGetRoot S F
              (Edge.X + (dirDelta Edge.Direction).1,
                Edge.Y + (dirDelta Edge.Direction).2) = KruskalGetRoot S F
              (Edge.X + (dirDelta Edge.Direction).1,
                Edge.Y + (dirDelta Edge.Direction).2) then
            some (Edge.X, Edge.Y)
          else S (KruskalGetRoot S F
              (Edge.X + (dirDelta Edge.Direction).1,
                Edge.Y + (dirDelta Edge.Direction).2))) = some (Edge.X, Edge.Y)
          rw [if_pos rfl]
        · show (if KruskalGetRoot S F (Edge.X, Edge.Y) = KruskalGetRoot S F
              (Edge.X + (dirDelta Edge.Direction).1,
                Edge.Y + (dirDelta Edge.Direction).2) then
            some (Edge.X, Edge.Y)
          else S (KruskalGetRoot S F (Edge.X, Edge.Y))) = none
          rw [if_neg hbr]
          exact hrp.2.1
      have hiff2 : ∀ a b, inRoom Size a → inRoom Size b →
          (SameRoot (fun x => if x = KruskalGetRoot S F
              (Edge.X + (dirDelta Edge.Direction).1,
                Edge.Y + (dirDelta Edge.Direction).2) then
            some (Edge.X, Edge.Y) else S x) a b ↔
          RoomConn (carveCells g Edge.X Edge.Y Edge.Direction) a b) := by
        intro a b ha hb
        constructor
        · rintro ⟨r, h1, h2, h3⟩
          have hrne : r ≠ KruskalGetRoot S F
              (Edge.X + (dirDelta Edge.Direction).1,
                Edge.Y + (dirDelta Edge.Direction).2) := by
            intro hc
            have h3b : (if r = KruskalGetRoot S F
                (Edge.X + (dirDelta Edge.Direction).1,
                  Edge.Y + (dirDelta Edge.Direction).2) then
              some (Edge.X, Edge.Y) else S r) = none := h3
            rw [if_pos hc] at h3b
            exact absurd h3b (by simp)
          have hrnone : S r = none := by
            have h3b : (if r = KruskalGetRoot S F
                (Edge.X + (dirDelta Edge.Direction).1,
                  Edge.Y + (dirDelta Edge.Direction).2) then
              some (Edge.X, Edge.Y) else S r) = none := h3
            rw [if_neg hrne] at h3b
            exact h3b
          rcases KReaches_update_inv S _ (Edge.X, Edge.Y) a r h1 with
            hp1 | ⟨hp1, hp2⟩ <;>
            rcases KReaches_update_inv S _ (Edge.X, Edge.Y) b r h2 with
              hq1 | ⟨hq1, hq2⟩
          · exact RoomConn_mono g _ hmonoc a b
              ((hiff a b ha hb).mp ⟨r, hp1, hq1, hrnone⟩)
          · have hc1 : RoomConn g a (Edge.X, Edge.Y) :=
              (hiff a _ ha hEcur).mp ⟨r, hp1, hq2, hrnone⟩
            have hc2 : RoomConn g b
                (Edge.X + (dirDelta Edge.Direction).1,
                  Edge.Y + (dirDelta Edge.Direction).2) :=
              (hiff b _ hb hEnbr).mp ⟨_, hq1, hrq.1, hrq.2.1⟩
            refine Relation.ReflTransGen.trans
              (RoomConn_mono g _ hmonoc _ _ hc1)
              (Relation.ReflTransGen.trans
                (Relation.ReflTransGen.single
                  (RoomAdj_carve_fwd g Edge.X Edge.Y Edge.Direction hEdir))
                (RoomConn_symm_of_OK Size _ hOK2 _ _
                  (RoomConn_mono g _ hmonoc _ _ hc2)))
          · have hc1 : RoomConn g a
                (Edge.X + (dirDelta Edge.Direction).1,
                  Edge.Y + (dirDelta Edge.Direction).2) :=
              (hiff a _ ha hEnbr).mp ⟨_, hp1, hrq.1, hrq.2.1⟩
            have hc2 : RoomConn g b (Edge.X, Edge.Y) :=
              (hiff b _ hb hEcur).mp ⟨r, hq1, hp2, hrnone⟩
            refine Relation.ReflTransGen.trans
              (RoomConn_mono g _ hmonoc _ _ hc1)
              (Relation.ReflTransGen.trans
                (Relation.ReflTransGen.single
                  (RoomAdj_carve_bwd g Edge.X Edge.Y Edge.Direction hEdir))
                (RoomConn_symm_of_OK Size _ hOK2 _ _
                  (RoomConn_mono g _ hmonoc _ _ hc2)))
          · exact RoomConn_mono g _ hmonoc a b
              ((hiff a b ha hb).mp ⟨_, hp1, hq1, hrq.2.1⟩)
        · intro hconn
          induction hconn using Relation.ReflTransGen.head_induction_on with
          | refl => exact hsrefl b hb
          | head hab htail ihc =>
            rename_i u v
            obtain ⟨d, hd, hbe⟩ := hab
            rcases (hasDir_carveCells g Edge.X Edge.Y Edge.Direction hEdir
              u d).mp hd with hold | hnew | hnew2
            · have hur := (hOK u d hold).1
              have hvr : inRoom Size v := by
                rw [hbe]
                exact (hOK u d hold).2.1
              have hsab := (hiff u v hur hvr).mpr
                (Relation.ReflTransGen.single ⟨d, hold, hbe⟩)
              exact SameRoot_trans _ u v b
                (SameRoot_update S _ (Edge.X, Edge.Y) _ hrq.2.1 hrp.1
                  hrp.2.1 hbr u v hsab) (ihc hvr)
            · have hsuv : SameRoot (fun x => if x = KruskalGetRoot S F
                  (Edge.X + (dirDelta Edge.Direction).1,
                    Edge.Y + (dirDelta Edge.Direction).2) then
                some (Edge.X, Edge.Y) else S x) u v := by
                rw [hbe, hnew.1, hnew.2]
                exact hsnew
              have hvr : inRoom Size v := by
                rw [hbe, hnew.1, hnew.2]
                exact hEnbr
              exact SameRoot_trans _ u v b hsuv (ihc hvr)
            · have hco : ((Edge.X + (dirDelta Edge.Direction).1) +
                  (dirDelta (GetOppositeDirection Edge.Direction)).1,
                  (Edge.Y + (dirDelta Edge.Direction).2) +
                    (dirDelta (GetOppositeDirection Edge.Direction)).2) =
                  ((Edge.X, Edge.Y) : FIntPoint) := by
                rw [dirDelta_opp]
                rw [Prod.mk.injEq]
                constructor <;> ring
              have hsuv : SameRoot (fun x => if x = KruskalGetRoot S F
                  (Edge.X + (dirDelta Edge.Direction).1,
                    Edge.Y + (dirDelta Edge.Direction).2) then
                some (Edge.X, Edge.Y) else S x) u v := by
                rw [hbe, hnew2.1, hnew2.2]
                show SameRoot _
                  (Edge.X + (dirDelta Edge.Direction).1,
                    Edge.Y + (dirDelta Edge.Direction).2)
                  ((Edge.X + (dirDelta Edge.Direction).1) +
                      (dirDelta (GetOppositeDirection Edge.Direction)).1,
                    (Edge.Y + (dirDelta Edge.Direction).2) +
                      (dirDelta (GetOppositeDirection Edge.Direction)).2)
                rw [hco]
                exact SameRoot_symm _ _ _ hsnew
              have hvr : inRoom Size v := by
                rw [hbe, hnew2.1, hnew2.2]
                show inRoom Size
                  ((Edge.X + (dirDelta Edge.Direction).1) +
                      (dirDelta (GetOppositeDirection Edge.Direction)).1,
                    (Edge.Y + (dirDelta Edge.Direction).2) +
                      (dirDelta (GetOppositeDirection Edge.Direction)).2)
                rw [hco]
                exact hEcur
              exact SameRoot_trans _ u v b hsuv (ihc hvr)
      have hcount2 : passageCount Size
          (carveCells g Edge.X Edge.Y Edge.Direction) + numRoots Size
          (fun p => if p = KruskalGetRoot S F
              (Edge.X + (dirDelta Edge.Direction).1,
                Edge.Y + (dirDelta Edge.Direction).2) then
            some (Edge.X, Edge.Y) else S p) = (roomsFinset Size).card := by
        rw [hpc2]
        omega
      have hrec := ih (carveCells g Edge.X Edge.Y Edge.Direction)
        (fun p => if p = KruskalGetRoot S F
            (Edge.X + (dirDelta Edge.Direction).1,
              Edge.Y + (dirDelta Edge.Direction).2) then
          some (Edge.X, Edge.Y) else S p)
        ⟨hOK2, hdom2, hch2, hiff2, hcount2⟩
        (fun e he => hval e (List.mem_cons_of_mem _ he))
      refine ⟨hrec.1, fun x d hd => hrec.2.1 x d (hmonoc x d hd), ?_⟩
      intro e he
      rcases List.mem_cons.mp he with rfl | he2
      · exact RoomConn_mono _ _ hrec.2.1 _ _
          (Relation.ReflTransGen.single
            (RoomAdj_carve_fwd g e.X e.Y e.Direction hEdir))
      · exact hrec.2.2 e he2
    · rw [if_neg hbr]
      have heq : KruskalGetRoot S F (Edge.X, Edge.Y) = KruskalGetRoot S F
          (Edge.X + (dirDelta Edge.Direction).1,
            Edge.Y + (dirDelta Edge.Direction).2) := not_ne_iff.mp hbr
      have h1 : KReaches S (Edge.X, Edge.Y) (KruskalGetRoot S F
          (Edge.X + (dirDelta Edge.Direction).1,
            Edge.Y + (dirDelta Edge.Direction).2)) := by
        rw [← heq]
        exact hrp.1
      have hconn : RoomConn g (Edge.X, Edge.Y)
          (Edge.X + (dirDelta Edge.Direction).1,
            Edge.Y + (dirDelta Edge.Direction).2) :=
        (hiff _ _ hEcur hEnbr).mp ⟨_, h1, hrq.1, hrq.2.1⟩
      have hrec := ih g S ⟨hOK, hdom, hch, hiff, hcount⟩
        (fun e he => hval e (List.mem_cons_of_mem _ he))
      refine ⟨hrec.1, hrec.2.1, ?_⟩
      intro e he
      rcases List.mem_cons.mp he with rfl | he2
      · exact RoomConn_mono _ _ hrec.2.1 _ _ hconn
      · exact hrec.2.2 e he2

lemma KInv_init (Size : FIntPoint) :
    KInv Size CreateZeroedGrid (fun _ => none) := by
  refine ⟨DirGridOK_zero Size, ?_, ?_, ?_, ?_⟩
  · intro p q h
    exact absurd h (by simp)
  · intro p hp
    exact ⟨[p], rfl, rfl, List.nodup_singleton p⟩
  · intro p q hp hq
    constructor
    · rintro ⟨r, h1, h2, h3⟩
      have e1 : p = r := by
        rcases Relation.ReflTransGen.cases_head h1 with heq | ⟨c, hc, -⟩
        · exact heq
        · exact absurd hc (by simp [KParent])
      have e2 : q = r := by
        rcases Relation.ReflTransGen.cases_head h2 with heq | ⟨c, hc, -⟩
        · exact heq
        · exact absurd hc (by simp [KParent])
      rw [e1, e2]
      exact Relation.ReflTransGen.refl
    · intro hc
      rcases Relation.ReflTransGen.cases_head hc with heq | ⟨c, ⟨d, hd, -⟩, -⟩
      · rw [heq]
        exact ⟨q, Relation.ReflTransGen.refl, Relation.ReflTransGen.refl, rfl⟩
      · have hz : CreateZeroedGrid p &&& dirByte d = 0 := by
          rw [show CreateZeroedGrid p = 0 from rfl, Nat.zero_and]
        exact absurd hz hd
  · rw [passageCount_zeroGrid, numRoots,
      Finset.filter_true_of_mem (fun x _ => rfl)]
    omega

lemma mem_KruskalEdges (Size : FIntPoint) (e : FKruskalEdge) :
    e ∈ KruskalEdges Size ↔
      (0 ≤ e.X ∧ e.X ≤ Size.1 - 1 ∧ 0 ≤ e.Y ∧ e.Y ≤ Size.2 - 1) ∧
        ((e.Direction = EMazeDirection.West ∧ 0 < e.X) ∨
          (e.Direction = EMazeDirection.North ∧ 0 < e.Y)) := by
  obtain ⟨ex, ey, ed⟩ := e
  simp only [KruskalEdges, List.mem_bind, intRange_eq,
    UMazePathfinder.mem_intRange, List.mem_append]
  constructor
  · rintro ⟨Y, ⟨hY1, hY2⟩, X, ⟨hX1, hX2⟩, hmem | hmem⟩
    · by_cases hx0 : X > 0
      · rw [if_pos hx0, List.mem_singleton] at hmem
        rw [FKruskalEdge.mk.injEq] at hmem
        obtain ⟨rfl, rfl, rfl⟩ := hmem
        exact ⟨⟨hX1, hX2, hY1, hY2⟩, Or.inl ⟨rfl, hx0⟩⟩
      · rw [if_neg hx0] at hmem
        exact absurd hmem (List.not_mem_nil _)
    · by_cases hy0 : Y > 0
      · rw [if_pos hy0, List.mem_singleton] at hmem
        rw [FKruskalEdge.mk.injEq] at hmem
        obtain ⟨rfl, rfl, rfl⟩ := hmem
        exact ⟨⟨hX1, hX2, hY1, hY2⟩, Or.inr ⟨rfl, hy0⟩⟩
      · rw [if_neg hy0] at hmem
        exact absurd hmem (List.not_mem_nil _)
  · rintro ⟨⟨h1, h2, h3, h4⟩, ⟨rfl, hx0⟩ | ⟨rfl, hy0⟩⟩
    · refine ⟨ey, ⟨h3, h4⟩, ex, ⟨h1, h2⟩, Or.inl ?_⟩
      rw [if_pos hx0]
      exact List.mem_singleton.mpr rfl
    · refine ⟨ey, ⟨h3, h4⟩, ex, ⟨h1, h2⟩, Or.inr ?_⟩
      rw [if_pos hy0]
      exact List.mem_singleton.mpr rfl

lemma KruskalEdges_valid (Size : FIntPoint) (e : FKruskalEdge)
    (he : e ∈ KruskalEdges Size) : KEdgeOK Size e := by
  rw [mem_KruskalEdges] at he
  obtain ⟨⟨h1, h2, h3, h4⟩, hc⟩ := he
  rcases hc with ⟨hd, hx0⟩ | ⟨hd, hy0⟩
  · refine ⟨by rw [hd]; decide, ⟨h1, by omega, h3, by omega⟩, ?_⟩
    rw [hd]
    show 0 ≤ e.X + -1 ∧ e.X + -1 < Size.1 ∧ 0 ≤ e.Y + 0 ∧ e.Y + 0 < Size.2
    refine ⟨by omega, by omega, by omega, by omega⟩
  · refine ⟨by rw [hd]; decide, ⟨h1, by omega, h3, by omega⟩, ?_⟩
    rw [hd]
    show 0 ≤ e.X + 0 ∧ e.X + 0 < Size.1 ∧ 0 ≤ e.Y + -1 ∧ e.Y + -1 < Size.2
    refine ⟨by omega, by omega, by omega, by omega⟩

/-- Kruskal generation produces a well-formed directions grid that is a
spanning tree of the room grid: passage count one less than the room
count, and all rooms mutually connected. -/
theorem Kruskals_grid_spec (Size : FIntPoint) (rng : FRandomStream)
    (hx : 1 ≤ Size.1) (hy : 1 ≤ Size.2) :
    DirGridOK Size (GenerateKruskals Size rng).1 ∧
      passageCount Size (GenerateKruskals Size rng).1 =
        (Size.1 * Size.2).toNat - 1 ∧
      ∀ p q, inRoom Size p → inRoom Size q →
        RoomConn (GenerateKruskals Size rng).1 p q := by
  have hcard : (roomsFinset Size).card = (Size.1 * Size.2).toNat :=
    roomsFinset_card Size (by omega) (by omega)
  have hF : (roomsFinset Size).card ≤ (Size.1 * Size.2).toNat + 1 := by omega
  have hproc := KruskalProcess_spec Size (Size.1 * Size.2).toNat hF
    (ShuffleArray (KruskalEdges Size) rng).1 CreateZeroedGrid (fun _ => none)
    (KInv_init Size)
    (fun e he => KruskalEdges_valid Size e ((ShuffleArray_mem _ _ _).mp he))
  obtain ⟨⟨hOKf, hdomf, hchf, hifff, hcountf⟩, hmonof, hedgef⟩ := hproc
  have hstep : ∀ p, inRoom Size p → ∀ d, d ≠ EMazeDirection.NoDir →
      inRoom Size (p.1 + (dirDelta d).1, p.2 + (dirDelta d).2) →
      RoomConn (KruskalProcess (Size.1 * Size.2).toNat
        (ShuffleArray (KruskalEdges Size) rng).1 CreateZeroedGrid
        (fun _ => none)).1 p
        (p.1 + (dirDelta d).1, p.2 + (dirDelta d).2) := by
    intro p hp d hd hnb
    cases d with
    | NoDir => exact absurd rfl hd
    | West =>
      have hnb1 : 0 ≤ p.1 + -1 := hnb.1
      have hconn_e := hedgef (FKruskalEdge.mk p.1 p.2 EMazeDirection.West)
        ((ShuffleArray_mem _ _ _).mpr ((mem_KruskalEdges Size _).mpr
          ⟨⟨show (0:ℤ) ≤ p.1 from hp.1, show p.1 ≤ Size.1 - 1 from by
              have := hp.2.1; omega,
            show (0:ℤ) ≤ p.2 from hp.2.2.1, show p.2 ≤ Size.2 - 1 from by
              have := hp.2.2.2; omega⟩,
            Or.inl ⟨rfl, show (0:ℤ) < p.1 from by omega⟩⟩))
      exact hconn_e
    | North =>
      have hnb1 : 0 ≤ p.2 + -1 := hnb.2.2.1
      have hconn_e := hedgef (FKruskalEdge.mk p.1 p.2 EMazeDirection.North)
        ((ShuffleArray_mem _ _ _).mpr ((mem_KruskalEdges Size _).mpr
          ⟨⟨show (0:ℤ) ≤ p.1 from hp.1, show p.1 ≤ Size.1 - 1 from by
              have := hp.2.1; omega,
            show (0:ℤ) ≤ p.2 from hp.2.2.1, show p.2 ≤ Size.2 - 1 from by
              have := hp.2.2.2; omega⟩,
            Or.inr ⟨rfl, show (0:ℤ) < p.2 from by omega⟩⟩))
      exact hconn_e
    | East =>
      have hnb1 : p.1 + 1 < Size.1 := hnb.2.1
      have hconn_e := hedgef (FKruskalEdge.mk (p.1 + 1) (p.2 + 0)
          EMazeDirection.West)
        ((ShuffleArray_mem _ _ _).mpr ((mem_KruskalEdges Size _).mpr
          ⟨⟨show (0:ℤ) ≤ p.1 + 1 from by have := hp.1; omega,
            show p.1 + 1 ≤ Size.1 - 1 from by omega,
            show (0:ℤ) ≤ p.2 + 0 from by have := hp.2.2.1; omega,
            show p.2 + 0 ≤ Size.2 - 1 from by have := hp.2.2.2; omega⟩,
            Or.inl ⟨rfl, show (0:ℤ) < p.1 + 1 from by have := hp.1; omega⟩⟩))
      have hc2 : RoomConn (KruskalProcess (Size.1 * Size.2).toNat
          (ShuffleArray (KruskalEdges Size) rng).1 CreateZeroedGrid
          (fun _ => none)).1 (p.1 + 1, p.2 + 0)
          ((p.1 + 1 + -1, p.2 + 0 + 0) : FIntPoint) := hconn_e
      have hco : ((p.1 + 1 + -1, p.2 + 0 + 0) : FIntPoint) = (p.1, p.2) := by
        rw [Prod.mk.injEq]
        constructor <;> ring
      rw [hco] at hc2
      exact RoomConn_symm_of_OK Size _ hOKf _ _ hc2
    | South =>
      have hnb1 : p.2 + 1 < Size.2 := hnb.2.2.2
      have hconn_e := hedgef (FKruskalEdge.mk (p.1 + 0) (p.2 + 1)
          EMazeDirection.North)
        ((ShuffleArray_mem _ _ _).mpr ((mem_KruskalEdges Size _).mpr
          ⟨⟨show (0:ℤ) ≤ p.1 + 0 from by have := hp.1; omega,
            show p.1 + 0 ≤ Size.1 - 1 from by have := hp.2.1; omega,
            show (0:ℤ) ≤ p.2 + 1 from by have := hp.2.2.1; omega,
            show p.2 + 1 ≤ Size.2 - 1 from by omega⟩,
            Or.inr ⟨rfl, show (0:ℤ) < p.2 + 1 from by have := hp.2.2.1; omega⟩⟩))
      have hc2 : RoomConn (KruskalProcess (Size.1 * Size.2).toNat
          (ShuffleArray (KruskalEdges Size) rng).1 CreateZeroedGrid
          (fun _ => none)).1 (p.1 + 0, p.2 + 1)
          ((p.1 + 0 + 0, p.2 + 1 + -1) : FIntPoint) := hconn_e
      have hco : ((p.1 + 0 + 0, p.2 + 1 + -1) : FIntPoint) = (p.1, p.2) := by
        rw [Prod.mk.injEq]
        constructor <;> ring
      rw [hco] at hc2
      exact RoomConn_symm_of_OK Size _ hOKf _ _ hc2
  have h00 : inRoom Size ((0, 0) : FIntPoint) :=
    ⟨le_refl 0, by omega, le_refl 0, by omega⟩
  have hallconn := grid_path_induction Size
    (fun p2 => RoomConn (KruskalProcess (Size.1 * Size.2).toNat
      (ShuffleArray (KruskalEdges Size) rng).1 CreateZeroedGrid
      (fun _ => none)).1 ((0, 0) : FIntPoint) p2) (0, 0) h00
    Relation.ReflTransGen.refl
    (fun p2 hp2 hconn d hd hnbr =>
      Relation.ReflTransGen.trans hconn (hstep p2 hp2 d hd hnbr))
  have hconn_all : ∀ p q, inRoom Size p → inRoom Size q →
      RoomConn (KruskalProcess (Size.1 * Size.2).toNat
        (ShuffleArray (KruskalEdges Size) rng).1 CreateZeroedGrid
        (fun _ => none)).1 p q := by
    intro p q hp hq
    exact Relation.ReflTransGen.trans
      (RoomConn_symm_of_OK Size _ hOKf _ _ (hallconn p hp)) (hallconn q hq)
  have hroot_eq : ∀ a, a ∈ (roomsFinset Size).filter
      (fun p2 => (KruskalProcess (Size.1 * Size.2).toNat
        (ShuffleArray (KruskalEdges Size) rng).1 CreateZeroedGrid
        (fun _ => none)).2 p2 = none) →
      ∀ b, b ∈ (roomsFinset Size).filter
        (fun p2 => (KruskalProcess (Size.1 * Size.2).toNat
          (ShuffleArray (KruskalEdges Size) rng).1 CreateZeroedGrid
          (fun _ => none)).2 p2 = none) → a = b := by
    intro a ha b hb
    rw [Finset.mem_filter] at ha hb
    have hsr := (hifff a b ((mem_roomsFinset _ _).mp ha.1)
      ((mem_roomsFinset _ _).mp hb.1)).mpr
      (hconn_all a b ((mem_roomsFinset _ _).mp ha.1)
        ((mem_roomsFinset _ _).mp hb.1))
    obtain ⟨r, h1, h2, -⟩ := hsr
    have e1 : a = r := by
      rcases Relation.ReflTransGen.cases_head h1 with heq | ⟨c, hc, -⟩
      · exact heq
      · rw [KParent, ha.2] at hc
        exact absurd hc (by simp)
    have e2 : b = r := by
      rcases Relation.ReflTransGen.cases_head h2 with heq | ⟨c, hc, -⟩
      · exact heq
      · rw [KParent, hb.2] at hc
        exact absurd hc (by simp)
    rw [e1, e2]
  have hnr1 : numRoots Size (KruskalProcess (Size.1 * Size.2).toNat
      (ShuffleArray (KruskalEdges Size) rng).1 CreateZeroedGrid
      (fun _ => none)).2 = 1 := by
    obtain ⟨L, hL, hhead, -⟩ := hchf ((0, 0) : FIntPoint) h00
    have hLne : L ≠ [] := ParentChain_ne_nil _ L hL
    have h00mem : ((0, 0) : FIntPoint) ∈ L := by
      cases L with
      | nil => exact absurd rfl hLne
      | cons a t =>
        rw [List.head?_cons, Option.some.injEq] at hhead
        exact hhead ▸ List.mem_cons_self a t
    have hlastmem : L.getLast hLne ∈ (roomsFinset Size).filter
        (fun p2 => (KruskalProcess (Size.1 * Size.2).toNat
          (ShuffleArray (KruskalEdges Size) rng).1 CreateZeroedGrid
          (fun _ => none)).2 p2 = none) := by
      rw [Finset.mem_filter]
      refine ⟨(mem_roomsFinset _ _).mpr ?_, ParentChain_getLast_root _ L hL hLne⟩
      exact ParentChain_mem_rooms Size _ hdomf L hL hLne
        (by
          cases L with
          | nil => exact absurd rfl hLne
          | cons a t =>
            rw [List.head?_cons, Option.some.injEq] at hhead
            show inRoom Size a
            rw [hhead]
            exact h00) _ (List.getLast_mem hLne)
    rw [numRoots]
    rw [Finset.card_eq_one]
    refine ⟨L.getLast hLne, ?_⟩
    rw [Finset.eq_singleton_iff_unique_mem]
    exact ⟨hlastmem, fun x hxm => hroot_eq x hxm _ hlastmem⟩
  refine ⟨hOKf, ?_, hconn_all⟩
  show passageCount Size (KruskalProcess (Size.1 * Size.2).toNat
    (ShuffleArray (KruskalEdges Size) rng).1 CreateZeroedGrid
    (fun _ => none)).1 = (Size.1 * Size.2).toNat - 1
  rw [hnr1] at hcountf
  omega

/-- C5: for each of the three algorithms (RecursiveBacktracker, Prims,
Kruskals), every seed stream, and every positive directions-grid size,
the resulting directions grid, viewed as a graph on rooms where an open
passage is a symmetric pair of direction bits between adjacent rooms,
has exactly roomCount - 1 open passages. -/
theorem maze_algorithms_spanning_passage_count (Size : FIntPoint)
    (rng : FRandomStream) (hx : 1 ≤ Size.1) (hy : 1 ≤ Size.2) :
    passageCount Size (GenerateBacktracker Size rng).1 =
        (Size.1 * Size.2).toNat - 1 ∧
      passageCount Size (GeneratePrims Size rng).1 =
        (Size.1 * Size.2).toNat - 1 ∧
      passageCount Size (GenerateKruskals Size rng).1 =
        (Size.1 * Size.2).toNat - 1 :=
  ⟨(Backtracker_grid_spec Size rng hx hy).2.1,
    (Prims_grid_spec Size rng hx hy).2.1,
    (Kruskals_grid_spec Size rng hx hy).2.1⟩

theorem maze_algorithms_spanning_passage_count_witness :
    ((1 : ℤ) ≤ (((1 : ℤ), (1 : ℤ)) : FIntPoint).1 ∧
        (1 : ℤ) ≤ (((1 : ℤ), (1 : ℤ)) : FIntPoint).2) ∧
      (passageCount ((1 : ℤ), (1 : ℤ))
            (GenerateBacktracker ((1 : ℤ), (1 : ℤ))
              (FRandomStream.mk (fun _ => 0) 0)).1 =
          (((1 : ℤ) * (1 : ℤ)).toNat - 1) ∧
        passageCount ((1 : ℤ), (1 : ℤ))
            (GeneratePrims ((1 : ℤ), (1 : ℤ))
              (FRandomStream.mk (fun _ => 0) 0)).1 =
          (((1 : ℤ) * (1 : ℤ)).toNat - 1) ∧
        passageCount ((1 : ℤ), (1 : ℤ))
            (GenerateKruskals ((1 : ℤ), (1 : ℤ))
              (FRandomStream.mk (fun _ => 0) 0)).1 =
          (((1 : ℤ) * (1 : ℤ)).toNat - 1)) :=
  ⟨⟨by decide, by decide⟩,
    maze_algorithms_spanning_passage_count ((1 : ℤ), (1 : ℤ))
      (FRandomStream.mk (fun _ => 0) 0) (by decide) (by decide)⟩

/-- Floor adjacency of the final grid: two floor cells one cardinal step
apart. -/
def FloorAdj (G : ByteGrid) (p q : FIntPoint) : Prop :=
  G p = 1 ∧ G q = 1 ∧ ((q.1 - p.1).natAbs + (q.2 - p.2).natAbs = 1)

/-- The cells that one iteration of the conversion loop writes for room
p: the room cell and the open, in-bounds connecting cells, exactly the
writes of ApplyRoom. -/
def RoomWrites (D : ByteGrid) (FS : FIntPoint) (p q : FIntPoint) : Prop :=
  ¬(p.1 * 2 ≥ FS.1 ∨ p.2 * 2 ≥ FS.2) ∧
    (q = (p.1 * 2, p.2 * 2) ∨
      ((D p &&& 1) ≠ 0 ∧ p.1 * 2 + 1 < FS.1 ∧ q = (p.1 * 2 + 1, p.2 * 2)) ∨
      ((D p &&& 2) ≠ 0 ∧ p.2 * 2 - 1 ≥ 0 ∧ q = (p.1 * 2, p.2 * 2 - 1)) ∨
      ((D p &&& 4) ≠ 0 ∧ p.2 * 2 + 1 < FS.2 ∧ q = (p.1 * 2, p.2 * 2 + 1)) ∨
      ((D p &&& 8) ≠ 0 ∧ p.1 * 2 - 1 ≥ 0 ∧ q = (p.1 * 2 - 1, p.2 * 2)))

instance (D : ByteGrid) (FS : FIntPoint) (p q : FIntPoint) :
    Decidable (RoomWrites D FS p q) := by
  unfold RoomWrites
  infer_instance

lemma if_setCell_val (c : Prop) [Decidable c] (g : ByteGrid) (X Y : ℤ)
    (q : FIntPoint) :
    (if c then setCell g X Y 1 else g) q = if c ∧ q = (X, Y) then 1 else g q := by
  by_cases hc : c
  · rw [if_pos hc]
    by_cases hq : q = (X, Y)
    · rw [if_pos ⟨hc, hq⟩, hq, setCell_same]
    · rw [setCell_other _ _ _ _ _ hq, if_neg (fun h => hq h.2)]
  · rw [if_neg hc, if_neg (fun h => hc h.1)]

lemma ApplyRoom_val (D : ByteGrid) (FS : FIntPoint) (g : ByteGrid)
    (p q : FIntPoint) :
    ApplyRoom D FS g p q = if RoomWrites D FS p q then 1 else g q := by
  by_cases hg : (p.1 * 2 ≥ FS.1 ∨ p.2 * 2 ≥ FS.2)
  · unfold ApplyRoom
    rw [if_pos hg, if_neg (fun hw : RoomWrites D FS p q => hw.1 hg)]
  · unfold ApplyRoom
    rw [if_neg hg]
    rw [if_setCell_val, if_setCell_val, if_setCell_val, if_setCell_val]
    simp only [setCell]
    by_cases hW : RoomWrites D FS p q
    · rw [if_pos hW]
      obtain ⟨-, hd⟩ := hW
      rcases hd with h0 | ⟨ha, hb, hq'⟩ | ⟨ha, hb, hq'⟩ | ⟨ha, hb, hq'⟩ |
        ⟨ha, hb, hq'⟩
      · have hne8 : ¬(((D p &&& 8) ≠ 0 ∧ p.1 * 2 - 1 ≥ 0) ∧
            q = (p.1 * 2 - 1, p.2 * 2)) := by
          rintro ⟨-, hq8⟩
          rw [h0, Prod.mk.injEq] at hq8
          omega
        have hne4 : ¬(((D p &&& 4) ≠ 0 ∧ p.2 * 2 + 1 < FS.2) ∧
            q = (p.1 * 2, p.2 * 2 + 1)) := by
          rintro ⟨-, hq4⟩
          rw [h0, Prod.mk.injEq] at hq4
          omega
        have hne2 : ¬(((D p &&& 2) ≠ 0 ∧ p.2 * 2 - 1 ≥ 0) ∧
            q = (p.1 * 2, p.2 * 2 - 1)) := by
          rintro ⟨-, hq2⟩
          rw [h0, Prod.mk.injEq] at hq2
          omega
        have hne1 : ¬(((D p &&& 1) ≠ 0 ∧ p.1 * 2 + 1 < FS.1) ∧
            q = (p.1 * 2 + 1, p.2 * 2)) := by
          rintro ⟨-, hq1⟩
          rw [h0, Prod.mk.injEq] at hq1
          omega
        rw [if_neg hne8, if_neg hne4, if_neg hne2, if_neg hne1, if_pos h0]
      · have hne8 : ¬(((D p &&& 8) ≠ 0 ∧ p.1 * 2 - 1 ≥ 0) ∧
            q = (p.1 * 2 - 1, p.2 * 2)) := by
          rintro ⟨-, hq8⟩
          rw [hq', Prod.mk.injEq] at hq8
          omega
        have hne4 : ¬(((D p &&& 4) ≠ 0 ∧ p.2 * 2 + 1 < FS.2) ∧
            q = (p.1 * 2, p.2 * 2 + 1)) := by
          rintro ⟨-, hq4⟩
          rw [hq', Prod.mk.injEq] at hq4
          omega
        have hne2 : ¬(((D p &&& 2) ≠ 0 ∧ p.2 * 2 - 1 ≥ 0) ∧
            q = (p.1 * 2, p.2 * 2 - 1)) := by
          rintro ⟨-, hq2⟩
          rw [hq', Prod.mk.injEq] at hq2
          omega
        have hp1 : ((D p &&& 1) ≠ 0 ∧ p.1 * 2 + 1 < FS.1) ∧
            q = (p.1 * 2 + 1, p.2 * 2) := ⟨⟨ha, hb⟩, hq'⟩
        rw [if_neg hne8, if_neg hne4, if_neg hne2, if_pos hp1]
      · have hne8 : ¬(((D p &&& 8) ≠ 0 ∧ p.1 * 2 - 1 ≥ 0) ∧
            q = (p.1 * 2 - 1, p.2 * 2)) := by
          rintro ⟨-, hq8⟩
          rw [hq', Prod.mk.injEq] at hq8
          omega
        have hne4 : ¬(((D p &&& 4) ≠ 0 ∧ p.2 * 2 + 1 < FS.2) ∧
            q = (p.1 * 2, p.2 * 2 + 1)) := by
          rintro ⟨-, hq4⟩
          rw [hq', Prod.mk.injEq] at hq4
          omega
        have hp2 : ((D p &&& 2) ≠ 0 ∧ p.2 * 2 - 1 ≥ 0) ∧
            q = (p.1 * 2, p.2 * 2 - 1) := ⟨⟨ha, hb⟩, hq'⟩
        rw [if_neg hne8, if_neg hne4, if_pos hp2]
      · have hne8 : ¬(((D p &&& 8) ≠ 0 ∧ p.1 * 2 - 1 ≥ 0) ∧
            q = (p.1 * 2 - 1, p.2 * 2)) := by
          rintro ⟨-, hq8⟩
          rw [hq', Prod.mk.injEq] at hq8
          omega
        have hp4 : ((D p &&& 4) ≠ 0 ∧ p.2 * 2 + 1 < FS.2) ∧
            q = (p.1 * 2, p.2 * 2 + 1) := ⟨⟨ha, hb⟩, hq'⟩
        rw [if_neg hne8, if_pos hp4]
      · have hp8 : ((D p &&& 8) ≠ 0 ∧ p.1 * 2 - 1 ≥ 0) ∧
            q = (p.1 * 2 - 1, p.2 * 2) := ⟨⟨ha, hb⟩, hq'⟩
        rw [if_pos hp8]
    · rw [if_neg hW]
      have hne8 : ¬(((D p &&& 8) ≠ 0 ∧ p.1 * 2 - 1 ≥ 0) ∧
          q = (p.1 * 2 - 1, p.2 * 2)) :=
        fun hh => hW ⟨hg, Or.inr (Or.inr (Or.inr (Or.inr
          ⟨hh.1.1, hh.1.2, hh.2⟩)))⟩
      have hne4 : ¬(((D p &&& 4) ≠ 0 ∧ p.2 * 2 + 1 < FS.2) ∧
          q = (p.1 * 2, p.2 * 2 + 1)) :=
        fun hh => hW ⟨hg, Or.inr (Or.inr (Or.inr (Or.inl
          ⟨hh.1.1, hh.1.2, hh.2⟩)))⟩
      have hne2 : ¬(((D p &&& 2) ≠ 0 ∧ p.2 * 2 - 1 ≥ 0) ∧
          q = (p.1 * 2, p.2 * 2 - 1)) :=
        fun hh => hW ⟨hg, Or.inr (Or.inr (Or.inl ⟨hh.1.1, hh.1.2, hh.2⟩))⟩
      have hne1 : ¬(((D p &&& 1) ≠ 0 ∧ p.1 * 2 + 1 < FS.1) ∧
          q = (p.1 * 2 + 1, p.2 * 2)) :=
        fun hh => hW ⟨hg, Or.inr (Or.inl ⟨hh.1.1, hh.1.2, hh.2⟩)⟩
      have hne0 : ¬(q = (p.1 * 2, p.2 * 2)) :=
        fun hh => hW ⟨hg, Or.inl hh⟩
      rw [if_neg hne8, if_neg hne4, if_neg hne2, if_neg hne1, if_neg hne0]

lemma foldl_ApplyRoom_char (D : ByteGrid) (FS : FIntPoint) :
    ∀ (l : List FIntPoint) (g : ByteGrid) (q : FIntPoint),
      (l.foldl (ApplyRoom D FS) g) q = 1 ↔
        (g q = 1 ∨ ∃ p ∈ l, RoomWrites D FS p q) := by
  intro l
  induction l with
  | nil =>
    intro g q
    simp
  | cons p t ih =>
    intro g q
    show (t.foldl (ApplyRoom D FS) (ApplyRoom D FS g p)) q = 1 ↔ _
    rw [ih, ApplyRoom_val]
    constructor
    · rintro (h1 | ⟨p2, hp2, hw⟩)
      · by_cases hw : RoomWrites D FS p q
        · exact Or.inr ⟨p, List.mem_cons_self _ _, hw⟩
        · rw [if_neg hw] at h1
          exact Or.inl h1
      · exact Or.inr ⟨p2, List.mem_cons_of_mem _ hp2, hw⟩
    · rintro (h1 | ⟨p2, hp2, hw⟩)
      · left
        by_cases hw : RoomWrites D FS p q
        · rw [if_pos hw]
        · rw [if_neg hw]
          exact h1
      · rcases List.mem_cons.mp hp2 with rfl | hmem
        · left
          rw [if_pos hw]
        · right
          exact ⟨p2, hmem, hw⟩

lemma mem_rowMajor (Size : FIntPoint) (p : FIntPoint) :
    p ∈ rowMajor Size ↔ inRoom Size p := by
  simp only [rowMajor, List.mem_bind, List.mem_map, intRange_eq,
    UMazePathfinder.mem_intRange, inRoom]
  constructor
  · rintro ⟨Y, ⟨hY1, hY2⟩, X, ⟨hX1, hX2⟩, rfl⟩
    exact ⟨hX1, by omega, hY1, by omega⟩
  · rintro ⟨h1, h2, h3, h4⟩
    exact ⟨p.2, ⟨h3, by omega⟩, p.1, ⟨h1, by omega⟩, rfl⟩

lemma DirectionsToFloorWallGrid_one (D : ByteGrid) (DirSize FS : FIntPoint)
    (q : FIntPoint) :
    DirectionsToFloorWallGrid D DirSize FS q = 1 ↔
      ∃ p, inRoom DirSize p ∧ RoomWrites D FS p q := by
  show ((rowMajor DirSize).foldl (ApplyRoom D FS) CreateZeroedGrid) q = 1 ↔ _
  rw [foldl_ApplyRoom_char]
  constructor
  · rintro (h0 | ⟨p, hp, hw⟩)
    · have h0b : (0 : ℕ) = 1 := h0
      exact absurd h0b (by decide)
    · exact ⟨p, (mem_rowMajor _ _).mp hp, hw⟩
  · rintro ⟨p, hp, hw⟩
    exact Or.inr ⟨p, (mem_rowMajor _ _).mpr hp, hw⟩

lemma inRoom_mk (Size : FIntPoint) (x y : ℤ) :
    inRoom Size (x, y) ↔ (0 ≤ x ∧ x < Size.1 ∧ 0 ≤ y ∧ y < Size.2) :=
  Iff.rfl

lemma floor_grid_connected (DirSize FS : FIntPoint) (D G : ByteGrid)
    (hchar : ∀ q, G q = 1 ↔ ∃ p, inRoom DirSize p ∧ RoomWrites D FS p q)
    (hOK : DirGridOK DirSize D)
    (hconn : ∀ p q, inRoom DirSize p → inRoom DirSize q → RoomConn D p q)
    (hfit1 : 2 * DirSize.1 ≤ FS.1 + 1) (hfit2 : 2 * DirSize.2 ≤ FS.2 + 1) :
    (∀ q, G q = 1 → inRoom FS q) ∧
      ∀ q1 q2, G q1 = 1 → G q2 = 1 →
        Relation.ReflTransGen (FloorAdj G) q1 q2 := by
  have hbase : ∀ p, inRoom DirSize p → G (p.1 * 2, p.2 * 2) = 1 := by
    intro p hp
    rw [hchar]
    obtain ⟨h1, h2, h3, h4⟩ := hp
    refine ⟨p, ⟨h1, h2, h3, h4⟩, ?_, Or.inl rfl⟩
    rintro (h | h) <;> omega
  have hbounds : ∀ q, G q = 1 → inRoom FS q := by
    intro q hq
    rw [hchar] at hq
    obtain ⟨p, hp, hgd, hd⟩ := hq
    obtain ⟨h1, h2, h3, h4⟩ := hp
    push_neg at hgd
    obtain ⟨hg1, hg2⟩ := hgd
    rcases hd with hqe | ⟨ha, hb, hqe⟩ | ⟨ha, hb, hqe⟩ | ⟨ha, hb, hqe⟩ |
        ⟨ha, hb, hqe⟩ <;>
      rw [hqe] <;> exact (inRoom_mk FS _ _).mpr (by omega)
  have hsym : Symmetric (FloorAdj G) := by
    rintro a b ⟨ha, hb, hd⟩
    exact ⟨hb, ha, by omega⟩
  have hmid : ∀ p d, inRoom DirSize p → d ≠ EMazeDirection.NoDir →
      inRoom DirSize (p.1 + (dirDelta d).1, p.2 + (dirDelta d).2) →
      hasDir D p d →
      Relation.ReflTransGen (FloorAdj G) (p.1 * 2, p.2 * 2)
        ((p.1 + (dirDelta d).1) * 2, (p.2 + (dirDelta d).2) * 2) := by
    intro p d hp hdne hnb hd
    obtain ⟨h1, h2, h3, h4⟩ := hp
    cases d with
    | NoDir => exact absurd rfl hdne
    | East =>
      have hn1 : p.1 + 1 < DirSize.1 := hnb.2.1
      have hM : G (p.1 * 2 + 1, p.2 * 2) = 1 := by
        rw [hchar]
        refine ⟨p, ⟨h1, h2, h3, h4⟩, ?_,
          Or.inr (Or.inl ⟨hd, by omega, rfl⟩)⟩
        rintro (h | h) <;> omega
      have hB2 : G ((p.1 + (dirDelta EMazeDirection.East).1) * 2,
          (p.2 + (dirDelta EMazeDirection.East).2) * 2) = 1 :=
        hbase _ hnb
      refine Relation.ReflTransGen.head
        ⟨hbase p ⟨h1, h2, h3, h4⟩, hM, ?_⟩
        (Relation.ReflTransGen.single ⟨hM, hB2, ?_⟩)
      · show ((p.1 * 2 + 1 - p.1 * 2).natAbs +
          (p.2 * 2 - p.2 * 2).natAbs) = 1
        omega
      · show (((p.1 + 1) * 2 - (p.1 * 2 + 1)).natAbs +
          ((p.2 + 0) * 2 - p.2 * 2).natAbs) = 1
        omega
    | West =>
      have hn1 : 0 ≤ p.1 + -1 := hnb.1
      have hM : G (p.1 * 2 - 1, p.2 * 2) = 1 := by
        rw [hchar]
        refine ⟨p, ⟨h1, h2, h3, h4⟩, ?_,
          Or.inr (Or.inr (Or.inr (Or.inr ⟨hd, by omega, rfl⟩)))⟩
        rintro (h | h) <;> omega
      have hB2 : G ((p.1 + (dirDelta EMazeDirection.West).1) * 2,
          (p.2 + (dirDelta EMazeDirection.West).2) * 2) = 1 :=
        hbase _ hnb
      refine Relation.ReflTransGen.head
        ⟨hbase p ⟨h1, h2, h3, h4⟩, hM, ?_⟩
        (Relation.ReflTransGen.single ⟨hM, hB2, ?_⟩)
      · show ((p.1 * 2 - 1 - p.1 * 2).natAbs +
          (p.2 * 2 - p.2 * 2).natAbs) = 1
        omega
      · show (((p.1 + -1) * 2 - (p.1 * 2 - 1)).natAbs +
          ((p.2 + 0) * 2 - p.2 * 2).natAbs) = 1
        omega
    | North =>
      have hn1 : 0 ≤ p.2 + -1 := hnb.2.2.1
      have hM : G (p.1 * 2, p.2 * 2 - 1) = 1 := by
        rw [hchar]
        refine ⟨p, ⟨h1, h2, h3, h4⟩, ?_,
          Or.inr (Or.inr (Or.inl ⟨hd, by omega, rfl⟩))⟩
        rintro (h | h) <;> omega
      have hB2 : G ((p.1 + (dirDelta EMazeDirection.North).1) * 2,
          (p.2 + (dirDelta EMazeDirection.North).2) * 2) = 1 :=
        hbase _ hnb
      refine Relation.ReflTransGen.head
        ⟨hbase p ⟨h1, h2, h3, h4⟩, hM, ?_⟩
        (Relation.ReflTransGen.single ⟨hM, hB2, ?_⟩)
      · show ((p.1 * 2 - p.1 * 2).natAbs +
          (p.2 * 2 - 1 - p.2 * 2).natAbs) = 1
        omega
      · show (((p.1 + 0) * 2 - p.1 * 2).natAbs +
          ((p.2 + -1) * 2 - (p.2 * 2 - 1)).natAbs) = 1
        omega
    | South =>
      have hn1 : p.2 + 1 < DirSize.2 := hnb.2.2.2
      have hM : G (p.1 * 2, p.2 * 2 + 1) = 1 := by
        rw [hchar]
        refine ⟨p, ⟨h1, h2, h3, h4⟩, ?_,
          Or.inr (Or.inr (Or.inr (Or.inl ⟨hd, by omega, rfl⟩)))⟩
        rintro (h | h) <;> omega
      have hB2 : G ((p.1 + (dirDelta EMazeDirection.South).1) * 2,
          (p.2 + (dirDelta EMazeDirection.South).2) * 2) = 1 :=
        hbase _ hnb
      refine Relation.ReflTransGen.head
        ⟨hbase p ⟨h1, h2, h3, h4⟩, hM, ?_⟩
        (Relation.ReflTransGen.single ⟨hM, hB2, ?_⟩)
      · show ((p.1 * 2 - p.1 * 2).natAbs +
          (p.2 * 2 + 1 - p.2 * 2).natAbs) = 1
        omega
      · show (((p.1 + 0) * 2 - p.1 * 2).natAbs +
          ((p.2 + 1) * 2 - (p.2 * 2 + 1)).natAbs) = 1
        omega
  have hlift : ∀ p q, inRoom DirSize p → inRoom DirSize q →
      Relation.ReflTransGen (FloorAdj G) (p.1 * 2, p.2 * 2)
        (q.1 * 2, q.2 * 2) := by
    intro p q hp hq
    have hc := hconn p q hp hq
    induction hc using Relation.ReflTransGen.head_induction_on with
    | refl => exact Relation.ReflTransGen.refl
    | head hab htail ihc =>
      rename_i u v
      obtain ⟨d, hdu, hbe⟩ := hab
      have hdne : d ≠ EMazeDirection.NoDir := by
        rintro rfl
        apply hdu
        rw [show dirByte EMazeDirection.NoDir = 0 from rfl, Nat.and_zero]
      have hur := (hOK u d hdu).1
      have hvr : inRoom DirSize v := by
        rw [hbe]
        exact (hOK u d hdu).2.1
      have hm := hmid u d hur hdne (by rw [← hbe]; exact hvr) hdu
      refine Relation.ReflTransGen.trans ?_ (ihc hvr)
      rw [hbe]
      exact hm
  have hto_base : ∀ q, G q = 1 → ∃ p, inRoom DirSize p ∧
      Relation.ReflTransGen (FloorAdj G) q (p.1 * 2, p.2 * 2) := by
    intro q hq
    have hq2 := hq
    rw [hchar] at hq2
    obtain ⟨p, hp, hgd, hd⟩ := hq2
    obtain ⟨h1, h2, h3, h4⟩ := hp
    refine ⟨p, ⟨h1, h2, h3, h4⟩, ?_⟩
    have hBp : G (p.1 * 2, p.2 * 2) = 1 := hbase p ⟨h1, h2, h3, h4⟩
    rcases hd with hqe | ⟨ha, hb, hqe⟩ | ⟨ha, hb, hqe⟩ | ⟨ha, hb, hqe⟩ |
      ⟨ha, hb, hqe⟩
    · rw [hqe]
    · refine Relation.ReflTransGen.single ⟨hq, hBp, ?_⟩
      rw [hqe]
      show ((p.1 * 2 - (p.1 * 2 + 1)).natAbs +
        (p.2 * 2 - p.2 * 2).natAbs) = 1
      omega
    · refine Relation.ReflTransGen.single ⟨hq, hBp, ?_⟩
      rw [hqe]
      show ((p.1 * 2 - p.1 * 2).natAbs +
        (p.2 * 2 - (p.2 * 2 - 1)).natAbs) = 1
      omega
    · refine Relation.ReflTransGen.single ⟨hq, hBp, ?_⟩
      rw [hqe]
      show ((p.1 * 2 - p.1 * 2).natAbs +
        (p.2 * 2 - (p.2 * 2 + 1)).natAbs) = 1
      omega
    · refine Relation.ReflTransGen.single ⟨hq, hBp, ?_⟩
      rw [hqe]
      show ((p.1 * 2 - (p.1 * 2 - 1)).natAbs +
        (p.2 * 2 - p.2 * 2).natAbs) = 1
      omega
  refine ⟨hbounds, ?_⟩
  intro q1 q2 hq1 hq2
  obtain ⟨p1, hp1, hpath1⟩ := hto_base q1 hq1
  obtain ⟨p2, hp2, hpath2⟩ := hto_base q2 hq2
  exact Relation.ReflTransGen.trans hpath1
    (Relation.ReflTransGen.trans (hlift p1 p2 hp1 hp2)
      ((Relation.ReflTransGen.symmetric hsym) hpath2))

lemma intdiv2_facts (n : ℤ) (h : 0 < n) :
    1 ≤ Int.div (n + 1) 2 ∧ 2 * Int.div (n + 1) 2 ≤ n + 1 := by
  have hd : Int.div (n + 1) 2 = (n + 1) / 2 :=
    Int.tdiv_eq_ediv (by omega) (by omega)
  rw [hd]
  omega

/-- The directions grid computed inside GenerateMaze (the value of
DirectionsGrid after the algorithm switch, MazeGenerator.cpp lines
43-61). -/
def GenerateMazeDirections (Config : FMazeGenerationConfig)
    (Random : FRandomStream) : ByteGrid :=
  (match Config.Algorithm with
    | EMazeGenerationAlgorithm.RecursiveBacktracker =>
      GenerateBacktracker (Int.div (Config.SizeX + 1) 2,
        Int.div (Config.SizeY + 1) 2) Random
    | EMazeGenerationAlgorithm.Prims =>
      GeneratePrims (Int.div (Config.SizeX + 1) 2,
        Int.div (Config.SizeY + 1) 2) Random
    | EMazeGenerationAlgorithm.Kruskals =>
      GenerateKruskals (Int.div (Config.SizeX + 1) 2,
        Int.div (Config.SizeY + 1) 2) Random).1

/-- The CachedGrid member that GenerateMaze stores and reads back for
the cell array (MazeGenerator.cpp line 66). -/
def GenerateMazeCachedGrid (Config : FMazeGenerationConfig)
    (Random : FRandomStream) : ByteGrid :=
  DirectionsToFloorWallGrid (GenerateMazeDirections Config Random)
    (Int.div (Config.SizeX + 1) 2, Int.div (Config.SizeY + 1) 2)
    (Config.SizeX, Config.SizeY)

lemma GenerateMaze_eq (Config : FMazeGenerationConfig)
    (Random : FRandomStream) :
    GenerateMaze Config Random =
      (intRange 0 (Config.SizeY - 1)).bind (fun Y =>
        (intRange 0 (Config.SizeX - 1)).map (fun X =>
          { GridPosition := (X, Y)
            WorldPosition :=
              ((X : ℚ) * Config.CellSize + Config.CellSize * (1 / 2),
                (Y : ℚ) * Config.CellSize + Config.CellSize * (1 / 2), 0)
            bIsFloor := decide
              (GenerateMazeCachedGrid Config Random (X, Y) = 1) })) := rfl

lemma mem_GenerateMaze (Config : FMazeGenerationConfig)
    (Random : FRandomStream) (c : FMazeCell) :
    c ∈ GenerateMaze Config Random ↔
      ∃ X Y : ℤ, 0 ≤ X ∧ X ≤ Config.SizeX - 1 ∧ 0 ≤ Y ∧
        Y ≤ Config.SizeY - 1 ∧
        c = { GridPosition := (X, Y)
              WorldPosition :=
                ((X : ℚ) * Config.CellSize + Config.CellSize * (1 / 2),
                  (Y : ℚ) * Config.CellSize + Config.CellSize * (1 / 2), 0)
              bIsFloor := decide
                (GenerateMazeCachedGrid Config Random (X, Y) = 1) } := by
  rw [GenerateMaze_eq]
  simp only [List.mem_bind, List.mem_map, intRange_eq,
    UMazePathfinder.mem_intRange]
  constructor
  · rintro ⟨Y, ⟨hY1, hY2⟩, X, ⟨hX1, hX2⟩, rfl⟩
    exact ⟨X, Y, hX1, hX2, hY1, hY2, rfl⟩
  · rintro ⟨X, Y, hX1, hX2, hY1, hY2, rfl⟩
    exact ⟨Y, ⟨hY1, hY2⟩, X, ⟨hX1, hX2⟩, rfl⟩

lemma GenerateMazeDirections_spec (Config : FMazeGenerationConfig)
    (Random : FRandomStream) (hx : 0 < Config.SizeX)
    (hy : 0 < Config.SizeY) :
    DirGridOK (Int.div (Config.SizeX + 1) 2, Int.div (Config.SizeY + 1) 2)
        (GenerateMazeDirections Config Random) ∧
      ∀ p q, inRoom (Int.div (Config.SizeX + 1) 2,
          Int.div (Config.SizeY + 1) 2) p →
        inRoom (Int.div (Config.SizeX + 1) 2,
          Int.div (Config.SizeY + 1) 2) q →
        RoomConn (GenerateMazeDirections Config Random) p q := by
  have hdx : (1 : ℤ) ≤ ((Int.div (Config.SizeX + 1) 2,
      Int.div (Config.SizeY + 1) 2) : FIntPoint).1 :=
    (intdiv2_facts Config.SizeX hx).1
  have hdy : (1 : ℤ) ≤ ((Int.div (Config.SizeX + 1) 2,
      Int.div (Config.SizeY + 1) 2) : FIntPoint).2 :=
    (intdiv2_facts Config.SizeY hy).1
  cases hA : Config.Algorithm with
  | RecursiveBacktracker =>
    have hGd : GenerateMazeDirections Config Random =
        (GenerateBacktracker (Int.div (Config.SizeX + 1) 2,
          Int.div (Config.SizeY + 1) 2) Random).1 := by
      unfold GenerateMazeDirections
      rw [hA]
    have h := Backtracker_grid_spec (Int.div (Config.SizeX + 1) 2,
      Int.div (Config.SizeY + 1) 2) Random hdx hdy
    rw [hGd]
    exact ⟨h.1, h.2.2⟩
  | Prims =>
    have hGd : GenerateMazeDirections Config Random =
        (GeneratePrims (Int.div (Config.SizeX + 1) 2,
          Int.div (Config.SizeY + 1) 2) Random).1 := by
      unfold GenerateMazeDirections
      rw [hA]
    have h := Prims_grid_spec (Int.div (Config.SizeX + 1) 2,
      Int.div (Config.SizeY + 1) 2) Random hdx hdy
    rw [hGd]
    exact ⟨h.1, h.2.2⟩
  | Kruskals =>
    have hGd : GenerateMazeDirections Config Random =
        (GenerateKruskals (Int.div (Config.SizeX + 1) 2,
          Int.div (Config.SizeY + 1) 2) Random).1 := by
      unfold GenerateMazeDirections
      rw [hA]
    have h := Kruskals_grid_spec (Int.div (Config.SizeX + 1) 2,
      Int.div (Config.SizeY + 1) 2) Random hdx hdy
    rw [hGd]
    exact ⟨h.1, h.2.2⟩

/-- Adjacency between two grid positions both occupied by floor cells of
the returned cell array, one cardinal step apart. -/
def MazeCellAdj (L : List FMazeCell) (p q : FIntPoint) : Prop :=
  (∃ c ∈ L, c.GridPosition = p ∧ c.bIsFloor = true) ∧
    (∃ c ∈ L, c.GridPosition = q ∧ c.bIsFloor = true) ∧
    ((q.1 - p.1).natAbs + (q.2 - p.2).natAbs = 1)

/-- C2: for every configuration with positive dimensions, any seed
stream, and any of the three algorithms, in the cell array returned by
GenerateMaze every floor cell is reachable from every other floor cell
via 4-connected floor-to-floor moves among the cells of the array. -/
theorem generate_floor_connected (Config : FMazeGenerationConfig)
    (Random : FRandomStream) (hx : 0 < Config.SizeX)
    (hy : 0 < Config.SizeY) :
    ∀ c1 ∈ GenerateMaze Config Random, ∀ c2 ∈ GenerateMaze Config Random,
      c1.bIsFloor = true → c2.bIsFloor = true →
      Relation.ReflTransGen (MazeCellAdj (GenerateMaze Config Random))
        c1.GridPosition c2.GridPosition := by
  obtain ⟨hOKd, hconnd⟩ := GenerateMazeDirections_spec Config Random hx hy
  have hfit1 : 2 * ((Int.div (Config.SizeX + 1) 2,
      Int.div (Config.SizeY + 1) 2) : FIntPoint).1 ≤
      ((Config.SizeX, Config.SizeY) : FIntPoint).1 + 1 :=
    (intdiv2_facts Config.SizeX hx).2
  have hfit2 : 2 * ((Int.div (Config.SizeX + 1) 2,
      Int.div (Config.SizeY + 1) 2) : FIntPoint).2 ≤
      ((Config.SizeX, Config.SizeY) : FIntPoint).2 + 1 :=
    (intdiv2_facts Config.SizeY hy).2
  obtain ⟨hGbounds, hGconn⟩ := floor_grid_connected
    (Int.div (Config.SizeX + 1) 2, Int.div (Config.SizeY + 1) 2)
    (Config.SizeX, Config.SizeY)
    (GenerateMazeDirections Config Random)
    (GenerateMazeCachedGrid Config Random)
    (fun q => DirectionsToFloorWallGrid_one
      (GenerateMazeDirections Config Random)
      (Int.div (Config.SizeX + 1) 2, Int.div (Config.SizeY + 1) 2)
      (Config.SizeX, Config.SizeY) q)
    hOKd hconnd hfit1 hfit2
  have hcellpos : ∀ q, GenerateMazeCachedGrid Config Random q = 1 →
      ∃ c ∈ GenerateMaze Config Random,
        c.GridPosition = q ∧ c.bIsFloor = true := by
    intro q hq
    have hb := hGbounds q hq
    have hb1 : (0 : ℤ) ≤ q.1 := hb.1
    have hb2 : q.1 < Config.SizeX := hb.2.1
    have hb3 : (0 : ℤ) ≤ q.2 := hb.2.2.1
    have hb4 : q.2 < Config.SizeY := hb.2.2.2
    refine ⟨{ GridPosition := (q.1, q.2)
              WorldPosition :=
                ((q.1 : ℚ) * Config.CellSize + Config.CellSize * (1 / 2),
                  (q.2 : ℚ) * Config.CellSize + Config.CellSize * (1 / 2), 0)
              bIsFloor := decide
                (GenerateMazeCachedGrid Config Random (q.1, q.2) = 1) },
      ?_, rfl, ?_⟩
    · rw [mem_GenerateMaze]
      exact ⟨q.1, q.2, hb1, by omega, hb3, by omega, rfl⟩
    · exact decide_eq_true hq
  have hposfloor : ∀ c ∈ GenerateMaze Config Random, c.bIsFloor = true →
      GenerateMazeCachedGrid Config Random c.GridPosition = 1 := by
    intro c hc hf
    rw [mem_GenerateMaze] at hc
    obtain ⟨X, Y, hX1, hX2, hY1, hY2, rfl⟩ := hc
    exact of_decide_eq_true hf
  intro c1 hc1 c2 hc2 hf1 hf2
  have hg1 := hposfloor c1 hc1 hf1
  have hg2 := hposfloor c2 hc2 hf2
  have hpath := hGconn c1.GridPosition c2.GridPosition hg1 hg2
  refine Relation.ReflTransGen.mono ?_ hpath
  rintro a b ⟨ha, hb, hd⟩
  obtain ⟨ca, hca, hcap, hcaf⟩ := hcellpos a ha
  obtain ⟨cb, hcb, hcbp, hcbf⟩ := hcellpos b hb
  exact ⟨⟨ca, hca, hcap, hcaf⟩, ⟨cb, hcb, hcbp, hcbf⟩, hd⟩

theorem generate_floor_connected_witness :
    ((0 : ℤ) < ({ Seed := 1, SizeX := 1, SizeY := 1,
                  Algorithm := EMazeGenerationAlgorithm.RecursiveBacktracker,
                  CellSize := 200, WallHeight := 300 } :
        FMazeGenerationConfig).SizeX ∧
      (0 : ℤ) < ({ Seed := 1, SizeX := 1, SizeY := 1,
                   Algorithm := EMazeGenerationAlgorithm.RecursiveBacktracker,
                   CellSize := 200, WallHeight := 300 } :
        FMazeGenerationConfig).SizeY) ∧
    (∀ c1 ∈ GenerateMaze
        { Seed := 1, SizeX := 1, SizeY := 1,
          Algorithm := EMazeGenerationAlgorithm.RecursiveBacktracker,
          CellSize := 200, WallHeight := 300 }
        (FRandomStream.mk (fun _ => 0) 0),
      ∀ c2 ∈ GenerateMaze
        { Seed := 1, SizeX := 1, SizeY := 1,
          Algorithm := EMazeGenerationAlgorithm.RecursiveBacktracker,
          CellSize := 200, WallHeight := 300 }
        (FRandomStream.mk (fun _ => 0) 0),
      c1.bIsFloor = true → c2.bIsFloor = true →
      Relation.ReflTransGen (MazeCellAdj (GenerateMaze
        { Seed := 1, SizeX := 1, SizeY := 1,
          Algorithm := EMazeGenerationAlgorithm.RecursiveBacktracker,
          CellSize := 200, WallHeight := 300 }
        (FRandomStream.mk (fun _ => 0) 0)))
        c1.GridPosition c2.GridPosition) :=
  ⟨⟨by decide, by decide⟩,
    generate_floor_connected
      { Seed := 1, SizeX := 1, SizeY := 1,
        Algorithm := EMazeGenerationAlgorithm.RecursiveBacktracker,
        CellSize := 200, WallHeight := 300 }
      (FRandomStream.mk (fun _ => 0) 0) (by decide) (by decide)⟩

/-- Counterexample to C4 as stated: the invalid configuration with width 0
and height 1 does not fail with a configuration error; GenerateMaze runs
to completion and returns an ordinary (empty) cell array. The source
performs no dimension validation at all (its only guard is the editor
clamp ClampMin = 5 on the config struct). -/
theorem generate_invalid_config_counterexample :
    GenerateMaze
        { Seed := 1, SizeX := 0, SizeY := 1
          Algorithm := EMazeGenerationAlgorithm.RecursiveBacktracker
          CellSize := 200, WallHeight := 300 }
        { f := fun _ => 0, idx := 0 } = [] := rfl

/-- C4 amended. GenerateMaze performs no validation of non-positive
dimensions: for the backtracker algorithm with width 0 and height 1 it
returns an empty cell array for every seed, silently, instead of a
configuration error. -/
theorem generate_no_dim_validation (f : ℕ → ℕ) (i : ℕ) (Seed : ℤ)
    (cs wh : ℚ) :
    GenerateMaze
        { Seed := Seed, SizeX := 0, SizeY := 1
          Algorithm := EMazeGenerationAlgorithm.RecursiveBacktracker
          CellSize := cs, WallHeight := wh }
        { f := f, idx := i } = [] := rfl

end Unmasked
